import Mathlib

/-!
Verification development for the `qti-html-renderer` library (`src/index.ts`).

The library transforms QTI 3.0 assessment-item XML into HTML in two modes
(scoring and report) and provides two HTML post-processing utilities.  The XML
parsing primitive is an external collaborator, so the embedding works on the
already-parsed document tree (`XNode`).  Element names are the DOM
`localName`s (the source's `getElementsByTagNameNS('*', …)` lookup is
namespace-agnostic, so modelling names as local names is faithful).  Strings
are modelled as Lean `String`s; `length`/`slice` positions count characters
(the renderer never splits surrogate pairs on the inputs of interest).
-/

/-! Parsed XML/HTML node: text node or element with attributes and children.
A mutual `XForest` is used instead of `List XNode` so that all recursive
definitions are structural (and hence kernel-reducible). -/
mutual
inductive XNode where
  | text (s : String)
  | elem (name : String) (attrs : List (String × String)) (kids : XForest)
  deriving DecidableEq, Repr
inductive XForest where
  | nil
  | cons (x : XNode) (f : XForest)
  deriving DecidableEq, Repr
end

/-- DOM `Element.getAttribute`: value of the first attribute with that name,
`none` when absent (attribute names are unique on a DOM element, so "first"
is exact). -/
def getAttr : List (String × String) → String → Option String
  | [], _ => none
  | p :: t, nm => if p.1 == nm then some p.2 else getAttr t nm

def attrsOf : XNode → List (String × String)
  | .text _ => []
  | .elem _ a _ => a

def kidsOf : XNode → XForest
  | .text _ => .nil
  | .elem _ _ kids => kids

/-- The JavaScript `\s` / `String.trim` whitespace class, restricted to the
characters that can actually appear here (ASCII whitespace plus NBSP). -/
def isJsSpace (c : Char) : Bool :=
  c = ' ' || c = '\t' || c = '\n' || c = '\r' || c = '\x0b' || c = '\x0c' || c = '\u00A0'

/-- JavaScript `String.prototype.trim`. -/
def jsTrim (s : String) : String :=
  ⟨((s.data.dropWhile isJsSpace).reverse.dropWhile isJsSpace).reverse⟩

/-- Source `escapeHtml` (src/index.ts:110-116).  The source applies five global
character replacements in sequence (`&`, `<`, `>`, `"`, `'`); since the
replacement texts for the later characters contain none of the earlier ones
apart from the initially-replaced `&`, the sequential replacement equals
this per-character expansion. -/
def escChar (c : Char) : List Char :=
  if c = '&' then "&amp;".data
  else if c = '<' then "&lt;".data
  else if c = '>' then "&gt;".data
  else if c = '"' then "&quot;".data
  else if c = '\'' then "&#39;".data
  else [c]

def escapeHtml (s : String) : String :=
  ⟨s.data.flatMap escChar⟩

/-- Substring test (JavaScript `String.prototype.includes`). -/
def subAt : List Char → List Char → Bool
  | needle, [] => needle.isEmpty
  | needle, c :: rest => needle.isPrefixOf (c :: rest) || subAt needle rest

def strIncludes (hay needle : String) : Bool :=
  subAt needle.data hay.data

/-! Concatenated text content of a node (DOM `textContent`). -/
mutual
def textContentN : XNode → String
  | .text s => s
  | .elem _ _ kids => textContentF kids
def textContentF : XForest → String
  | .nil => ""
  | .cons x f => textContentN x ++ textContentF f
end

/-! `getElementsByLocalName` (src/index.ts:126-130): all descendant elements
with the given local name, in document (pre-order) order, the root itself
excluded. -/
mutual
def namedDescSelf (nm : String) : XNode → List XNode
  | .text _ => []
  | .elem n a kids =>
    (if n = nm then [XNode.elem n a kids] else []) ++ namedDescF nm kids
def namedDescF (nm : String) : XForest → List XNode
  | .nil => []
  | .cons x f => namedDescSelf nm x ++ namedDescF nm f
end

def getElementsByLocalName (root : XNode) (nm : String) : List XNode :=
  namedDescF nm (kidsOf root)

/-! ## Rubric criteria and choices -/

structure RubricCriterion where
  index : Nat
  points : ℚ
  text : String
  deriving DecidableEq, Repr

structure ChoiceOption where
  identifier : String
  text : String
  deriving DecidableEq, Repr

def natOfDigits (ds : List Char) : Nat :=
  ds.foldl (fun acc c => acc * 10 + (c.toNat - '0'.toNat)) 0

/-- Value of `Number.parseFloat` on a string matching `\d+(\.\d+)?`: the exact decimal
value. -/
def ratOfDecimalDigits (intPart fracPart : List Char) : ℚ :=
  (natOfDigits intPart : ℚ) + (natOfDigits fracPart : ℚ) / ((10 : ℚ) ^ fracPart.length)

/-- A JavaScript regex line terminator (not matched by `.`). -/
def isLineTerm (c : Char) : Bool :=
  c = '\n' || c = '\r' || c = '\u2028' || c = '\u2029'

/-- Source `parseCriterionText` (src/index.ts:132-139): match the trimmed text
against `^\[(\d+(?:\.\d+)?)\]\s*(.*)$`, returning `(points, text)`.  Because
`\s*` is greedy and `(.*)` cannot match a line terminator, the regex matches
exactly when, after the bracketed number, the remainder minus its leading
whitespace contains no line terminator; that remainder is the second group. -/
def parseCriterionText (rawText : String) : ℚ × String :=
  let trimmed := jsTrim rawText
  let noMatch : ℚ × String := (0, trimmed)
  match trimmed.data with
  | '[' :: rest =>
    let intPart := rest.takeWhile Char.isDigit
    if intPart.isEmpty then noMatch else
      let afterInt := rest.drop intPart.length
      let (fracPart, afterNum) :=
        match afterInt with
        | '.' :: rest2 =>
          let fp := rest2.takeWhile Char.isDigit
          if fp.isEmpty then (([] : List Char), afterInt) else (fp, rest2.drop fp.length)
        | _ => (([] : List Char), afterInt)
      match afterNum with
      | ']' :: rem =>
        let body := rem.dropWhile isJsSpace
        if body.any isLineTerm then noMatch
        else (ratOfDecimalDigits intPart fracPart, jsTrim ⟨body⟩)
      | _ => noMatch
  | _ => noMatch

/-- Source `extractRubricCriteria` (src/index.ts:141-153). -/
def extractRubricCriteria (itemBody : XNode) : List RubricCriterion :=
  let rubricBlocks := getElementsByLocalName itemBody "qti-rubric-block"
  match rubricBlocks.find? (fun b => getAttr (attrsOf b) "view" == some "scorer") with
  | none => []
  | some scorer =>
    let lines := getElementsByLocalName scorer "qti-p"
    (lines.map (fun l => parseCriterionText (jsTrim (textContentN l)))).enum.map
      (fun p => ⟨p.1 + 1, p.2.1, p.2.2⟩)

/-- Source `extractChoices` (src/index.ts:155-161). -/
def extractChoices (itemBody : XNode) : List ChoiceOption :=
  (getElementsByLocalName itemBody "qti-simple-choice").map (fun ch =>
    { identifier := (getAttr (attrsOf ch) "identifier").getD ""
      text := jsTrim (textContentN ch) })

/-! ## Scoring renderer (src/index.ts:186-329) -/

structure ScoringRenderOptions where
  blankRenderer : Nat → String
  extendedTextRenderer : String
  choiceListClassName : String
  preWithBlanksClassName : String

/-- Default scoring options (src/index.ts:69-75).  The source's
`extendedTextRenderer` is a constant thunk; it is modelled as the string it
returns. -/
def defaultScoringOptions : ScoringRenderOptions where
  blankRenderer := fun index =>
    "<input class=\"qti-blank-input\" data-blank=\"" ++ toString index ++
      "\" type=\"text\" size=\"6\" disabled aria-label=\"blank " ++ toString index ++ "\" />"
  extendedTextRenderer := "<span class=\"qti-extended-placeholder\">（記述）</span>"
  choiceListClassName := "qti-choice-list"
  preWithBlanksClassName := "qti-pre-with-blanks"

/-- Predicate `isBlank` from src/index.ts:234-235: an element node whose local
name is `qti-text-entry-interaction`. -/
def isBlankNode : XNode → Bool
  | .elem n _ _ => n == "qti-text-entry-interaction"
  | .text _ => false

/-- Whitespace-only text node: dropped from `significantNodes`
(src/index.ts:236-239) and from explanation child nodes (src/index.ts:347-349). -/
def isWsText : XNode → Bool
  | .text s => jsTrim s == ""
  | .elem _ _ _ => false

/-- Whether the first significant following sibling is a blank interaction
(src/index.ts:262-264). -/
def nextSigBlank : XForest → Bool
  | .nil => false
  | .cons x f => if isWsText x then nextSigBlank f else isBlankNode x

/-- Check `significantNodes.some(isBlank)` (src/index.ts:258); whitespace-only
text nodes are never blank interactions, so the filter is irrelevant here. -/
def anyDirectBlank : XForest → Bool
  | .nil => false
  | .cons x f => isBlankNode x || anyDirectBlank f

/-- Leading-whitespace trim inside `renderCodeInPre` (src/index.ts:244-249):
remove the leading `\s+` span only when it is non-empty and contains no
newline and no carriage return. -/
def trimCodeLead (s : String) : String :=
  let leading := s.data.takeWhile isJsSpace
  if leading ≠ [] ∧ '\n' ∉ leading ∧ '\r' ∉ leading then ⟨s.data.drop leading.length⟩
  else s

/-- Trailing-whitespace trim inside `renderCodeInPre` (src/index.ts:250-255). -/
def trimCodeTrail (s : String) : String :=
  let trailing := s.data.reverse.takeWhile isJsSpace
  if trailing ≠ [] ∧ '\n' ∉ trailing ∧ '\r' ∉ trailing then
    ⟨s.data.take (s.data.length - trailing.length)⟩
  else s

/-- Optional escaped attribute in the output, omitted when the value is absent
or empty (the source tests the raw string for truthiness). -/
def optEscAttr (nm : String) (v : Option String) : String :=
  match v with
  | some s => if s = "" then "" else " " ++ nm ++ "=\"" ++ escapeHtml s ++ "\""
  | none => ""

/-! Source `renderNodeForScoring` (src/index.ts:186-329), with the blank
counter threaded explicitly: the result is the rendered HTML together with
the counter value after the call.  `renderPreKidsForScoring` renders the
children of a `qti-pre` element: it walks the child list skipping
whitespace-only text nodes (the source's `significantNodes` filter), so the
`prevBlank`/`nextBlank` neighbours are the adjacent *significant* siblings,
exactly as in src/index.ts:259-268.  `renderChoiceScanForScoring` renders one
`<li>` per descendant `qti-simple-choice` in document order — the lemma
`renderChoiceScan_eq_listed` below proves this scan equal to the source's
iteration over `getElementsByLocalName(el, 'qti-simple-choice')`. -/
mutual

def renderNodeForScoring (opts : ScoringRenderOptions) (inPre preserveWhitespace : Bool) :
    XNode → Nat → String × Nat
  | .text s, c =>
    (if inPre && !preserveWhitespace && jsTrim s == "" then "" else escapeHtml s, c)
  | .elem name attrs kids, c =>
    if name = "qti-p" then
      let r := renderForestForScoring opts inPre preserveWhitespace kids c
      ("<p>" ++ r.1 ++ "</p>", r.2)
    else if name = "qti-h3" ∨ name = "qti-h4" ∨ name = "qti-h5" ∨ name = "qti-h6" then
      let level : String := ⟨name.data.drop (name.data.length - 2)⟩
      let r := renderForestForScoring opts inPre preserveWhitespace kids c
      ("<" ++ level ++ ">" ++ r.1 ++ "</" ++ level ++ ">", r.2)
    else if name = "qti-em" then
      let r := renderForestForScoring opts inPre preserveWhitespace kids c
      ("<em>" ++ r.1 ++ "</em>", r.2)
    else if name = "qti-strong" then
      let r := renderForestForScoring opts inPre preserveWhitespace kids c
      ("<strong>" ++ r.1 ++ "</strong>", r.2)
    else if name = "qti-del" then
      let r := renderForestForScoring opts inPre preserveWhitespace kids c
      ("<del>" ++ r.1 ++ "</del>", r.2)
    else if name = "qti-a" then
      let r := renderForestForScoring opts inPre preserveWhitespace kids c
      ("<a" ++ optEscAttr "href" (getAttr attrs "href") ++
        optEscAttr "title" (getAttr attrs "title") ++ ">" ++ r.1 ++ "</a>", r.2)
    else if name = "qti-code" then
      let r := renderForestForScoring opts inPre true kids c
      ("<code>" ++ r.1 ++ "</code>", r.2)
    else if name = "qti-pre" then
      let r := renderPreKidsForScoring opts false kids c
      let classAttr :=
        if anyDirectBlank kids then " class=\"" ++ opts.preWithBlanksClassName ++ "\"" else ""
      ("<pre" ++ classAttr ++ ">" ++ r.1 ++ "</pre>", r.2)
    else if name = "qti-blockquote" then
      let r := renderForestForScoring opts inPre preserveWhitespace kids c
      ("<blockquote>" ++ r.1 ++ "</blockquote>", r.2)
    else if name = "qti-ul" then
      let r := renderForestForScoring opts inPre preserveWhitespace kids c
      ("<ul>" ++ r.1 ++ "</ul>", r.2)
    else if name = "qti-ol" then
      let r := renderForestForScoring opts inPre preserveWhitespace kids c
      ("<ol" ++ optEscAttr "start" (getAttr attrs "start") ++ ">" ++ r.1 ++ "</ol>", r.2)
    else if name = "qti-li" then
      let r := renderForestForScoring opts inPre preserveWhitespace kids c
      ("<li>" ++ r.1 ++ "</li>", r.2)
    else if name = "qti-table" then
      let r := renderForestForScoring opts inPre preserveWhitespace kids c
      ("<table>" ++ r.1 ++ "</table>", r.2)
    else if name = "qti-thead" then
      let r := renderForestForScoring opts inPre preserveWhitespace kids c
      ("<thead>" ++ r.1 ++ "</thead>", r.2)
    else if name = "qti-tbody" then
      let r := renderForestForScoring opts inPre preserveWhitespace kids c
      ("<tbody>" ++ r.1 ++ "</tbody>", r.2)
    else if name = "qti-tr" then
      let r := renderForestForScoring opts inPre preserveWhitespace kids c
      ("<tr>" ++ r.1 ++ "</tr>", r.2)
    else if name = "qti-th" then
      let r := renderForestForScoring opts inPre preserveWhitespace kids c
      ("<th>" ++ r.1 ++ "</th>", r.2)
    else if name = "qti-td" then
      let r := renderForestForScoring opts inPre preserveWhitespace kids c
      ("<td>" ++ r.1 ++ "</td>", r.2)
    else if name = "qti-hr" then ("<hr />", c)
    else if name = "qti-img" then
      ("<img src=\"" ++ escapeHtml ((getAttr attrs "src").getD "") ++ "\" alt=\"" ++
        escapeHtml ((getAttr attrs "alt").getD "") ++ "\"" ++
        optEscAttr "title" (getAttr attrs "title") ++ " />", c)
    else if name = "qti-text-entry-interaction" then
      (opts.blankRenderer (c + 1), c + 1)
    else if name = "qti-extended-text-interaction" then (opts.extendedTextRenderer, c)
    else if name = "qti-choice-interaction" then
      let r := renderChoiceScanForScoring opts kids c
      ("<ol class=\"" ++ opts.choiceListClassName ++ "\">" ++ r.1 ++ "</ol>", r.2)
    else if name = "qti-rubric-block" then ("", c)
    else renderForestForScoring opts inPre preserveWhitespace kids c

def renderForestForScoring (opts : ScoringRenderOptions) (inPre preserveWhitespace : Bool) :
    XForest → Nat → String × Nat
  | .nil, c => ("", c)
  | .cons x f, c =>
    let r := renderNodeForScoring opts inPre preserveWhitespace x c
    let r2 := renderForestForScoring opts inPre preserveWhitespace f r.2
    (r.1 ++ r2.1, r2.2)

def renderPreKidsForScoring (opts : ScoringRenderOptions) (prevBlank : Bool) :
    XForest → Nat → String × Nat
  | .nil, c => ("", c)
  | .cons x f, c =>
    if isWsText x then renderPreKidsForScoring opts prevBlank f c
    else
      let r :=
        match x with
        | .elem n na kkids =>
          if n = "qti-code" then
            let rc := renderForestForScoring opts true true kkids c
            let i1 := if prevBlank then trimCodeLead rc.1 else rc.1
            let i2 := if nextSigBlank f then trimCodeTrail i1 else i1
            ("<code>" ++ i2 ++ "</code>", rc.2)
          else renderNodeForScoring opts true false (.elem n na kkids) c
        | .text s => renderNodeForScoring opts true false (.text s) c
      let r2 := renderPreKidsForScoring opts (isBlankNode x) f r.2
      (r.1 ++ r2.1, r2.2)

def renderChoiceScanForScoring (opts : ScoringRenderOptions) :
    XForest → Nat → String × Nat
  | .nil, c => ("", c)
  | .cons (.text _) f, c => renderChoiceScanForScoring opts f c
  | .cons (.elem n a kkids) f, c =>
    if n = "qti-simple-choice" then
      let r := renderForestForScoring opts false false kkids c
      let li := "<li data-choice=\"" ++ escapeHtml ((getAttr a "identifier").getD "") ++
        "\">" ++ r.1 ++ "</li>"
      let r2 := renderChoiceScanForScoring opts kkids r.2
      let r3 := renderChoiceScanForScoring opts f r2.2
      (li ++ r2.1 ++ r3.1, r3.2)
    else
      let r := renderChoiceScanForScoring opts kkids c
      let r2 := renderChoiceScanForScoring opts f r.2
      (r.1 ++ r2.1, r2.2)

end

/-- Source `renderCodeInPre` (src/index.ts:240-257): render the children of a
direct `qti-code` child of a `qti-pre` with whitespace preserved, then trim a
single non-newline whitespace span on each side that abuts a blank
interaction.  The `qti-code` branch of `renderPreKidsForScoring` is exactly
this function (see `renderPreKids_code_eq`). -/
def renderCodeInPre (opts : ScoringRenderOptions) (codeKids : XForest)
    (trimStart trimEnd : Bool) (c : Nat) : String × Nat :=
  let r := renderForestForScoring opts true true codeKids c
  let i1 := if trimStart then trimCodeLead r.1 else r.1
  let i2 := if trimEnd then trimCodeTrail i1 else i1
  ("<code>" ++ i2 ++ "</code>", r.2)

/-- Connection of the `qti-code` branch of the pre-child walk to
`renderCodeInPre` (src/index.ts:260-268): a direct `qti-code` child is
rendered by `renderCodeInPre` with `trimStart`/`trimEnd` given by whether the
adjacent significant siblings are blank interactions. -/
theorem renderPreKids_code_eq (opts : ScoringRenderOptions) (pb : Bool)
    (na : List (String × String)) (kkids : XForest) (f : XForest) (c : Nat) :
    renderPreKidsForScoring opts pb (.cons (.elem "qti-code" na kkids) f) c =
      ((renderCodeInPre opts kkids pb (nextSigBlank f) c).1 ++
        (renderPreKidsForScoring opts false f
          (renderCodeInPre opts kkids pb (nextSigBlank f) c).2).1,
       (renderPreKidsForScoring opts false f
         (renderCodeInPre opts kkids pb (nextSigBlank f) c).2).2) := by
  simp [renderPreKidsForScoring, renderCodeInPre, isWsText, isBlankNode]

/-- Fold over an explicit list of simple-choice elements, rendering one
`<li>` per choice — the literal shape of src/index.ts:312-321. -/
def renderChoicesListed (opts : ScoringRenderOptions) :
    List XNode → Nat → String × Nat
  | [], c => ("", c)
  | ch :: rest, c =>
    let r := renderForestForScoring opts false false (kidsOf ch) c
    let li := "<li data-choice=\"" ++ escapeHtml ((getAttr (attrsOf ch) "identifier").getD "") ++
      "\">" ++ r.1 ++ "</li>"
    let r2 := renderChoicesListed opts rest r.2
    (li ++ r2.1, r2.2)

theorem renderChoicesListed_append (opts : ScoringRenderOptions) (l1 l2 : List XNode) (c : Nat) :
    renderChoicesListed opts (l1 ++ l2) c =
      ((renderChoicesListed opts l1 c).1 ++
        (renderChoicesListed opts l2 (renderChoicesListed opts l1 c).2).1,
       (renderChoicesListed opts l2 (renderChoicesListed opts l1 c).2).2) := by
  induction l1 generalizing c with
  | nil => simp [renderChoicesListed]
  | cons ch rest ih => simp [renderChoicesListed, ih, String.append_assoc]

/-- Fidelity of the fused choice scan: it equals the source's iteration over
`getElementsByLocalName(el, 'qti-simple-choice')` (all descendant
simple-choice elements in document order), rendering each choice's children. -/
theorem renderChoiceScan_eq_listed (opts : ScoringRenderOptions) :
    ∀ f c, renderChoiceScanForScoring opts f c =
      renderChoicesListed opts (namedDescF "qti-simple-choice" f) c
  | .nil, c => by simp [renderChoiceScanForScoring, namedDescF, renderChoicesListed]
  | .cons (.text s) f, c => by
    simp [renderChoiceScanForScoring, namedDescF, namedDescSelf,
      renderChoiceScan_eq_listed opts f c]
  | .cons (.elem n a kkids) f, c => by
    by_cases h : n = "qti-simple-choice"
    · subst h
      simp only [renderChoiceScanForScoring, namedDescF, namedDescSelf, if_pos rfl]
      rw [renderChoiceScan_eq_listed opts kkids, renderChoiceScan_eq_listed opts f,
        renderChoicesListed_append]
      simp [renderChoicesListed, kidsOf, attrsOf, String.append_assoc]
    · simp only [renderChoiceScanForScoring, namedDescF, namedDescSelf, if_neg h]
      rw [renderChoiceScan_eq_listed opts kkids, renderChoiceScan_eq_listed opts f,
        renderChoicesListed_append]
      simp

/-! ## Scoring entry point (src/index.ts:331-387) -/

structure ParsedItemForScoring where
  identifier : String
  title : String
  promptHtml : String
  rubricCriteria : List RubricCriterion
  choices : List ChoiceOption
  candidateExplanationHtml : Option String
  deriving DecidableEq, Repr

/-- Filter keeping the non-whitespace-only child nodes (src/index.ts:347-349,
same predicate as the `significantNodes` filter). -/
def filterSignificantF : XForest → XForest
  | .nil => .nil
  | .cons x f => if isWsText x then filterSignificantF f else .cons x (filterSignificantF f)

/-- Explanation lookup of `parseCandidateExplanation` (src/index.ts:335-349):
the EXPLANATION modal feedback (preferring `outcome-identifier="FEEDBACK"`),
its first content body, and that body's significant child nodes. -/
def explanationNodes (root : XNode) : Option XForest :=
  let modalFeedbacks := getElementsByLocalName root "qti-modal-feedback"
  let explanationFeedback :=
    (modalFeedbacks.find? (fun fb =>
        getAttr (attrsOf fb) "identifier" == some "EXPLANATION" &&
        getAttr (attrsOf fb) "outcome-identifier" == some "FEEDBACK")) <|>
      (modalFeedbacks.find? (fun fb => getAttr (attrsOf fb) "identifier" == some "EXPLANATION"))
  match explanationFeedback with
  | none => none
  | some fb =>
    match (getElementsByLocalName fb "qti-content-body").head? with
    | none => none
    | some cb => some (filterSignificantF (kidsOf cb))

/-- Source `parseCandidateExplanation` (src/index.ts:331-353).  Note: the
source creates a fresh blank counter `{ value: 0 }` (src/index.ts:346), so the
explanation render starts counting blanks at 0 again. -/
def parseCandidateExplanation (root : XNode) (opts : ScoringRenderOptions) : Option String :=
  (explanationNodes root).map (fun nodes => (renderForestForScoring opts false false nodes 0).1)

/-- Source `renderQtiItemForScoring` (src/index.ts:355-387), taking the parsed
document root (XML parsing is an external collaborator; a failed parse is the
`text` case or a `parsererror` root).  Thrown `Error`s are modelled as
`Except.error` carrying the thrown message. -/
def renderQtiItemForScoring (root : XNode) (opts : ScoringRenderOptions) :
    Except String ParsedItemForScoring :=
  match root with
  | .text _ => .error "QTI item XML parse failed"
  | .elem name attrs kids =>
    if name = "parsererror" then .error "QTI item XML parse failed"
    else
      let identifier := (getAttr attrs "identifier").getD ""
      let title := (getAttr attrs "title").getD identifier
      match (namedDescF "qti-item-body" kids).head? with
      | none => .error "qti-item-body not found"
      | some itemBody =>
        .ok { identifier := identifier
              title := title
              promptHtml := (renderForestForScoring opts false false (kidsOf itemBody) 0).1
              rubricCriteria := extractRubricCriteria itemBody
              choices := extractChoices itemBody
              candidateExplanationHtml :=
                parseCandidateExplanation (.elem name attrs kids) opts }

/-! ## Blank bookkeeping mirrors

`visitBlanks*` lists, in traversal order, the `qti-text-entry-interaction`
elements for which the scoring renderer invokes the blank renderer; it mirrors
the traversal of `renderNodeForScoring` case by case (the branches that do not
recurse — `qti-hr`, `qti-img`, the two interactions, `qti-rubric-block` —
contribute nothing beyond the interaction element itself).  `blankIdx*`
likewise mirrors the indices passed to `opts.blankRenderer`.  The lemma
`renderForest_counter` ties the mirrors to the renderer: the final counter of
a render equals the initial counter plus the number of visited blanks. -/

mutual
def visitBlanksN : XNode → List XNode
  | .text _ => []
  | .elem name attrs kids =>
    if name = "qti-text-entry-interaction" then [.elem name attrs kids]
    else if name = "qti-extended-text-interaction" ∨ name = "qti-hr" ∨ name = "qti-img"
        ∨ name = "qti-rubric-block" then []
    else if name = "qti-choice-interaction" then visitBlanksChoiceF kids
    else visitBlanksF kids
def visitBlanksF : XForest → List XNode
  | .nil => []
  | .cons x f => visitBlanksN x ++ visitBlanksF f
def visitBlanksChoiceF : XForest → List XNode
  | .nil => []
  | .cons (.text _) f => visitBlanksChoiceF f
  | .cons (.elem n _ kkids) f =>
    if n = "qti-simple-choice" then
      visitBlanksF kkids ++ visitBlanksChoiceF kkids ++ visitBlanksChoiceF f
    else visitBlanksChoiceF kkids ++ visitBlanksChoiceF f
end

mutual
def blankIdxN : XNode → Nat → List Nat × Nat
  | .text _, c => ([], c)
  | .elem name _ kids, c =>
    if name = "qti-text-entry-interaction" then ([c + 1], c + 1)
    else if name = "qti-extended-text-interaction" ∨ name = "qti-hr" ∨ name = "qti-img"
        ∨ name = "qti-rubric-block" then ([], c)
    else if name = "qti-choice-interaction" then blankIdxChoiceF kids c
    else blankIdxF kids c
def blankIdxF : XForest → Nat → List Nat × Nat
  | .nil, c => ([], c)
  | .cons x f, c =>
    let r := blankIdxN x c
    let r2 := blankIdxF f r.2
    (r.1 ++ r2.1, r2.2)
def blankIdxChoiceF : XForest → Nat → List Nat × Nat
  | .nil, c => ([], c)
  | .cons (.text _) f, c => blankIdxChoiceF f c
  | .cons (.elem n _ kkids) f, c =>
    if n = "qti-simple-choice" then
      let r := blankIdxF kkids c
      let r2 := blankIdxChoiceF kkids r.2
      let r3 := blankIdxChoiceF f r2.2
      (r.1 ++ r2.1 ++ r3.1, r3.2)
    else
      let r := blankIdxChoiceF kkids c
      let r2 := blankIdxChoiceF f r.2
      (r.1 ++ r2.1, r2.2)
end

/-- Document-order list of all `qti-text-entry-interaction` elements in a
node's subtree (the node itself included): these are the blanks of the
document in document order. -/
def docBlanksN (t : XNode) : List XNode :=
  namedDescSelf "qti-text-entry-interaction" t

def docBlanksF (f : XForest) : List XNode :=
  namedDescF "qti-text-entry-interaction" f

/-- Document-order blanks a `qti-choice-interaction`'s rendering reaches: the
blanks inside the children of each descendant simple-choice, in scan order. -/
def choiceDocScanF : XForest → List XNode
  | .nil => []
  | .cons (.text _) f => choiceDocScanF f
  | .cons (.elem n _ kkids) f =>
    if n = "qti-simple-choice" then
      docBlanksF kkids ++ choiceDocScanF kkids ++ choiceDocScanF f
    else choiceDocScanF kkids ++ choiceDocScanF f

mutual
def blanksWfN : XNode → Bool
  | .text _ => true
  | .elem name _ kids =>
    if name = "qti-text-entry-interaction" ∨ name = "qti-extended-text-interaction"
        ∨ name = "qti-hr" ∨ name = "qti-img" ∨ name = "qti-rubric-block" then
      (docBlanksF kids).isEmpty
    else if name = "qti-choice-interaction" then
      (choiceDocScanF kids == docBlanksF kids) && blanksWfChoiceF kids
    else blanksWfF kids
def blanksWfF : XForest → Bool
  | .nil => true
  | .cons x f => blanksWfN x && blanksWfF f
def blanksWfChoiceF : XForest → Bool
  | .nil => true
  | .cons (.text _) f => blanksWfChoiceF f
  | .cons (.elem n _ kkids) f =>
    if n = "qti-simple-choice" then
      blanksWfF kkids && blanksWfChoiceF kkids && blanksWfChoiceF f
    else blanksWfChoiceF kkids && blanksWfChoiceF f
end

/-! Case equations for `renderNodeForScoring`, each holding by definitional
reduction; later proofs rewrite with these instead of unfolding the whole
dispatch. -/

theorem renderNode_eq_text (opts : ScoringRenderOptions) (ip pw : Bool) (s : String) (c : Nat) :
    renderNodeForScoring opts ip pw (.text s) c =
      (if ip && !pw && jsTrim s == "" then "" else escapeHtml s, c) := rfl

theorem renderNode_eq_blank (opts : ScoringRenderOptions) (ip pw : Bool)
    (attrs : List (String × String)) (kids : XForest) (c : Nat) :
    renderNodeForScoring opts ip pw (.elem "qti-text-entry-interaction" attrs kids) c =
      (opts.blankRenderer (c + 1), c + 1) := rfl

theorem renderNode_eq_extended (opts : ScoringRenderOptions) (ip pw : Bool)
    (attrs : List (String × String)) (kids : XForest) (c : Nat) :
    renderNodeForScoring opts ip pw (.elem "qti-extended-text-interaction" attrs kids) c =
      (opts.extendedTextRenderer, c) := rfl

theorem renderNode_eq_hr (opts : ScoringRenderOptions) (ip pw : Bool)
    (attrs : List (String × String)) (kids : XForest) (c : Nat) :
    renderNodeForScoring opts ip pw (.elem "qti-hr" attrs kids) c = ("<hr />", c) := rfl

theorem renderNode_eq_img (opts : ScoringRenderOptions) (ip pw : Bool)
    (attrs : List (String × String)) (kids : XForest) (c : Nat) :
    renderNodeForScoring opts ip pw (.elem "qti-img" attrs kids) c =
      ("<img src=\"" ++ escapeHtml ((getAttr attrs "src").getD "") ++ "\" alt=\"" ++
        escapeHtml ((getAttr attrs "alt").getD "") ++ "\"" ++
        optEscAttr "title" (getAttr attrs "title") ++ " />", c) := rfl

theorem renderNode_eq_rubric (opts : ScoringRenderOptions) (ip pw : Bool)
    (attrs : List (String × String)) (kids : XForest) (c : Nat) :
    renderNodeForScoring opts ip pw (.elem "qti-rubric-block" attrs kids) c = ("", c) := rfl

theorem renderNode_eq_choice (opts : ScoringRenderOptions) (ip pw : Bool)
    (attrs : List (String × String)) (kids : XForest) (c : Nat) :
    renderNodeForScoring opts ip pw (.elem "qti-choice-interaction" attrs kids) c =
      ("<ol class=\"" ++ opts.choiceListClassName ++ "\">" ++
        (renderChoiceScanForScoring opts kids c).1 ++ "</ol>",
        (renderChoiceScanForScoring opts kids c).2) := rfl

theorem renderNode_eq_pre (opts : ScoringRenderOptions) (ip pw : Bool)
    (attrs : List (String × String)) (kids : XForest) (c : Nat) :
    renderNodeForScoring opts ip pw (.elem "qti-pre" attrs kids) c =
      ("<pre" ++ (if anyDirectBlank kids then " class=\"" ++ opts.preWithBlanksClassName ++ "\""
          else "") ++ ">" ++ (renderPreKidsForScoring opts false kids c).1 ++ "</pre>",
        (renderPreKidsForScoring opts false kids c).2) := rfl

theorem renderNode_eq_code (opts : ScoringRenderOptions) (ip pw : Bool)
    (attrs : List (String × String)) (kids : XForest) (c : Nat) :
    renderNodeForScoring opts ip pw (.elem "qti-code" attrs kids) c =
      ("<code>" ++ (renderForestForScoring opts ip true kids c).1 ++ "</code>",
        (renderForestForScoring opts ip true kids c).2) := rfl

theorem renderForest_eq_nil (opts : ScoringRenderOptions) (ip pw : Bool) (c : Nat) :
    renderForestForScoring opts ip pw .nil c = ("", c) := rfl

theorem renderForest_eq_cons (opts : ScoringRenderOptions) (ip pw : Bool) (x : XNode)
    (f : XForest) (c : Nat) :
    renderForestForScoring opts ip pw (.cons x f) c =
      ((renderNodeForScoring opts ip pw x c).1 ++
        (renderForestForScoring opts ip pw f (renderNodeForScoring opts ip pw x c).2).1,
        (renderForestForScoring opts ip pw f (renderNodeForScoring opts ip pw x c).2).2) := rfl

set_option maxHeartbeats 1000000

mutual

theorem renderNode_counter (opts : ScoringRenderOptions) (ip pw : Bool) (t : XNode) (c : Nat) :
    (renderNodeForScoring opts ip pw t c).2 = c + (visitBlanksN t).length := by
  cases t with
  | text s => simp [renderNode_eq_text, visitBlanksN]
  | elem name attrs kids =>
    by_cases hte : name = "qti-text-entry-interaction"
    · subst hte; simp [renderNode_eq_blank, visitBlanksN]
    · by_cases hex : name = "qti-extended-text-interaction"
      · subst hex; simp [renderNode_eq_extended, visitBlanksN]
      · by_cases hhr : name = "qti-hr"
        · subst hhr; simp [renderNode_eq_hr, visitBlanksN]
        · by_cases himg : name = "qti-img"
          · subst himg; simp [renderNode_eq_img, visitBlanksN]
          · by_cases hrb : name = "qti-rubric-block"
            · subst hrb; simp [renderNode_eq_rubric, visitBlanksN]
            · by_cases hch : name = "qti-choice-interaction"
              · subst hch
                simp [renderNode_eq_choice, visitBlanksN,
                  renderChoiceScan_counter opts kids c]
              · by_cases hpre : name = "qti-pre"
                · subst hpre
                  simp [renderNode_eq_pre, visitBlanksN,
                    renderPreKids_counter opts false kids c]
                · by_cases hcode : name = "qti-code"
                  · subst hcode
                    simp [renderNode_eq_code, visitBlanksN,
                      renderForest_counter opts ip true kids c]
                  · rw [renderNodeForScoring.eq_def]
                    simp only [visitBlanksN, hte, hex, hhr, himg, hrb, hch, hpre, hcode,
                      if_false, ite_false]
                    simp [apply_ite (f := Prod.snd), ite_self,
                      renderForest_counter opts ip pw kids c]

theorem renderForest_counter (opts : ScoringRenderOptions) (ip pw : Bool) (f : XForest) (c : Nat) :
    (renderForestForScoring opts ip pw f c).2 = c + (visitBlanksF f).length := by
  cases f with
  | nil => simp [renderForest_eq_nil, visitBlanksF]
  | cons x f' =>
    simp only [renderForest_eq_cons, visitBlanksF, List.length_append]
    rw [renderForest_counter opts ip pw f', renderNode_counter opts ip pw x c]
    omega

theorem renderPreKids_counter (opts : ScoringRenderOptions) (pb : Bool) (f : XForest) (c : Nat) :
    (renderPreKidsForScoring opts pb f c).2 = c + (visitBlanksF f).length := by
  cases f with
  | nil => simp [renderPreKidsForScoring, visitBlanksF]
  | cons x f' =>
    cases x with
    | text s =>
      simp only [renderPreKidsForScoring, visitBlanksF, visitBlanksN, isWsText,
        List.nil_append, List.length_nil]
      split_ifs
      · rw [renderPreKids_counter opts pb f' c]
      · simp only [renderNode_eq_text]
        rw [renderPreKids_counter opts (isBlankNode (.text s)) f']
    | elem n na kkids =>
      simp only [renderPreKidsForScoring, visitBlanksF, isWsText, List.length_append]
      by_cases h : n = "qti-code"
      · subst h
        simp only [if_pos rfl, Bool.false_eq_true, if_false, visitBlanksN, ite_false]
        rw [renderPreKids_counter opts (isBlankNode (.elem "qti-code" na kkids)) f',
          renderForest_counter opts true true kkids c]
        simp
        try omega
      · simp only [if_neg h, Bool.false_eq_true, if_false, ite_false]
        rw [renderPreKids_counter opts (isBlankNode (.elem n na kkids)) f',
          renderNode_counter opts true false (.elem n na kkids) c]
        omega

theorem renderChoiceScan_counter (opts : ScoringRenderOptions) (f : XForest) (c : Nat) :
    (renderChoiceScanForScoring opts f c).2 = c + (visitBlanksChoiceF f).length := by
  cases f with
  | nil => simp [renderChoiceScanForScoring, visitBlanksChoiceF]
  | cons x f' =>
    cases x with
    | text s =>
      simp only [renderChoiceScanForScoring, visitBlanksChoiceF]
      exact renderChoiceScan_counter opts f' c
    | elem n na kkids =>
      simp only [renderChoiceScanForScoring, visitBlanksChoiceF]
      split_ifs with h
      · rw [renderChoiceScan_counter opts f', renderChoiceScan_counter opts kkids,
          renderForest_counter opts false false kkids c]
        simp [List.length_append]
        omega
      · rw [renderChoiceScan_counter opts f', renderChoiceScan_counter opts kkids c]
        simp [List.length_append]
        omega

end

set_option maxHeartbeats 400000

theorem range1_append : ∀ s a b : Nat,
    List.range' s a ++ List.range' (s + a) b = List.range' s (a + b) := by
  intro s a
  induction a generalizing s with
  | zero => intro b; simp
  | succ a ih =>
    intro b
    rw [List.range'_succ, Nat.add_succ, Nat.succ_add, List.range'_succ, List.cons_append,
      show s + (a + 1) = (s + 1) + a by omega, ih (s + 1) b]

/-! The index mirror assigns exactly the consecutive indices
`c+1, …, c+n` (in traversal order) where `n` is the number of visited
blanks — for any initial counter value `c`, on any tree. -/

mutual

theorem blankIdxN_spec (t : XNode) (c : Nat) :
    (blankIdxN t c).1 = List.range' (c + 1) (visitBlanksN t).length ∧
      (blankIdxN t c).2 = c + (visitBlanksN t).length := by
  cases t with
  | text s => simp [blankIdxN, visitBlanksN]
  | elem name attrs kids =>
    simp only [blankIdxN, visitBlanksN]
    split_ifs with h1 h2 h3
    · simp [List.range']
    · simp
    · obtain ⟨i1, i2⟩ := blankIdxChoiceF_spec kids c
      exact ⟨i1, i2⟩
    · obtain ⟨i1, i2⟩ := blankIdxF_spec kids c
      exact ⟨i1, i2⟩

theorem blankIdxF_spec (f : XForest) (c : Nat) :
    (blankIdxF f c).1 = List.range' (c + 1) (visitBlanksF f).length ∧
      (blankIdxF f c).2 = c + (visitBlanksF f).length := by
  cases f with
  | nil => simp [blankIdxF, visitBlanksF]
  | cons x f' =>
    obtain ⟨x1, x2⟩ := blankIdxN_spec x c
    obtain ⟨f1, f2⟩ := blankIdxF_spec f' (blankIdxN x c).2
    simp only [blankIdxF, visitBlanksF, List.length_append]
    constructor
    · rw [x1, f1, x2, show c + (visitBlanksN x).length + 1 =
        (c + 1) + (visitBlanksN x).length by omega, range1_append]
    · rw [f2, x2]; omega

theorem blankIdxChoiceF_spec (f : XForest) (c : Nat) :
    (blankIdxChoiceF f c).1 = List.range' (c + 1) (visitBlanksChoiceF f).length ∧
      (blankIdxChoiceF f c).2 = c + (visitBlanksChoiceF f).length := by
  cases f with
  | nil => simp [blankIdxChoiceF, visitBlanksChoiceF]
  | cons x f' =>
    cases x with
    | text s =>
      simp only [blankIdxChoiceF, visitBlanksChoiceF]
      exact blankIdxChoiceF_spec f' c
    | elem n na kkids =>
      simp only [blankIdxChoiceF, visitBlanksChoiceF]
      split_ifs with h
      · obtain ⟨a1, a2⟩ := blankIdxF_spec kkids c
        obtain ⟨b1, b2⟩ := blankIdxChoiceF_spec kkids (blankIdxF kkids c).2
        obtain ⟨d1, d2⟩ := blankIdxChoiceF_spec f' (blankIdxChoiceF kkids (blankIdxF kkids c).2).2
        rw [a2] at b1 b2 d1 d2
        rw [b2] at d1 d2
        simp only [List.length_append]
        constructor
        · rw [a2, b2, a1, b1, d1,
            show c + (visitBlanksF kkids).length + 1 =
              (c + 1) + (visitBlanksF kkids).length by omega,
            range1_append,
            show c + (visitBlanksF kkids).length + (visitBlanksChoiceF kkids).length + 1 =
              (c + 1) + ((visitBlanksF kkids).length + (visitBlanksChoiceF kkids).length)
              by omega,
            range1_append]
        · rw [a2, b2, d2]; omega
      · obtain ⟨a1, a2⟩ := blankIdxChoiceF_spec kkids c
        obtain ⟨b1, b2⟩ := blankIdxChoiceF_spec f' (blankIdxChoiceF kkids c).2
        simp only [List.length_append]
        constructor
        · rw [a1, b1, a2,
            show c + (visitBlanksChoiceF kkids).length + 1 =
              (c + 1) + (visitBlanksChoiceF kkids).length by omega,
            range1_append]
        · rw [b2, a2]; omega

end

theorem docBlanksN_elem (n : String) (a : List (String × String)) (kids : XForest) :
    docBlanksN (.elem n a kids) =
      (if n = "qti-text-entry-interaction" then [XNode.elem n a kids] else []) ++
        docBlanksF kids := rfl

/-! Under `blanksWf*`, the renderer's blank traversal agrees with document
order: the visited blanks are exactly the document-order blanks. -/

mutual

theorem visit_eq_doc_node (t : XNode) (h : blanksWfN t = true) :
    visitBlanksN t = docBlanksN t := by
  cases t with
  | text s => simp [visitBlanksN, docBlanksN, namedDescSelf]
  | elem name attrs kids =>
    by_cases hb : name = "qti-text-entry-interaction"
    · subst hb
      have hh : (docBlanksF kids).isEmpty = true := h
      rw [List.isEmpty_iff] at hh
      simp [visitBlanksN, docBlanksN_elem, hh]
    · by_cases hgrp : name = "qti-extended-text-interaction" ∨ name = "qti-hr" ∨
        name = "qti-img" ∨ name = "qti-rubric-block"
      · have hwf : (docBlanksF kids).isEmpty = true := by
          simpa [blanksWfN, hb, hgrp] using h
        rw [List.isEmpty_iff] at hwf
        simp [visitBlanksN, hb, hgrp, docBlanksN_elem, hwf]
      · by_cases hch : name = "qti-choice-interaction"
        · subst hch
          have hh : ((choiceDocScanF kids == docBlanksF kids) && blanksWfChoiceF kids) = true := h
          rw [Bool.and_eq_true, beq_iff_eq] at hh
          rcases hh with ⟨heq, hwf⟩
          simp only [visitBlanksN, hb, hgrp, if_false, if_pos rfl, ite_false]
          rw [visit_eq_doc_choice kids hwf, heq, docBlanksN_elem]
          simp [hb]
        · have hwf : blanksWfF kids = true := by
            simpa [blanksWfN, hb, hgrp, hch] using h
          simp only [visitBlanksN, hb, hgrp, hch, if_false, ite_false]
          rw [visit_eq_doc_forest kids hwf, docBlanksN_elem]
          simp [hb]

theorem visit_eq_doc_forest (f : XForest) (h : blanksWfF f = true) :
    visitBlanksF f = docBlanksF f := by
  cases f with
  | nil => simp [visitBlanksF, docBlanksF, namedDescF]
  | cons x f' =>
    simp only [blanksWfF, Bool.and_eq_true] at h
    have : docBlanksF (.cons x f') = docBlanksN x ++ docBlanksF f' := rfl
    rw [this]
    simp only [visitBlanksF]
    rw [visit_eq_doc_node x h.1, visit_eq_doc_forest f' h.2]

theorem visit_eq_doc_choice (f : XForest) (h : blanksWfChoiceF f = true) :
    visitBlanksChoiceF f = choiceDocScanF f := by
  cases f with
  | nil => simp [visitBlanksChoiceF, choiceDocScanF]
  | cons x f' =>
    cases x with
    | text s =>
      simp only [visitBlanksChoiceF, choiceDocScanF]
      exact visit_eq_doc_choice f' (by simpa [blanksWfChoiceF] using h)
    | elem n na kkids =>
      have hh : (if n = "qti-simple-choice"
          then blanksWfF kkids && blanksWfChoiceF kkids && blanksWfChoiceF f'
          else blanksWfChoiceF kkids && blanksWfChoiceF f') = true := h
      simp only [visitBlanksChoiceF, choiceDocScanF]
      split_ifs with hn
      · rw [if_pos hn, Bool.and_eq_true, Bool.and_eq_true] at hh
        rcases hh with ⟨⟨h1, h2⟩, h3⟩
        rw [visit_eq_doc_forest kkids h1, visit_eq_doc_choice kkids h2,
          visit_eq_doc_choice f' h3]
      · rw [if_neg hn, Bool.and_eq_true] at hh
        rw [visit_eq_doc_choice kkids hh.1, visit_eq_doc_choice f' hh.2]

end

/-! ## Response applicator (src/index.ts:631-669)

The HTML parser is an injected capability (`HtmlDomParser`).  It is modelled
as a function producing the parsed document's `input.qti-blank-input`
elements in document order (each an attribute list) together with a
serialization function (`doc.body.innerHTML` after mutating those blanks);
the serialization of the unchanged remainder of the document is captured by
the closure. -/

inductive ResponseArg where
  | absent
  | one (s : String)
  | many (l : List String)

/-- Source `normalizeResponses` (src/index.ts:633-636). -/
def normalizeResponses : ResponseArg → List String
  | .absent => []
  | .one s => [s]
  | .many l => l

def MIN_BLANK_SIZE : Nat := 6

/-- Source `computeBlankSize` (src/index.ts:638). -/
def computeBlankSize (v : String) : Nat := max MIN_BLANK_SIZE v.length

/-- DOM `Element.setAttribute`: replace the value in place when the attribute
exists, otherwise append it. -/
def setDomAttr : List (String × String) → String → String → List (String × String)
  | [], nm, v => [(nm, v)]
  | p :: t, nm, v => if p.1 == nm then (p.1, v) :: t else p :: setDomAttr t nm v

structure BlankDocModel where
  blanks : List (List (String × String))
  rebuild : List (List (String × String)) → String

/-- The mutation applied to the blank at position `index` (src/index.ts:661-666). -/
def applyResponseToBlank (responses : List String) (index : Nat)
    (blank : List (String × String)) : List (String × String) :=
  match responses.get? index with
  | none => blank
  | some v => setDomAttr (setDomAttr blank "value" v) "size" (toString (computeBlankSize v))

/-- Source `applyResponsesToPromptHtml` (src/index.ts:640-669). -/
def applyResponsesToPromptHtml (parse : String → BlankDocModel)
    (promptHtml : String) (response : ResponseArg) : String :=
  if !(strIncludes promptHtml "qti-blank-input") then promptHtml
  else
    let responses := normalizeResponses response
    if responses.length = 0 then promptHtml
    else
      let doc := parse promptHtml
      if doc.blanks.length = 0 then promptHtml
      else doc.rebuild (doc.blanks.enum.map (fun p => applyResponseToBlank responses p.1 p.2))

/-! ## Image source rewriter (src/index.ts:100-101, 671-690) -/

def isAsciiLetter (c : Char) : Bool :=
  ('a' ≤ c && c ≤ 'z') || ('A' ≤ c && c ≤ 'Z')

/-- Source `defaultIsExternalSource` (src/index.ts:100-101): the regex
`/^(?:[a-z]+:)?\/\//i` (matched case-insensitively, so ASCII letters), or a
`data:` URI, or a root-relative path.  Since no letter is `:` or `/`, the
greedy `[a-z]+` has no useful backtracking and the regex test is: the string
starts with `//`, or with one or more ASCII letters followed by `://`. -/
def defaultIsExternalSource (src : String) : Bool :=
  (("//".data.isPrefixOf src.data) ||
    (let letters := src.data.takeWhile isAsciiLetter
     !letters.isEmpty && "://".data.isPrefixOf (src.data.drop letters.length))) ||
  "data:".data.isPrefixOf src.data || "/".data.isPrefixOf src.data

structure ImgDocModel where
  images : List (List (String × String))
  rebuild : List (List (String × String)) → String

/-- One iteration of the `images.forEach` body (src/index.ts:681-687).  The
relative-path resolver is the external collaborator `resolveRelativePath`;
a falsy result (modelled as `none` or the empty string) leaves the image
untouched. -/
def rewriteOneImage (resolveRel : String → String → Option String)
    (resolveUrl : String → String → String) (isExt : String → Bool)
    (baseFilePath : String) (img : List (String × String)) : List (String × String) :=
  match getAttr img "src" with
  | none => img
  | some rawSrc =>
    if rawSrc = "" || isExt rawSrc then img
    else
      match resolveRel baseFilePath rawSrc with
      | none => img
      | some resolved =>
        if resolved = "" then img
        else setDomAttr img "src" (resolveUrl resolved rawSrc)

/-- Source `rewriteHtmlImageSources` (src/index.ts:671-690).  `parse` models
the injected DOM parser: `images` are the `img[src]` elements in document
order and `rebuild` is `doc.body.innerHTML` after the mutation. -/
def rewriteHtmlImageSources (parse : String → ImgDocModel)
    (resolveRel : String → String → Option String)
    (html baseFilePath : String)
    (resolveUrl : String → String → String)
    (isExtOpt : Option (String → Bool)) : String :=
  let doc := parse html
  let isExt := isExtOpt.getD defaultIsExternalSource
  doc.rebuild (doc.images.map (rewriteOneImage resolveRel resolveUrl isExt baseFilePath))

/-! ## Report renderer (src/index.ts:389-629)

The enhancement passes operate on serialized HTML with JavaScript global
regex replaces.  They are modelled as left-to-right scanners over the
character list: at each position the scanner tries the pattern; on a match it
emits the replacement and continues after the match (the semantics of
`String.replace` with a `/g` regex), otherwise it keeps the character and
moves one position right.  The scanners carry a fuel argument (initialised
with the string length, an upper bound on the number of steps) so that all
definitions remain structural and kernel-reducible. -/

/-- Source `decodeXmlEntities` (src/index.ts:389-395): five sequential global
string replacements. -/
def replaceAllGo (needle repl : List Char) : Nat → List Char → List Char
  | 0, l => l
  | _ + 1, [] => []
  | fuel + 1, c :: rest =>
    if needle.isPrefixOf (c :: rest) then
      repl ++ replaceAllGo needle repl fuel ((c :: rest).drop needle.length)
    else c :: replaceAllGo needle repl fuel rest

def replaceAll (s needle repl : String) : String :=
  ⟨replaceAllGo needle.data repl.data s.data.length s.data⟩

def decodeXmlEntities (value : String) : String :=
  replaceAll (replaceAll (replaceAll (replaceAll (replaceAll value
    "&lt;" "<") "&gt;" ">") "&amp;" "&") "&quot;" "\"") "&apos;" "'"

def isNameStart (c : Char) : Bool := isAsciiLetter c || c = '_' || c = ':'

def isNameChar (c : Char) : Bool :=
  isAsciiLetter c || c.isDigit || c = '_' || c = '.' || c = ':' || c = '-'

/-- Attempt of the attribute regex
`([A-Za-z_:][A-Za-z0-9_.:-]*)\s*=\s*(?:"([^"]*)"|'([^']*)')` at the head of
the list; on success returns the pair and the remainder after the match.
Because no name character is `=` or whitespace, the greedy name has no useful
backtracking. -/
def tryAttrAt (l : List Char) : Option ((String × String) × List Char) :=
  match l with
  | [] => none
  | c :: rest =>
    if !isNameStart c then none
    else
      let nameTail := rest.takeWhile isNameChar
      let afterSp1 := (rest.drop nameTail.length).dropWhile isJsSpace
      match afterSp1 with
      | '=' :: r2 =>
        let r3 := r2.dropWhile isJsSpace
        match r3 with
        | '"' :: r4 =>
          let v := r4.takeWhile (fun ch => ch ≠ '"')
          (match r4.drop v.length with
            | '"' :: r6 => some ((⟨c :: nameTail⟩, ⟨v⟩), r6)
            | _ => none)
        | '\'' :: r4 =>
          let v := r4.takeWhile (fun ch => ch ≠ '\'')
          (match r4.drop v.length with
            | '\'' :: r6 => some ((⟨c :: nameTail⟩, ⟨v⟩), r6)
            | _ => none)
        | _ => none
      | _ => none

def scanAttrsGo : Nat → List Char → List (String × String)
  | 0, _ => []
  | _ + 1, [] => []
  | fuel + 1, c :: rest =>
    match tryAttrAt (c :: rest) with
    | some (p, after) => p :: scanAttrsGo fuel after
    | none => scanAttrsGo fuel rest

/-- Source `parseAttributes` (src/index.ts:397-407): global scan of the
attribute regex over the tag-open string, collected into an object — so a
later occurrence of the same name overrides an earlier one
(see `attrsLookup`). -/
def parseAttributes (tagOpen : String) : List (String × String) :=
  scanAttrsGo tagOpen.data.length tagOpen.data

/-- Lookup in the scanned attribute object: last occurrence wins. -/
def attrsLookup (l : List (String × String)) (nm : String) : Option String :=
  (l.reverse.find? (fun p => p.1 == nm)).map (·.2)

def isTagNameChar (c : Char) : Bool := isAsciiLetter c || c.isDigit || c = '-'

/-- Attempt of the pattern `\s<name>="[^"]*"` at the head of the list,
returning the remainder after the matched span. -/
def tryNamedAttrPatAt (nmd : List Char) (l : List Char) : Option (List Char) :=
  match l with
  | [] => none
  | c :: rest =>
    if isJsSpace c && (nmd ++ ['=', '"']).isPrefixOf rest then
      let r2 := rest.drop (nmd.length + 2)
      let v := r2.takeWhile (fun ch => ch ≠ '"')
      (match r2.drop v.length with
        | '"' :: r3 => some r3
        | _ => none)
    else none

def replaceFirstAttrGo (nmd newVal : List Char) : Nat → List Char → Option (List Char)
  | 0, _ => none
  | _ + 1, [] => none
  | fuel + 1, c :: rest =>
    match tryNamedAttrPatAt nmd (c :: rest) with
    | some after => some (' ' :: (nmd ++ '=' :: '"' :: (newVal ++ '"' :: after)))
    | none => (replaceFirstAttrGo nmd newVal fuel rest).map (fun t => c :: t)

/-- Source `addOrUpdateAttribute` (src/index.ts:418-424): replace the first
double-quoted occurrence of the attribute, else insert it right after the tag
name (`^<([A-Za-z0-9-]+)`); if even that pattern fails the string is
returned unchanged (JavaScript `replace` with no match). -/
def addOrUpdateAttribute (tagOpen attributeName attributeValue : String) : String :=
  match replaceFirstAttrGo attributeName.data attributeValue.data tagOpen.data.length
      tagOpen.data with
  | some out => ⟨out⟩
  | none =>
    match tagOpen.data with
    | '<' :: rest =>
      let tagName := rest.takeWhile isTagNameChar
      if tagName.isEmpty then tagOpen
      else
        ⟨'<' :: (tagName ++ ' ' :: (attributeName.data ++ '=' :: '"' ::
          (attributeValue.data ++ '"' :: rest.drop tagName.length)))⟩
    | _ => tagOpen

/-- Tokens of `s.split(/\s+/)` with empty tokens dropped.  (The source
sometimes keeps the empty token produced by a leading separator or by
splitting the empty string, but an empty token never equals a class name and
never matches the language-token pattern, so dropping it is behaviourally
equal at every use site.) -/
def wsTokensGo : Nat → List Char → List String
  | 0, _ => []
  | _ + 1, [] => []
  | fuel + 1, c :: rest =>
    if isJsSpace c then wsTokensGo fuel rest
    else
      let tok := rest.takeWhile (fun ch => !isJsSpace ch)
      (⟨c :: tok⟩ : String) :: wsTokensGo fuel (rest.drop tok.length)

def splitWsTokens (s : String) : List String := wsTokensGo s.data.length s.data

/-- Insertion-order deduplication (JavaScript `Set` iteration order). -/
def insertUnique (l : List String) (x : String) : List String :=
  if l.contains x then l else l ++ [x]

def dedupKeepFirst (l : List String) : List String := l.foldl insertUnique []

/-- Source `addClasses` (src/index.ts:426-432). -/
def addClasses (tagOpen : String) (classNames : List String) : String :=
  let attributes := parseAttributes tagOpen
  let existing := (attrsLookup attributes "class").getD ""
  let merged := dedupKeepFirst (splitWsTokens existing ++ classNames)
  addOrUpdateAttribute tagOpen "class" (String.intercalate " " merged)

/-- Match of one class token against `^(?:language|lang)-([A-Za-z0-9_-]+)$`. -/
def langFromToken (tok : String) : Option String :=
  let valid := fun (r : List Char) =>
    !r.isEmpty && r.all (fun c => isAsciiLetter c || c.isDigit || c = '_' || c = '-')
  if "language-".data.isPrefixOf tok.data && valid (tok.data.drop 9) then
    some ⟨tok.data.drop 9⟩
  else if "lang-".data.isPrefixOf tok.data && valid (tok.data.drop 5) then
    some ⟨tok.data.drop 5⟩
  else none

/-- Source `detectCodeLanguageFromOpenTag` (src/index.ts:434-446).  Note that
`??` keeps a *present but empty* `data-lang` (which is then falsy), so an
empty `data-lang` falls through to the class detection even when
`data-language` is set — the model reproduces this. -/
def detectCodeLanguageFromOpenTag (tagOpen : String) : Option String :=
  let attributes := parseAttributes tagOpen
  let fromClass :=
    match attrsLookup attributes "class" with
    | none => none
    | some ca => if ca = "" then none else (splitWsTokens ca).findSome? langFromToken
  match (attrsLookup attributes "data-lang") <|> (attrsLookup attributes "data-language") <|>
      (attrsLookup attributes "data-code-lang") with
  | some s => if s = "" then fromClass else some (jsTrim s)
  | none => fromClass

/-- Source `normalizeLanguageForReport` (src/index.ts:448-453), also
`normalizeLanguage` (src/index.ts:179-184). -/
def normalizeLanguageForReport (language : String) : String :=
  let normalized := language.toLower
  if normalized = "xml" then "html"
  else if normalized = "plaintext" then "plain"
  else normalized

def isWordChar (c : Char) : Bool := isAsciiLetter c || c.isDigit || c = '_'

/-- Attempt of `<ltr\b[^>]*>` at the head of the list, where `ltr` is the
leading literal (`<pre`, `<code`, `</code>` …): after the literal a word
boundary must hold, then `[^>]*` runs to the first `>`.  On success returns
the matched span and the remainder. -/
def matchTagSpanAt (ltr : List Char) (l : List Char) : Option (List Char × List Char) :=
  if ltr.isPrefixOf l then
    let after := l.drop ltr.length
    let boundaryOk := match after.head? with
      | some c => !isWordChar c
      | none => true
    if boundaryOk then
      let attrsPart := after.takeWhile (fun ch => ch ≠ '>')
      match after.drop attrsPart.length with
      | '>' :: rest => some (ltr ++ attrsPart ++ ['>'], rest)
      | _ => none
    else none
  else none

/-- First occurrence split: `splitAtSub needle fuel l = some (a, b)` when
`l = a ++ needle ++ b` and `needle` does not occur earlier (the lazy
`[\s\S]*?needle`). -/
def splitAtSub (needle : List Char) : Nat → List Char → Option (List Char × List Char)
  | fuel, l =>
    if needle.isPrefixOf l then some ([], l.drop needle.length)
    else
      match fuel, l with
      | fuel' + 1, c :: rest =>
        (splitAtSub needle fuel' rest).map (fun p => (c :: p.1, p.2))
      | _, _ => none

/-- First match of `<code\b[^>]*>` anywhere in the list (the non-global
`inner.match(/<code\b[^>]*>/)`). -/
def findCodeOpen : Nat → List Char → Option (List Char)
  | _, [] => none
  | 0, _ => none
  | fuel + 1, c :: rest =>
    match matchTagSpanAt "<code".data (c :: rest) with
    | some (span, _) => some span
    | none => findCodeOpen fuel rest

/-- Global removal of `<\/?code\b[^>]*>` (src/index.ts:470). -/
def stripCodeTagsGo : Nat → List Char → List Char
  | 0, l => l
  | _ + 1, [] => []
  | fuel + 1, c :: rest =>
    match matchTagSpanAt "<code".data (c :: rest) with
    | some (_, after) => stripCodeTagsGo fuel after
    | none =>
      match matchTagSpanAt "</code".data (c :: rest) with
      | some (_, after) => stripCodeTagsGo fuel after
      | none => c :: stripCodeTagsGo fuel rest

/-- Replace callback of `normalizePreBlocks` (src/index.ts:457-472) applied
to one matched `<pre…>…</pre>` block.  `extractInnerXml` with its lazy
group anchored by `$` succeeds exactly when the block ends with `</pre>`. -/
def transformPreBlock (block : List Char) : List Char :=
  match matchTagSpanAt "<pre".data block with
  | none => block
  | some (preOpen, innerClose) =>
    if "</pre>".data.reverse.isPrefixOf innerClose.reverse then
      let inner := innerClose.take (innerClose.length - 6)
      match findCodeOpen inner.length inner with
      | none => block
      | some firstCodeOpen =>
        preOpen ++ firstCodeOpen ++ stripCodeTagsGo inner.length inner ++ "</code></pre>".data
    else block

/-- Attempt of `<pre\b[^>]*>[\s\S]*?<\/pre>` at the head of the list. -/
def matchPreBlockAt (l : List Char) : Option (List Char × List Char) :=
  match matchTagSpanAt "<pre".data l with
  | none => none
  | some (openTag, rest) =>
    match splitAtSub "</pre>".data rest.length rest with
    | none => none
    | some (mid, rest2) => some (openTag ++ mid ++ "</pre>".data, rest2)

def normalizePreGo : Nat → List Char → List Char
  | 0, l => l
  | _ + 1, [] => []
  | fuel + 1, c :: rest =>
    match matchPreBlockAt (c :: rest) with
    | some (block, after) => transformPreBlock block ++ normalizePreGo fuel after
    | none => c :: normalizePreGo fuel rest

/-- Source `normalizePreBlocks` (src/index.ts:455-473). -/
def normalizePreBlocks (htmlFragment : String) : String :=
  ⟨normalizePreGo htmlFragment.data.length htmlFragment.data⟩

structure CodeHighlightResult where
  language : String
  html : String

structure ReportRenderOptions where
  clozeInputHtml : String
  choiceWrapperClassName : String
  codeBlockClassName : String
  codeBlockCodeClassName : String
  inlineCodeClassName : String
  dataCodeLangAttribute : String
  itemBodyWrapperClassName : String

/-- Default report options (src/index.ts:77-85). -/
def defaultReportOptions : ReportRenderOptions where
  clozeInputHtml := "<input class=cloze-input type=text readonly aria-label=blank>"
  choiceWrapperClassName := "choice-interaction"
  codeBlockClassName := "code-block hljs"
  codeBlockCodeClassName := "code-block-code"
  inlineCodeClassName := "code-inline"
  dataCodeLangAttribute := "data-code-lang"
  itemBodyWrapperClassName := "item-body"

/-- Attempt of `(<pre\b[^>]*>)(\s*)(<code\b[^>]*>)([\s\S]*?)(<\/code>)` at the
head of the list: the five groups and the remainder.  The greedy `(\s*)`
cannot backtrack usefully because the following literal `<` is not
whitespace. -/
def matchPreCodeAt (l : List Char) :
    Option (List Char × List Char × List Char × List Char × List Char) :=
  match matchTagSpanAt "<pre".data l with
  | none => none
  | some (preOpen, r1) =>
    let ws := r1.takeWhile isJsSpace
    match matchTagSpanAt "<code".data (r1.drop ws.length) with
    | none => none
    | some (codeOpen, r2) =>
      match splitAtSub "</code>".data r2.length r2 with
      | none => none
      | some (content, rest) => some (preOpen, ws, codeOpen, content, rest)

/-- Replace callback of `enhanceCodeBlocks` (src/index.ts:483-502) for one
matched block. -/
def enhanceOneCodeBlock (opts : ReportRenderOptions)
    (highlighter : Option (String → Option String → CodeHighlightResult))
    (preOpen ws codeOpen content : List Char) : List Char :=
  let explicitLanguage := detectCodeLanguageFromOpenTag ⟨codeOpen⟩
  let lang0 := match explicitLanguage with
    | some e => normalizeLanguageForReport e
    | none => "plain"
  let (language, content2) :=
    match highlighter with
    | none => (lang0, content)
    | some hl =>
      let res := hl (decodeXmlEntities ⟨content⟩) explicitLanguage
      (normalizeLanguageForReport res.language,
        if res.html.length > 0 then res.html.data else content)
  let enhancedPre := addOrUpdateAttribute
    (addClasses ⟨preOpen⟩ (splitWsTokens opts.codeBlockClassName))
    opts.dataCodeLangAttribute language
  let enhancedCode := addOrUpdateAttribute
    (addClasses ⟨codeOpen⟩ (splitWsTokens opts.codeBlockCodeClassName))
    opts.dataCodeLangAttribute language
  enhancedPre.data ++ ws ++ enhancedCode.data ++ content2 ++ "</code>".data

def enhanceCodeGo (opts : ReportRenderOptions)
    (highlighter : Option (String → Option String → CodeHighlightResult)) :
    Nat → List Char → List Char
  | 0, l => l
  | _ + 1, [] => []
  | fuel + 1, c :: rest =>
    match matchPreCodeAt (c :: rest) with
    | some (preOpen, ws, codeOpen, content, after) =>
      enhanceOneCodeBlock opts highlighter preOpen ws codeOpen content ++
        enhanceCodeGo opts highlighter fuel after
    | none => c :: enhanceCodeGo opts highlighter fuel rest

/-- Source `enhanceCodeBlocks` (src/index.ts:475-505). -/
def enhanceCodeBlocks (htmlFragment : String) (opts : ReportRenderOptions)
    (highlighter : Option (String → Option String → CodeHighlightResult)) : String :=
  ⟨enhanceCodeGo opts highlighter htmlFragment.data.length htmlFragment.data⟩

/-- Replace callback of `enhanceInlineCode` (src/index.ts:509-523) for one
matched `<code…>` open tag. -/
def enhanceOneInlineCode (opts : ReportRenderOptions) (codeOpen : String) : String :=
  let attributes := parseAttributes codeOpen
  let existingClasses := (attrsLookup attributes "class").getD ""
  if (splitWsTokens existingClasses).contains opts.codeBlockCodeClassName then codeOpen
  else
    let enhancedCode := addClasses codeOpen (splitWsTokens opts.inlineCodeClassName)
    match detectCodeLanguageFromOpenTag codeOpen with
    | none => enhancedCode
    | some language =>
      addOrUpdateAttribute enhancedCode opts.dataCodeLangAttribute
        (normalizeLanguageForReport language)

def enhanceInlineGo (opts : ReportRenderOptions) : Nat → List Char → List Char
  | 0, l => l
  | _ + 1, [] => []
  | fuel + 1, c :: rest =>
    match matchTagSpanAt "<code".data (c :: rest) with
    | some (span, after) =>
      (enhanceOneInlineCode opts ⟨span⟩).data ++ enhanceInlineGo opts fuel after
    | none => c :: enhanceInlineGo opts fuel rest

/-- Source `enhanceInlineCode` (src/index.ts:507-524). -/
def enhanceInlineCode (htmlFragment : String) (opts : ReportRenderOptions) : String :=
  ⟨enhanceInlineGo opts htmlFragment.data.length htmlFragment.data⟩

/-- Source `serializeAttributes` (src/index.ts:118-124): all attributes except
namespace declarations, re-serialized with escaped values. -/
def serializeAttributes (attrs : List (String × String)) : String :=
  String.join ((attrs.filter (fun p =>
    !(p.1 == "xmlns" || "xmlns:".data.isPrefixOf p.1.data))).map (fun p =>
      " " ++ p.1 ++ "=\"" ++ escapeHtml p.2 ++ "\""))

/-! Source `renderNodeForReport` (src/index.ts:526-584): the report-mode
transducer (no blank counter). -/
mutual

def renderNodeForReport (opts : ReportRenderOptions) (inPre preserveWhitespace : Bool) :
    XNode → String
  | .text s => if inPre && !preserveWhitespace && jsTrim s == "" then "" else escapeHtml s
  | .elem name attrs kids =>
    if name = "qti-rubric-block" then ""
    else if name = "qti-choice-interaction" then
      let classAttr :=
        if opts.choiceWrapperClassName = "" then ""
        else " class=\"" ++ escapeHtml opts.choiceWrapperClassName ++ "\""
      "<div" ++ classAttr ++ ">" ++ renderForestForReport opts inPre preserveWhitespace kids ++
        "</div>"
    else if name = "qti-text-entry-interaction" then opts.clozeInputHtml
    else if name = "qti-extended-text-interaction" then ""
    else if name = "qti-pre" ∨ name = "pre" then
      "<pre" ++ serializeAttributes attrs ++ ">" ++ renderForestForReport opts true false kids ++
        "</pre>"
    else if name = "qti-code" ∨ name = "code" then
      "<code" ++ serializeAttributes attrs ++ ">" ++
        renderForestForReport opts inPre true kids ++ "</code>"
    else if name = "qti-img" ∨ name = "img" then "<img" ++ serializeAttributes attrs ++ " />"
    else if name = "qti-hr" ∨ name = "hr" then "<hr />"
    else
      let tagName : String := if "qti-".data.isPrefixOf name.data then ⟨name.data.drop 4⟩ else name
      "<" ++ tagName ++ serializeAttributes attrs ++ ">" ++
        renderForestForReport opts inPre preserveWhitespace kids ++ "</" ++ tagName ++ ">"

def renderForestForReport (opts : ReportRenderOptions) (inPre preserveWhitespace : Bool) :
    XForest → String
  | .nil => ""
  | .cons x f =>
    renderNodeForReport opts inPre preserveWhitespace x ++
      renderForestForReport opts inPre preserveWhitespace f

end

/-- Message thrown at src/index.ts:600. -/
def reportIdentifierMissingMsg (expectedIdentifier : String) : String :=
  "Invalid assessment item: identifier missing in " ++ expectedIdentifier

/-- Message thrown at src/index.ts:603. -/
def reportIdentifierMismatchMsg (expectedIdentifier foundIdentifier : String) : String :=
  "Assessment item identifier mismatch: expected " ++ expectedIdentifier ++
    " but found " ++ foundIdentifier

structure ParsedItemForReport where
  identifier : String
  title : String
  questionHtml : String
  rubricCriteria : List RubricCriterion
  itemMaxScore : ℚ
  choices : List ChoiceOption
  deriving DecidableEq, Repr

/-- Source `renderQtiItemForReport` (src/index.ts:586-629), on the parsed
document root, with thrown `Error`s as `Except.error` of the message. -/
def renderQtiItemForReport (root : XNode) (expectedIdentifier : String)
    (opts : ReportRenderOptions)
    (highlighter : Option (String → Option String → CodeHighlightResult)) :
    Except String ParsedItemForReport :=
  match root with
  | .text _ => .error ("Invalid assessment item: XML parse failed for " ++ expectedIdentifier)
  | .elem name attrs kids =>
    if name = "parsererror" then
      .error ("Invalid assessment item: XML parse failed for " ++ expectedIdentifier)
    else
      let identifier := (getAttr attrs "identifier").getD ""
      let title := (getAttr attrs "title").getD expectedIdentifier
      if identifier = "" then .error (reportIdentifierMissingMsg expectedIdentifier)
      else if identifier ≠ expectedIdentifier then
        .error (reportIdentifierMismatchMsg expectedIdentifier identifier)
      else
        match (namedDescF "qti-item-body" kids).head? with
        | none => .error ("Invalid assessment item: qti-item-body not found for " ++ identifier)
        | some itemBody =>
          let rubricCriteria := extractRubricCriteria itemBody
          let itemMaxScore := (rubricCriteria.map (·.points)).sum
          let rawBody := renderForestForReport opts false false (kidsOf itemBody)
          let wrappedHtml :=
            "<div class=\"" ++ opts.itemBodyWrapperClassName ++ "\">" ++ rawBody ++ "</div>"
          let questionHtml :=
            enhanceInlineCode (enhanceCodeBlocks (normalizePreBlocks wrappedHtml) opts highlighter)
              opts
          .ok { identifier := identifier
                title := title
                questionHtml := questionHtml
                rubricCriteria := rubricCriteria
                itemMaxScore := itemMaxScore
                choices := extractChoices itemBody }

/-! ## Shared helper lemmas for the claim theorems -/

theorem takeWhile_all_append (p : Char → Bool) (l : List Char) (x : Char) (r : List Char)
    (hl : ∀ c ∈ l, p c = true) (hx : p x = false) :
    (l ++ x :: r).takeWhile p = l := by
  induction l with
  | nil => simp [List.takeWhile_cons, hx]
  | cons c t ih =>
    simp only [List.cons_append, List.takeWhile_cons, hl c (by simp), if_true]
    rw [ih (fun d hd => hl d (by simp [hd]))]

theorem dropWhile_eq_self_of_head (p : Char → Bool) (l : List Char)
    (h : ∀ c, l.head? = some c → p c = false) : l.dropWhile p = l := by
  cases l with
  | nil => rfl
  | cons c t => simp [List.dropWhile_cons, h c rfl]

theorem jsTrim_eq_self (l : List Char)
    (h1 : ∀ c, l.head? = some c → isJsSpace c = false)
    (h2 : ∀ c, l.getLast? = some c → isJsSpace c = false) :
    jsTrim ⟨l⟩ = ⟨l⟩ := by
  simp only [jsTrim]
  rw [dropWhile_eq_self_of_head _ _ h1,
    dropWhile_eq_self_of_head _ _ (fun c hc => h2 c (by rwa [List.head?_reverse] at hc)),
    List.reverse_reverse]

theorem string_eta (s : String) : (⟨s.data⟩ : String) = s := rfl

theorem enumFrom_map_get? {α β : Type} (f : Nat × α → β) (l : List α) :
    ∀ (n i : Nat), ((List.enumFrom n l).map f).get? i = (l.get? i).map (fun x => f (n + i, x)) := by
  induction l with
  | nil => intro n i; simp
  | cons x t ih =>
    intro n i
    cases i with
    | zero => simp [List.enumFrom]
    | succ j =>
      simp only [List.enumFrom, List.map_cons, List.get?_cons_succ, ih (n + 1) j]
      have : n + 1 + j = n + (j + 1) := by omega
      rw [this]

theorem enum_map_get? {α β : Type} (f : Nat × α → β) (l : List α) (i : Nat) :
    ((l.enum.map f).get? i) = (l.get? i).map (fun x => f (i, x)) := by
  have := enumFrom_map_get? f l 0 i
  simpa [List.enum] using this

/-! ## Claim C3: rubric criterion line parsing -/

/-- C3: the criterion parser applies `^\\[(number)\\]\\s*(rest)$` to the trimmed
line: a line `[ds] r` (digits `ds`, trimmed line-terminator-free remainder
`r`) parses to `(parseFloat ds, r)`; a trimmed line not starting with `[`
parses to `(0, trimmed line)`; in particular `"[2] Good"` parses to
`{points: 2, text: "Good"}`. -/
theorem C3_criterion_parsing :
    parseCriterionText "[2] Good" = (2, "Good") ∧
    (∀ s : String, (jsTrim s).data.head? ≠ some '[' →
      parseCriterionText s = (0, jsTrim s)) ∧
    (∀ (ds : List Char) (r : String), ds ≠ [] → (∀ c ∈ ds, c.isDigit = true) →
      r.data ≠ [] →
      (∀ c, r.data.head? = some c → isJsSpace c = false) →
      (∀ c, r.data.getLast? = some c → isJsSpace c = false) →
      (∀ c ∈ r.data, isLineTerm c = false) →
      parseCriterionText ⟨'[' :: (ds ++ ']' :: ' ' :: r.data)⟩ =
        ((natOfDigits ds : ℚ), r)) := by
  refine ⟨?_, ?_, ?_⟩
  · have h : parseCriterionText "[2] Good" = (ratOfDecimalDigits ['2'] [], "Good") := rfl
    rw [h]
    norm_num [ratOfDecimalDigits, natOfDigits,
      show '2'.toNat - '0'.toNat = 2 from rfl]
  · intro s h
    simp only [parseCriterionText]
    split
    · rename_i rest heq
      exact absurd (by rw [heq]; rfl) h
    · rfl
  · intro ds r hds hdig hr hrh hrl hrt
    have htrim : jsTrim ⟨'[' :: (ds ++ ']' :: ' ' :: r.data)⟩ =
        ⟨'[' :: (ds ++ ']' :: ' ' :: r.data)⟩ := by
      apply jsTrim_eq_self
      · intro c hc
        injection hc with hc
        subst hc; decide
      · intro c hc
        apply hrl
        rw [← List.head?_reverse] at hc ⊢
        rw [List.reverse_cons, List.reverse_append, List.reverse_cons, List.reverse_cons] at hc
        rcases hr' : r.data.reverse with _ | ⟨d, t⟩
        · exact absurd (by simpa using congrArg List.reverse hr') hr
        · rw [hr'] at hc
          simpa using hc
    have hne : ds.isEmpty = false := by
      cases ds with
      | nil => exact absurd rfl hds
      | cons a b => rfl
    have hint : (ds ++ ']' :: ' ' :: r.data).takeWhile Char.isDigit = ds :=
      takeWhile_all_append _ _ _ _ hdig (by decide)
    simp only [parseCriterionText, htrim, hint, hne, Bool.false_eq_true, if_false,
      List.drop_left]
    show (if (List.dropWhile isJsSpace (' ' :: r.data)).any isLineTerm = true
        then ((0 : ℚ), ({ data := '[' :: (ds ++ ']' :: ' ' :: r.data) } : String))
        else (ratOfDecimalDigits ds [], jsTrim ⟨List.dropWhile isJsSpace (' ' :: r.data)⟩)) =
      ((natOfDigits ds : ℚ), r)
    have hbody : List.dropWhile isJsSpace (' ' :: r.data) = r.data := by
      rw [List.dropWhile_cons]
      simp only [show isJsSpace ' ' = true from rfl, if_true]
      exact dropWhile_eq_self_of_head _ _ hrh
    rw [hbody]
    have hany : ¬(r.data.any isLineTerm = true) := by
      simp only [List.any_eq_true, not_exists]
      intro c hc
      exact absurd hc.2 (by simp [hrt c hc.1])
    rw [if_neg hany, jsTrim_eq_self r.data hrh hrl, string_eta]
    norm_num [ratOfDecimalDigits]
    rfl

theorem C3_criterion_parsing_witness :
    parseCriterionText "no points" = (0, "no points") ∧
    parseCriterionText ⟨'[' :: (['7'] ++ ']' :: ' ' :: "Good".data)⟩ = ((7 : ℚ), "Good") := by
  constructor
  · have h := C3_criterion_parsing.2.1 "no points" (by decide)
    rw [h]; rfl
  · have h := C3_criterion_parsing.2.2 ['7'] "Good" (by decide) (by decide) (by decide)
      (by intro c hc; injection hc with hc; subst hc; decide)
      (by intro c hc; injection hc with hc; subst hc; decide)
      (by decide)
    rw [h]
    norm_num [show natOfDigits ['7'] = 7 from rfl]

/-! ## Claim C5: report identifier validation -/

/-- C5: `renderQtiItemForReport` fails with the identifier-missing error when
the root's `identifier` attribute is absent or empty, fails with the distinct
identifier-mismatch error when it is present but differs from the expected
identifier, and the two failure messages are never equal (the caller can
distinguish them). -/
theorem C5_report_identifier_validation :
    (∀ (name : String) (attrs : List (String × String)) (kids : XForest)
        (expected : String) (opts : ReportRenderOptions)
        (hl : Option (String → Option String → CodeHighlightResult)),
      name ≠ "parsererror" →
      ((getAttr attrs "identifier").getD "" = "" →
        renderQtiItemForReport (.elem name attrs kids) expected opts hl =
          .error (reportIdentifierMissingMsg expected)) ∧
      (∀ id, getAttr attrs "identifier" = some id → id ≠ "" → id ≠ expected →
        renderQtiItemForReport (.elem name attrs kids) expected opts hl =
          .error (reportIdentifierMismatchMsg expected id))) ∧
    (∀ e i, reportIdentifierMissingMsg e ≠ reportIdentifierMismatchMsg e i) := by
  constructor
  · intro name attrs kids expected opts hl hname
    constructor
    · intro hmiss
      simp only [renderQtiItemForReport, if_neg hname, hmiss, if_pos rfl]
      simp
    · intro id hid hne hmm
      simp only [renderQtiItemForReport, if_neg hname, hid, Option.getD_some,
        if_neg hne, if_neg (by simpa using hmm)]
      simp [hmm]
  · intro e i h
    have h1 : (reportIdentifierMissingMsg e).data.head? = some 'I' := rfl
    rw [h] at h1
    have h2 : (reportIdentifierMismatchMsg e i).data.head? = some 'A' := rfl
    rw [h2] at h1
    exact absurd h1 (by decide)

theorem C5_report_identifier_validation_witness :
    renderQtiItemForReport (.elem "qti-assessment-item" [] .nil) "item-9"
        defaultReportOptions none = .error (reportIdentifierMissingMsg "item-9") ∧
    renderQtiItemForReport (.elem "qti-assessment-item" [("identifier", "other")] .nil)
        "item-9" defaultReportOptions none =
      .error (reportIdentifierMismatchMsg "item-9" "other") ∧
    reportIdentifierMissingMsg "item-9" ≠ reportIdentifierMismatchMsg "item-9" "other" := by
  refine ⟨?_, ?_, C5_report_identifier_validation.2 "item-9" "other"⟩
  · exact (C5_report_identifier_validation.1 "qti-assessment-item" [] .nil "item-9"
      defaultReportOptions none (by decide)).1 (by decide)
  · exact (C5_report_identifier_validation.1 "qti-assessment-item" [("identifier", "other")]
      .nil "item-9" defaultReportOptions none (by decide)).2 "other" (by decide) (by decide)
      (by decide)

/-! ## Claim C6: the response applicator's no-op paths -/

/-- C6: `applyResponsesToPromptHtml` returns its input byte-identically when
the prompt HTML does not contain the blank marker `qti-blank-input`, and also
(for every input) when the response argument is absent or an empty list —
both paths return before the parser capability is ever consulted. -/
theorem C6_apply_responses_noop :
    ∀ (parse : String → BlankDocModel) (promptHtml : String) (response : ResponseArg),
      (strIncludes promptHtml "qti-blank-input" = false →
        applyResponsesToPromptHtml parse promptHtml response = promptHtml) ∧
      (normalizeResponses response = [] →
        applyResponsesToPromptHtml parse promptHtml response = promptHtml) := by
  intro parse promptHtml response
  constructor
  · intro h
    simp [applyResponsesToPromptHtml, h]
  · intro h
    by_cases hmark : strIncludes promptHtml "qti-blank-input" = true
    · simp [applyResponsesToPromptHtml, hmark, h]
    · simp only [Bool.not_eq_true] at hmark
      simp [applyResponsesToPromptHtml, hmark]

theorem C6_apply_responses_noop_witness :
    applyResponsesToPromptHtml (fun _ => ⟨[], fun _ => "CHANGED"⟩) "<p>no blanks</p>"
        (.one "resp") = "<p>no blanks</p>" ∧
    applyResponsesToPromptHtml (fun _ => ⟨[[("class", "qti-blank-input")]], fun _ => "CHANGED"⟩)
        "<p><input class=\"qti-blank-input\" /></p>" .absent =
      "<p><input class=\"qti-blank-input\" /></p>" := by
  constructor
  · exact (C6_apply_responses_noop (fun _ => ⟨[], fun _ => "CHANGED"⟩) "<p>no blanks</p>"
      (.one "resp")).1 (by decide)
  · exact (C6_apply_responses_noop (fun _ => ⟨[[("class", "qti-blank-input")]],
      fun _ => "CHANGED"⟩) "<p><input class=\"qti-blank-input\" /></p>" .absent).2 (by decide)

theorem getAttr_setDomAttr_self (attrs : List (String × String)) (nm v : String) :
    getAttr (setDomAttr attrs nm v) nm = some v := by
  induction attrs with
  | nil => simp [setDomAttr, getAttr]
  | cons p t ih =>
    by_cases hp : p.1 = nm
    · simp [setDomAttr, getAttr, hp]
    · simp [setDomAttr, getAttr, hp, ih]

theorem getAttr_setDomAttr_other (attrs : List (String × String)) (nm nm' v : String)
    (h : nm' ≠ nm) : getAttr (setDomAttr attrs nm v) nm' = getAttr attrs nm' := by
  induction attrs with
  | nil => simp [setDomAttr, getAttr, h.symm]
  | cons p t ih =>
    by_cases hp : p.1 = nm
    · simp [setDomAttr, getAttr, hp, h.symm]
    · simp [setDomAttr, getAttr, hp, ih]

theorem applyResponseToBlank_some (rs : List String) (i : Nat)
    (blank : List (String × String)) (v : String) (h : rs.get? i = some v) :
    applyResponseToBlank rs i blank =
      setDomAttr (setDomAttr blank "value" v) "size" (toString (computeBlankSize v)) := by
  unfold applyResponseToBlank
  rw [h]

theorem applyResponseToBlank_none (rs : List String) (i : Nat)
    (blank : List (String × String)) (h : rs.get? i = none) :
    applyResponseToBlank rs i blank = blank := by
  unfold applyResponseToBlank
  rw [h]

/-! ## Claim C7: response-to-blank pairing -/

/-- C7: `applyResponsesToPromptHtml` pairs responses with blank inputs by
document-order position: the blank at position `i` with a response at index
`i` gets its `value` attribute set to that response and its `size` attribute
set to `max(6, responseLength)`; blanks beyond the responses are unmodified;
responses beyond the blanks are ignored (the transformation maps each blank
independently of the extra responses); the function is total — no error. -/
theorem C7_apply_responses_pairing :
    ∀ (parse : String → BlankDocModel) (promptHtml : String) (response : ResponseArg),
      strIncludes promptHtml "qti-blank-input" = true →
      normalizeResponses response ≠ [] →
      (parse promptHtml).blanks ≠ [] →
      (applyResponsesToPromptHtml parse promptHtml response =
        (parse promptHtml).rebuild ((parse promptHtml).blanks.enum.map
          (fun p => applyResponseToBlank (normalizeResponses response) p.1 p.2))) ∧
      (∀ i blank, (parse promptHtml).blanks.get? i = some blank →
        (∀ v, (normalizeResponses response).get? i = some v →
          ((parse promptHtml).blanks.enum.map
              (fun p => applyResponseToBlank (normalizeResponses response) p.1 p.2)).get? i =
            some (setDomAttr (setDomAttr blank "value" v) "size"
              (toString (computeBlankSize v))) ∧
          getAttr (setDomAttr (setDomAttr blank "value" v) "size"
            (toString (computeBlankSize v))) "value" = some v ∧
          getAttr (setDomAttr (setDomAttr blank "value" v) "size"
            (toString (computeBlankSize v))) "size" = some (toString (max 6 v.length))) ∧
        ((normalizeResponses response).get? i = none →
          ((parse promptHtml).blanks.enum.map
              (fun p => applyResponseToBlank (normalizeResponses response) p.1 p.2)).get? i =
            some blank)) := by
  intro parse promptHtml response h1 h2 h3
  constructor
  · simp only [applyResponsesToPromptHtml, h1, Bool.not_true, Bool.false_eq_true, if_false]
    rw [if_neg (by simpa [List.length_eq_zero] using h2),
      if_neg (by simpa [List.length_eq_zero] using h3)]
  · intro i blank hblank
    constructor
    · intro v hv
      refine ⟨?_, ?_, ?_⟩
      · rw [enum_map_get?, hblank]
        simp [applyResponseToBlank_some _ _ _ _ hv]
      · rw [getAttr_setDomAttr_other _ _ _ _ (by decide), getAttr_setDomAttr_self]
      · rw [getAttr_setDomAttr_self]
        rfl
    · intro hv
      rw [enum_map_get?, hblank]
      simp [applyResponseToBlank_none _ _ _ hv]

theorem C7_apply_responses_pairing_witness :
    applyResponsesToPromptHtml
        (fun _ => ⟨[[("class", "qti-blank-input")], [("class", "qti-blank-input")]],
          fun bs => String.intercalate "|"
            (bs.map (fun b => String.intercalate "," (b.map (fun p => p.1 ++ "=" ++ p.2))))⟩)
        "<p><input class=\"qti-blank-input\" /></p>" (.one "TypeScript") =
      "class=qti-blank-input,value=TypeScript,size=10|class=qti-blank-input" := by
  have h := (C7_apply_responses_pairing
    (fun _ => ⟨[[("class", "qti-blank-input")], [("class", "qti-blank-input")]],
      fun bs => String.intercalate "|"
        (bs.map (fun b => String.intercalate "," (b.map (fun p => p.1 ++ "=" ++ p.2))))⟩)
    "<p><input class=\"qti-blank-input\" /></p>" (.one "TypeScript")
    (by decide) (by decide) (by decide)).1
  rw [h]
  rfl

/-! ## Claim C8: image source rewriting -/

/-- C8: with the default external-source detector, `rewriteHtmlImageSources`
leaves every absolute (`scheme://…`), protocol-relative (`//…`),
root-relative (`/…`) and `data:` source unchanged, and rewrites an image
exactly when its source is non-external and the relative-path resolver
returns a truthy value; failed resolutions leave the image untouched. -/
theorem C8_image_source_rewriting :
    (∀ (parse : String → ImgDocModel) (resolveRel : String → String → Option String)
        (html base : String) (resolveUrl : String → String → String),
      rewriteHtmlImageSources parse resolveRel html base resolveUrl none =
        (parse html).rebuild ((parse html).images.map
          (rewriteOneImage resolveRel resolveUrl defaultIsExternalSource base))) ∧
    (∀ (scheme rest : String), scheme.data ≠ [] → (∀ c ∈ scheme.data, isAsciiLetter c = true) →
      defaultIsExternalSource (scheme ++ "://" ++ rest) = true) ∧
    (∀ rest : String, defaultIsExternalSource ("//" ++ rest) = true) ∧
    (∀ rest : String, defaultIsExternalSource ("/" ++ rest) = true) ∧
    (∀ rest : String, defaultIsExternalSource ("data:" ++ rest) = true) ∧
    (∀ (resolveRel : String → String → Option String) (resolveUrl : String → String → String)
        (base : String) (img : List (String × String)) (src : String),
      getAttr img "src" = some src →
      (defaultIsExternalSource src = true →
        rewriteOneImage resolveRel resolveUrl defaultIsExternalSource base img = img) ∧
      (resolveRel base src = none →
        rewriteOneImage resolveRel resolveUrl defaultIsExternalSource base img = img) ∧
      (∀ p, src ≠ "" → defaultIsExternalSource src = false → resolveRel base src = some p →
        p ≠ "" →
        rewriteOneImage resolveRel resolveUrl defaultIsExternalSource base img =
          setDomAttr img "src" (resolveUrl p src))) := by
  refine ⟨?_, ?_, ?_, ?_, ?_, ?_⟩
  · intro parse resolveRel html base resolveUrl
    rfl
  · intro scheme rest hne hall
    have hdata : (scheme ++ "://" ++ rest).data =
        scheme.data ++ ':' :: '/' :: '/' :: rest.data := by
      rw [String.data_append, String.data_append, List.append_assoc]
      rfl
    simp only [defaultIsExternalSource, hdata]
    have htw : (scheme.data ++ ':' :: '/' :: '/' :: rest.data).takeWhile isAsciiLetter =
        scheme.data := takeWhile_all_append _ _ _ _ hall (by decide)
    rw [htw]
    have hlen : scheme.data.length = (scheme.data.takeWhile isAsciiLetter).length := by
      rw [List.takeWhile_eq_self_iff.mpr hall]
    simp only [List.isEmpty_iff, hne, List.drop_left]
    simp [List.isPrefixOf, hne]
  · intro rest
    simp [defaultIsExternalSource, show ("//" ++ rest).data = '/' :: '/' :: rest.data from rfl,
      List.isPrefixOf]
  · intro rest
    simp [defaultIsExternalSource, show ("/" ++ rest).data = '/' :: rest.data from rfl,
      List.isPrefixOf]
  · intro rest
    simp [defaultIsExternalSource,
      show ("data:" ++ rest).data = 'd' :: 'a' :: 't' :: 'a' :: ':' :: rest.data from rfl,
      List.isPrefixOf]
  · intro resolveRel resolveUrl base img src hsrc
    refine ⟨?_, ?_, ?_⟩
    · intro hext
      simp [rewriteOneImage, hsrc, hext]
    · intro hres
      simp only [rewriteOneImage, hsrc]
      split_ifs with h
      · rfl
      · rw [hres]
    · intro p hne hext hres hp
      simp [rewriteOneImage, hsrc, hne, hext, hres, hp]

theorem C8_image_source_rewriting_witness :
    defaultIsExternalSource ("https" ++ "://" ++ "example.com/a.png") = true ∧
    rewriteOneImage (fun _ _ => some "items/images/pic.png") (fun r _ => "/assets/" ++ r)
        defaultIsExternalSource "items/item-1.qti.xml" [("src", "images/pic.png")] =
      setDomAttr [("src", "images/pic.png")] "src" "/assets/items/images/pic.png" := by
  constructor
  · exact C8_image_source_rewriting.2.1 "https" "example.com/a.png" (by decide) (by decide)
  · exact (C8_image_source_rewriting.2.2.2.2.2 (fun _ _ => some "items/images/pic.png")
      (fun r _ => "/assets/" ++ r) "items/item-1.qti.xml" [("src", "images/pic.png")]
      "images/pic.png" (by decide)).2.2 "items/images/pic.png" (by decide) (by decide)
      (by decide) (by decide)

/-! ## Claim C10: the scoring entry point performs no identifier validation -/

/-- Concrete document: no `identifier` attribute, but a `title` attribute and
an item body. -/
def c10doc : XNode :=
  .elem "qti-assessment-item" [("title", "T")] (.cons (.elem "qti-item-body" [] .nil) .nil)

/-- C10 counterexample: the claim states that every well-formed document
without an identifier attribute (but with an item body) yields
`title = ""`; on this document (which carries `title="T"`) the scoring
render succeeds with `identifier = ""` but `title = "T" ≠ ""` — the title
defaults to the identifier only when the `title` attribute is also absent. -/
theorem C10_counterexample :
    getAttr [("title", "T")] "identifier" = none ∧
    (renderQtiItemForScoring c10doc defaultScoringOptions).toOption =
      some ⟨"", "T", "", [], [], none⟩ ∧
    ("T" : String) ≠ "" := by
  refine ⟨by decide, by decide, by decide⟩

/-- C10 (amended): `renderQtiItemForScoring` performs no identifier
validation: for every parsed document whose root has no `identifier`
attribute but which contains an item body, it succeeds (never an
identifier-missing error) with `identifier = ""` and `title` equal to the
root's `title` attribute when present, else `""` (the title defaults to the
identifier). -/
theorem C10_scoring_no_identifier_validation :
    ∀ (name : String) (attrs : List (String × String)) (kids : XForest)
      (opts : ScoringRenderOptions) (b : XNode),
      name ≠ "parsererror" →
      getAttr attrs "identifier" = none →
      (namedDescF "qti-item-body" kids).head? = some b →
      renderQtiItemForScoring (.elem name attrs kids) opts =
        .ok { identifier := ""
              title := (getAttr attrs "title").getD ""
              promptHtml := (renderForestForScoring opts false false (kidsOf b) 0).1
              rubricCriteria := extractRubricCriteria b
              choices := extractChoices b
              candidateExplanationHtml := parseCandidateExplanation (.elem name attrs kids) opts } := by
  intro name attrs kids opts b hname hid hb
  simp only [renderQtiItemForScoring, if_neg hname, hid, Option.getD_none, hb]

theorem C10_scoring_no_identifier_validation_witness :
    renderQtiItemForScoring c10doc defaultScoringOptions =
      .ok { identifier := ""
            title := (getAttr [("title", "T")] "title").getD ""
            promptHtml := (renderForestForScoring defaultScoringOptions false false
              (kidsOf (.elem "qti-item-body" [] .nil)) 0).1
            rubricCriteria := extractRubricCriteria (.elem "qti-item-body" [] .nil)
            choices := extractChoices (.elem "qti-item-body" [] .nil)
            candidateExplanationHtml := parseCandidateExplanation c10doc
              defaultScoringOptions } :=
  C10_scoring_no_identifier_validation "qti-assessment-item" [("title", "T")]
    (.cons (.elem "qti-item-body" [] .nil) .nil) defaultScoringOptions
    (.elem "qti-item-body" [] .nil) (by decide) (by decide) (by decide)

/-! ## Claim C1: the explanation render and the blank counter -/

def c1body : XNode :=
  .elem "qti-item-body" []
    (.cons (.elem "qti-p" [] (.cons (.elem "qti-text-entry-interaction" [] .nil) .nil)) .nil)

def c1feedback : XNode :=
  .elem "qti-modal-feedback" [("identifier", "EXPLANATION"), ("outcome-identifier", "FEEDBACK")]
    (.cons (.elem "qti-content-body" []
      (.cons (.text "\n  ")
        (.cons (.elem "qti-p" []
          (.cons (.text "so ") (.cons (.elem "qti-text-entry-interaction" [] .nil) .nil)))
          .nil))) .nil)

def c1doc : XNode :=
  .elem "qti-assessment-item" [("identifier", "q1")] (.cons c1body (.cons c1feedback .nil))

/-- C1 counterexample: this document's prompt contains `N = 1` blank and its
explanation contains a blank; the claim says the first blank inside
`candidateExplanationHtml` receives index `N + 1 = 2`, but the code creates a
fresh counter (src/index.ts:346), so it receives index 1: the rendered
explanation contains `data-blank="1"` and no `data-blank="2"`. -/
theorem C1_counterexample :
    (docBlanksF (kidsOf c1body)).length = 1 ∧
    ((renderQtiItemForScoring c1doc defaultScoringOptions).toOption.bind
      (fun r => r.candidateExplanationHtml)).map
        (fun s => (strIncludes s "data-blank=\"1\"", strIncludes s "data-blank=\"2\"")) =
      some (true, false) := by
  refine ⟨by decide, by decide⟩

/-- C1 (amended): rendering the candidate explanation does **not** continue
the prompt's blank counter — `parseCandidateExplanation` restarts it at 0, so
the blanks inside `candidateExplanationHtml` are indexed `1, 2, …` from 1
regardless of how many blanks the prompt has. -/
theorem C1_explanation_counter_reset :
    ∀ (root : XNode) (opts : ScoringRenderOptions) (nodes : XForest),
      explanationNodes root = some nodes →
      parseCandidateExplanation root opts =
        some (renderForestForScoring opts false false nodes 0).1 ∧
      (blankIdxF nodes 0).1 = List.range' 1 (visitBlanksF nodes).length ∧
      (renderForestForScoring opts false false nodes 0).2 = (visitBlanksF nodes).length := by
  intro root opts nodes h
  refine ⟨by simp [parseCandidateExplanation, h], ?_, ?_⟩
  · have h1 := (blankIdxF_spec nodes 0).1
    simpa using h1
  · have h2 := renderForest_counter opts false false nodes 0
    simpa using h2

def c1explNodes : XForest :=
  .cons (.elem "qti-p" []
    (.cons (.text "so ") (.cons (.elem "qti-text-entry-interaction" [] .nil) .nil))) .nil

theorem C1_explanation_counter_reset_witness :
    parseCandidateExplanation c1doc defaultScoringOptions =
      some (renderForestForScoring defaultScoringOptions false false c1explNodes 0).1 ∧
    (blankIdxF c1explNodes 0).1 = List.range' 1 (visitBlanksF c1explNodes).length ∧
    (renderForestForScoring defaultScoringOptions false false c1explNodes 0).2 =
      (visitBlanksF c1explNodes).length :=
  C1_explanation_counter_reset c1doc defaultScoringOptions c1explNodes (by decide)

/-! ## Claim C2: blank indices 1..N in document order -/

def c2body : XNode :=
  .elem "qti-item-body" []
    (.cons (.elem "qti-rubric-block" [("view", "scorer")]
        (.cons (.elem "qti-text-entry-interaction" [] .nil) .nil))
      (.cons (.elem "qti-p" [] (.cons (.elem "qti-text-entry-interaction" [] .nil) .nil))
        .nil))

def c2doc : XNode :=
  .elem "qti-assessment-item" [("identifier", "c2")] (.cons c2body .nil)

/-- C2 counterexample: this document has `N = 2` text-entry interactions in
document order, but `qti-rubric-block` content is suppressed by the scoring
renderer, so the first (rubric-nested) blank never receives an index and the
second blank receives index 1: the rendered prompt contains `data-blank="1"`
and no `data-blank="2"`, contradicting "assigns blank indices 1..N to them in
that exact order" for every document. -/
theorem C2_counterexample :
    (docBlanksF (kidsOf c2body)).length = 2 ∧
    ((renderQtiItemForScoring c2doc defaultScoringOptions).toOption.map
      (fun r => (strIncludes r.promptHtml "data-blank=\"1\"",
        strIncludes r.promptHtml "data-blank=\"2\""))) = some (true, false) := by
  refine ⟨by decide, by decide⟩

/-- C2 (amended): for every document whose item-body content is
blank-well-formed — no text-entry interaction inside a `qti-rubric-block`,
an extended-text interaction, an `hr`/`img` element or another text-entry
interaction, and inside every `qti-choice-interaction` the blanks reached
through its descendant simple-choices are exactly the blanks of its content
in document order — `renderQtiItemForScoring` assigns blank indices
`1..N` to the `N` text-entry interactions in exactly document order:
the visited blanks equal the document-order blanks, the indices handed to the
blank renderer are `1, …, N` in that order (for the prompt the counter starts
at 0), and the default blank renderer emits `data-blank="<index>"`. -/
theorem C2_blank_indices :
    ∀ (name : String) (attrs : List (String × String)) (kids : XForest)
      (opts : ScoringRenderOptions) (b : XNode),
      name ≠ "parsererror" →
      (namedDescF "qti-item-body" kids).head? = some b →
      blanksWfF (kidsOf b) = true →
      (∃ r, renderQtiItemForScoring (.elem name attrs kids) opts = .ok r ∧
        r.promptHtml = (renderForestForScoring opts false false (kidsOf b) 0).1) ∧
      visitBlanksF (kidsOf b) = docBlanksF (kidsOf b) ∧
      (blankIdxF (kidsOf b) 0).1 = List.range' 1 (docBlanksF (kidsOf b)).length ∧
      (∀ ip pw c, (renderForestForScoring opts ip pw (kidsOf b) c).2 =
        c + (docBlanksF (kidsOf b)).length) ∧
      (∀ i, defaultScoringOptions.blankRenderer i =
        "<input class=\"qti-blank-input\" data-blank=\"" ++ toString i ++
          "\" type=\"text\" size=\"6\" disabled aria-label=\"blank " ++ toString i ++
          "\" />") := by
  intro name attrs kids opts b hname hb hwf
  have hv := visit_eq_doc_forest (kidsOf b) hwf
  have h0 : renderQtiItemForScoring (.elem name attrs kids) opts = .ok
      { identifier := (getAttr attrs "identifier").getD ""
        title := (getAttr attrs "title").getD ((getAttr attrs "identifier").getD "")
        promptHtml := (renderForestForScoring opts false false (kidsOf b) 0).1
        rubricCriteria := extractRubricCriteria b
        choices := extractChoices b
        candidateExplanationHtml := parseCandidateExplanation (.elem name attrs kids) opts } := by
    simp only [renderQtiItemForScoring, if_neg hname, hb]
  refine ⟨⟨_, h0, rfl⟩, hv, ?_, ?_, fun i => rfl⟩
  · rw [← hv]
    have h1 := (blankIdxF_spec (kidsOf b) 0).1
    simpa using h1
  · intro ip pw c
    rw [← hv]
    exact renderForest_counter opts ip pw (kidsOf b) c

/-- Document exercising the claim's nesting cases: a blank inside a
simple-choice, a blank inside a `pre`/`code` block, and a top-level blank. -/
def c2wbody : XNode :=
  .elem "qti-item-body" []
    (.cons (.elem "qti-choice-interaction" []
        (.cons (.elem "qti-simple-choice" [("identifier", "A")]
          (.cons (.text "pick ") (.cons (.elem "qti-text-entry-interaction" [] .nil) .nil)))
          .nil))
      (.cons (.elem "qti-pre" []
          (.cons (.elem "qti-code" [] (.cons (.text "x = ") .nil))
            (.cons (.elem "qti-text-entry-interaction" [] .nil) .nil)))
        (.cons (.elem "qti-p" [] (.cons (.elem "qti-text-entry-interaction" [] .nil) .nil))
          .nil)))

theorem C2_blank_indices_witness :
    visitBlanksF (kidsOf c2wbody) = docBlanksF (kidsOf c2wbody) ∧
    (blankIdxF (kidsOf c2wbody) 0).1 = List.range' 1 (docBlanksF (kidsOf c2wbody)).length := by
  have h := C2_blank_indices "qti-assessment-item" [("identifier", "w")]
    (.cons c2wbody .nil) defaultScoringOptions c2wbody (by decide) (by decide) (by decide)
  exact ⟨h.2.1, h.2.2.1⟩

/-! ## Claim C4: whitespace trimming for code inside pre -/

def c4ex1 : XNode :=
  .elem "qti-pre" []
    (.cons (.elem "qti-code" [] (.cons (.text "x = 1 ") .nil))
      (.cons (.elem "qti-text-entry-interaction" [] .nil) .nil))

def c4ex2 : XNode :=
  .elem "qti-pre" []
    (.cons (.elem "qti-code" [] (.cons (.text "x = 1\n") .nil))
      (.cons (.elem "qti-text-entry-interaction" [] .nil) .nil))

def c4ex3 : XNode :=
  .elem "qti-pre" [] (.cons (.elem "qti-code" [] (.cons (.text " y ") .nil)) .nil)

def c4ex4 : XNode :=
  .elem "qti-pre" []
    (.cons (.elem "qti-text-entry-interaction" [] .nil)
      (.cons (.elem "qti-code" [] (.cons (.text " z") .nil)) .nil))

/-- C4: in the scoring renderer each `code` child of a `pre` is rendered with
whitespace preserved, and a single leading (resp. trailing) whitespace span
of the code's rendered text is removed exactly when the adjacent significant
sibling on that side is a text-entry interaction and the span contains no
newline/carriage-return; whitespace spans containing a newline or carriage
return are left untouched.  The first four conjuncts characterise the two
trim helpers in both directions; the fifth ties the `qti-code` branch of the
pre walk to `renderCodeInPre` with `trimStart`/`trimEnd` given by the
adjacent significant siblings (and `renderCodeInPre` renders the code's
children with `preserveWhitespace = true`); the final conjuncts are
end-to-end renders: trailing space trimmed before a blank, trailing `\n`
kept before a blank, whitespace kept when no blank is adjacent, and leading
space trimmed after a blank. -/
theorem C4_pre_code_trimming :
    (∀ s : String, ('\n' ∈ s.data.takeWhile isJsSpace ∨ '\r' ∈ s.data.takeWhile isJsSpace) →
      trimCodeLead s = s) ∧
    (∀ s : String, s.data.takeWhile isJsSpace ≠ [] → '\n' ∉ s.data.takeWhile isJsSpace →
      '\r' ∉ s.data.takeWhile isJsSpace →
      trimCodeLead s = ⟨s.data.drop (s.data.takeWhile isJsSpace).length⟩) ∧
    (∀ s : String,
      ('\n' ∈ s.data.reverse.takeWhile isJsSpace ∨ '\r' ∈ s.data.reverse.takeWhile isJsSpace) →
      trimCodeTrail s = s) ∧
    (∀ s : String, s.data.reverse.takeWhile isJsSpace ≠ [] →
      '\n' ∉ s.data.reverse.takeWhile isJsSpace → '\r' ∉ s.data.reverse.takeWhile isJsSpace →
      trimCodeTrail s = ⟨s.data.take (s.data.length - (s.data.reverse.takeWhile isJsSpace).length)⟩) ∧
    (∀ (opts : ScoringRenderOptions) (pb : Bool) (na : List (String × String))
        (kkids f : XForest) (c : Nat),
      renderPreKidsForScoring opts pb (.cons (.elem "qti-code" na kkids) f) c =
        ((renderCodeInPre opts kkids pb (nextSigBlank f) c).1 ++
          (renderPreKidsForScoring opts false f
            (renderCodeInPre opts kkids pb (nextSigBlank f) c).2).1,
         (renderPreKidsForScoring opts false f
           (renderCodeInPre opts kkids pb (nextSigBlank f) c).2).2) ∧
      renderCodeInPre opts kkids pb (nextSigBlank f) c =
        (let r := renderForestForScoring opts true true kkids c
         let i1 := if pb then trimCodeLead r.1 else r.1
         let i2 := if nextSigBlank f then trimCodeTrail i1 else i1
         ("<code>" ++ i2 ++ "</code>", r.2))) ∧
    (renderNodeForScoring defaultScoringOptions false false c4ex1 0).1 =
      "<pre class=\"qti-pre-with-blanks\"><code>x = 1</code><input class=\"qti-blank-input\" data-blank=\"1\" type=\"text\" size=\"6\" disabled aria-label=\"blank 1\" /></pre>" ∧
    (renderNodeForScoring defaultScoringOptions false false c4ex2 0).1 =
      "<pre class=\"qti-pre-with-blanks\"><code>x = 1\n</code><input class=\"qti-blank-input\" data-blank=\"1\" type=\"text\" size=\"6\" disabled aria-label=\"blank 1\" /></pre>" ∧
    (renderNodeForScoring defaultScoringOptions false false c4ex3 0).1 =
      "<pre><code> y </code></pre>" ∧
    (renderNodeForScoring defaultScoringOptions false false c4ex4 0).1 =
      "<pre class=\"qti-pre-with-blanks\"><input class=\"qti-blank-input\" data-blank=\"1\" type=\"text\" size=\"6\" disabled aria-label=\"blank 1\" /><code>z</code></pre>" := by
  refine ⟨?_, ?_, ?_, ?_, ?_, by decide, by decide, by decide, by decide⟩
  · intro s h
    rcases h with h | h
    · simp only [trimCodeLead]
      rw [if_neg (by intro hc; exact hc.2.1 h)]
    · simp only [trimCodeLead]
      rw [if_neg (by intro hc; exact hc.2.2 h)]
  · intro s h1 h2 h3
    simp only [trimCodeLead]
    rw [if_pos ⟨h1, h2, h3⟩]
  · intro s h
    rcases h with h | h
    · simp only [trimCodeTrail]
      rw [if_neg (by intro hc; exact hc.2.1 h)]
    · simp only [trimCodeTrail]
      rw [if_neg (by intro hc; exact hc.2.2 h)]
  · intro s h1 h2 h3
    simp only [trimCodeTrail]
    rw [if_pos ⟨h1, h2, h3⟩]
  · intro opts pb na kkids f c
    exact ⟨renderPreKids_code_eq opts pb na kkids f c, rfl⟩

theorem C4_pre_code_trimming_witness :
    trimCodeLead "\n x" = "\n x" ∧
    trimCodeLead " x" = "x" ∧
    trimCodeTrail "x\n" = "x\n" ∧
    trimCodeTrail "x " = "x" := by
  refine ⟨C4_pre_code_trimming.1 "\n x" (by decide), ?_, ?_, ?_⟩
  · have h := C4_pre_code_trimming.2.1 " x" (by decide) (by decide) (by decide)
    rw [h]; decide
  · exact C4_pre_code_trimming.2.2.1 "x\n" (by decide)
  · have h := C4_pre_code_trimming.2.2.2.1 "x " (by decide) (by decide) (by decide)
    rw [h]; decide

/-! ## Claim C9: idempotence of the report enhancement passes

Infrastructure: well-formed serialized open tags.

The enhancement passes operate on open-tag strings through
`parseAttributes`, `addClasses` and `addOrUpdateAttribute`.  We
characterise their behaviour on well-formed serialized open tags
`<name a1="v1" a2="v2" …>` — the shape produced by `serializeAttributes`
and preserved by the passes themselves — and reduce the string-level
transforms to pure operations on the attribute list. -/

/-- Characters allowed in a well-formed double-quoted attribute value: no
quote (it would end the value early), no `=` (it could fabricate an
attribute pattern inside the value) and no angle brackets (they would end
the tag span). -/
def wfValueChar (c : Char) : Bool := !(c = '"' || c = '=' || c = '<' || c = '>')

/-- A well-formed attribute name: nonempty, a name-start character followed
by name characters (the shape matched by the attribute regex). -/
def wfAttrName : List Char → Bool
  | [] => false
  | c :: t => isNameStart c && t.all isNameChar

/-- Serialization of an attribute list as it appears inside an open tag:
a space, the name, `="`, the value and a closing quote per attribute. -/
def serAttrs : List (String × String) → List Char
  | [] => []
  | p :: t => ' ' :: (p.1.data ++ '=' :: '"' :: (p.2.data ++ '"' :: serAttrs t))

/-- A serialized open tag `<name a1="v1" …>`. -/
def tagStr (tagName : String) (attrs : List (String × String)) : String :=
  ⟨'<' :: (tagName.data ++ (serAttrs attrs ++ ['>']))⟩

/-- Well-formed attribute list: well-formed names and values and pairwise
distinct names (DOM attribute names are unique). -/
def wfAttrList (attrs : List (String × String)) : Prop :=
  (∀ p ∈ attrs, wfAttrName p.1.data = true ∧ p.2.data.all wfValueChar = true) ∧
  (attrs.map Prod.fst).Nodup

def wfTagName (tagName : String) : Prop :=
  tagName.data ≠ [] ∧ ∀ c ∈ tagName.data, isTagNameChar c = true

theorem nameStart_not_jsSpace {c : Char} (h : isNameStart c = true) :
    isJsSpace c = false := by
  by_contra hs
  rw [Bool.not_eq_false] at hs
  simp only [isJsSpace, Bool.or_eq_true, decide_eq_true_eq] at hs
  rcases hs with ((((((rfl | rfl) | rfl) | rfl) | rfl) | rfl) | rfl) <;> revert h <;> decide

theorem nameChar_not_jsSpace {c : Char} (h : isNameChar c = true) :
    isJsSpace c = false := by
  by_contra hs
  rw [Bool.not_eq_false] at hs
  simp only [isJsSpace, Bool.or_eq_true, decide_eq_true_eq] at hs
  rcases hs with ((((((rfl | rfl) | rfl) | rfl) | rfl) | rfl) | rfl) <;> revert h <;> decide

theorem tagNameChar_not_jsSpace {c : Char} (h : isTagNameChar c = true) :
    isJsSpace c = false := by
  by_contra hs
  rw [Bool.not_eq_false] at hs
  simp only [isJsSpace, Bool.or_eq_true, decide_eq_true_eq] at hs
  rcases hs with ((((((rfl | rfl) | rfl) | rfl) | rfl) | rfl) | rfl) <;> revert h <;> decide

theorem tagNameChar_nameChar {c : Char} (h : isTagNameChar c = true) :
    isNameChar c = true := by
  simp only [isTagNameChar, Bool.or_eq_true] at h
  simp only [isNameChar, Bool.or_eq_true]
  tauto

theorem nameChar_ne_eqSign {c : Char} (h : isNameChar c = true) : c ≠ '=' :=
  fun he => absurd (he ▸ h) (by decide)

theorem nameChar_ne_quote {c : Char} (h : isNameChar c = true) : c ≠ '"' :=
  fun he => absurd (he ▸ h) (by decide)

theorem nameStart_ne_eqSign {c : Char} (h : isNameStart c = true) : c ≠ '=' :=
  fun he => absurd (he ▸ h) (by decide)

theorem wfValueChar_ne {c : Char} (h : wfValueChar c = true) :
    c ≠ '"' ∧ c ≠ '=' := by
  simp only [wfValueChar, Bool.not_eq_true', Bool.or_eq_false_iff,
    decide_eq_false_iff_not] at h
  exact ⟨h.1.1.1, h.1.1.2⟩

/-! Behaviour of `tryAttrAt` on the serialization. -/

theorem tryAttrAt_not_start {c : Char} (rest : List Char)
    (h : isNameStart c = false) : tryAttrAt (c :: rest) = none := by
  simp [tryAttrAt, h]

/-- At the start of a serialized attribute the regex attempt succeeds and
consumes exactly the serialized attribute. -/
theorem tryAttrAt_hit (n v : String) (rest : List Char)
    (hn : wfAttrName n.data = true) (hv : ∀ c ∈ v.data, c ≠ '"') :
    tryAttrAt (n.data ++ '=' :: '"' :: (v.data ++ '"' :: rest)) =
      some ((n, v), rest) := by
  rcases hd : n.data with _ | ⟨c, nt⟩
  · rw [hd] at hn; exact absurd hn (by simp [wfAttrName])
  rw [hd] at hn
  simp only [wfAttrName, Bool.and_eq_true, List.all_eq_true] at hn
  obtain ⟨hc, hnt⟩ := hn
  simp only [List.cons_append, tryAttrAt, hc, Bool.not_true, Bool.false_eq_true,
    if_false]
  rw [takeWhile_all_append isNameChar nt '=' _ hnt (by decide)]
  rw [List.drop_left]
  rw [dropWhile_eq_self_of_head isJsSpace _ (by intro c hc'; cases hc'; decide)]
  simp only
  rw [dropWhile_eq_self_of_head isJsSpace _ (by intro c hc'; cases hc'; decide)]
  simp only
  rw [takeWhile_all_append _ v.data '"' rest
    (fun d hdm => decide_eq_true (hv d hdm)) (by decide)]
  rw [List.drop_left, ← hd]
  rfl

/-- Inside a run of name characters that continues into the serialization of
further attributes (or the closing `>`), every regex attempt fails: after the
greedy name the next significant character is never `=`. -/
theorem tryAttrAt_run_none (run : List Char) (hrun : ∀ c ∈ run, isNameChar c = true)
    (attrs : List (String × String))
    (hwf : ∀ p ∈ attrs, wfAttrName p.1.data = true) :
    tryAttrAt (run ++ (serAttrs attrs ++ ['>'])) = none := by
  rcases run with _ | ⟨c, run'⟩
  · rcases attrs with _ | ⟨⟨n, v⟩, t⟩
    · simp only [serAttrs, List.nil_append]
      exact tryAttrAt_not_start _ (by decide)
    · simp only [serAttrs, List.nil_append, List.cons_append]
      exact tryAttrAt_not_start _ (by decide)
  by_cases hc : isNameStart c = true
  · simp only [List.cons_append, tryAttrAt, hc, Bool.not_true, Bool.false_eq_true,
      if_false]
    rcases attrs with _ | ⟨⟨n, v⟩, t⟩
    · simp only [serAttrs, List.nil_append]
      rw [takeWhile_all_append isNameChar run' '>' []
        (fun d hdm => hrun d (by simp [hdm])) (by decide)]
      rw [List.drop_left]
      rw [dropWhile_eq_self_of_head isJsSpace _ (by intro d hd'; cases hd'; decide)]
      rfl
    · have hser : serAttrs ((n, v) :: t) ++ ['>'] =
          ' ' :: (n.data ++ '=' :: '"' :: (v.data ++ '"' :: serAttrs t) ++ ['>']) := by
        simp [serAttrs]
      rw [hser]
      rw [takeWhile_all_append isNameChar run' ' ' _
        (fun d hdm => hrun d (by simp [hdm])) (by decide)]
      rw [List.drop_left]
      rw [List.dropWhile_cons]
      simp only [show isJsSpace ' ' = true from by decide, if_true]
      rcases hnd : n.data with _ | ⟨c₁, nt⟩
      · exact absurd (hnd ▸ (hwf (n, v) (by simp))) (by simp [wfAttrName])
      have hc₁ : isNameStart c₁ = true := by
        have := hwf (n, v) (by simp)
        rw [hnd] at this
        simp only [wfAttrName, Bool.and_eq_true] at this
        exact this.1
      simp only [List.cons_append]
      rw [dropWhile_eq_self_of_head isJsSpace _
        (by intro d hd'; cases hd'; exact nameStart_not_jsSpace hc₁)]
      have hne : c₁ ≠ '=' := nameStart_ne_eqSign hc₁
      split
      · rename_i heq
        exact absurd (List.cons.injEq .. ▸ heq).1 hne
      · rfl
  · exact tryAttrAt_not_start _ (Bool.not_eq_true _ ▸ hc)

theorem scanAttrsGo_nil (fuel : Nat) : scanAttrsGo fuel [] = [] := by
  cases fuel <;> rfl

/-- The attribute scan over a serialized attribute list (followed by the
closing `>`) recovers exactly the attribute list. -/
theorem scanAttrs_ser (attrs : List (String × String))
    (hwf : ∀ p ∈ attrs, wfAttrName p.1.data = true ∧ p.2.data.all wfValueChar = true) :
    ∀ fuel, (serAttrs attrs).length + 1 ≤ fuel →
    scanAttrsGo fuel (serAttrs attrs ++ ['>']) = attrs := by
  induction attrs with
  | nil =>
    intro fuel hfuel
    obtain ⟨f, rfl⟩ : ∃ f, fuel = f + 1 := ⟨fuel - 1, by omega⟩
    simp only [serAttrs, List.nil_append, scanAttrsGo,
      tryAttrAt_not_start _ (show isNameStart '>' = false by decide)]
    exact scanAttrsGo_nil f
  | cons p t ih =>
    intro fuel hfuel
    obtain ⟨n, v⟩ := p
    have hlen : (serAttrs ((n, v) :: t)).length =
        1 + n.data.length + 2 + v.data.length + 1 + (serAttrs t).length := by
      simp [serAttrs]; omega
    obtain ⟨f, rfl⟩ : ∃ f, fuel = f + 2 := ⟨fuel - 2, by omega⟩
    have hser : serAttrs ((n, v) :: t) ++ ['>'] =
        ' ' :: (n.data ++ '=' :: '"' :: (v.data ++ '"' :: (serAttrs t ++ ['>']))) := by
      simp [serAttrs]
    rw [hser]
    simp only [scanAttrsGo, tryAttrAt_not_start _ (show isNameStart ' ' = false by decide)]
    have hv : ∀ c ∈ v.data, c ≠ '"' := by
      intro c hcm
      exact (wfValueChar_ne (List.all_eq_true.mp (hwf (n, v) (by simp)).2 c hcm)).1
    rcases hnd : n.data with _ | ⟨c₁, nt⟩
    · exact absurd (hnd ▸ (hwf (n, v) (by simp)).1) (by simp [wfAttrName])
    have hhit := tryAttrAt_hit n v (serAttrs t ++ ['>']) (hwf (n, v) (by simp)).1 hv
    rw [hnd] at hhit
    simp only [List.cons_append] at hhit
    simp only [List.cons_append, scanAttrsGo, List.append_eq, hhit]
    rw [ih (fun q hq => hwf q (by simp [hq])) f (by omega)]

/-- The scan skips over the leading `<` and the tag name and recovers the
attribute list of a well-formed serialized open tag. -/
theorem scanAttrs_nameRun (run : List Char) (hrun : ∀ c ∈ run, isNameChar c = true)
    (attrs : List (String × String))
    (hwf : ∀ p ∈ attrs, wfAttrName p.1.data = true ∧ p.2.data.all wfValueChar = true) :
    ∀ fuel, run.length + ((serAttrs attrs).length + 1) ≤ fuel →
    scanAttrsGo fuel (run ++ (serAttrs attrs ++ ['>'])) = attrs := by
  induction run with
  | nil =>
    intro fuel hfuel
    simpa using scanAttrs_ser attrs hwf fuel (by simpa using hfuel)
  | cons c run' ih =>
    intro fuel hfuel
    obtain ⟨f, rfl⟩ : ∃ f, fuel = f + 1 := ⟨fuel - 1, by simp at hfuel; omega⟩
    simp only [List.cons_append, scanAttrsGo]
    have hmiss := tryAttrAt_run_none (c :: run') hrun attrs (fun p hp => (hwf p hp).1)
    simp only [List.cons_append] at hmiss
    simp only [List.append_eq]
    rw [hmiss]
    exact ih (fun d hdm => hrun d (by simp [hdm])) f (by simp at hfuel; omega)

/-- `parseAttributes` recovers the attribute list of a well-formed serialized
open tag. -/
theorem parseAttributes_tagStr (tn : String) (attrs : List (String × String))
    (htn : wfTagName tn) (hwf : wfAttrList attrs) :
    parseAttributes (tagStr tn attrs) = attrs := by
  simp only [parseAttributes, tagStr]
  have hlen : ('<' :: (tn.data ++ (serAttrs attrs ++ ['>']))).length =
      1 + tn.data.length + ((serAttrs attrs).length + 1) := by simp; omega
  rw [hlen]
  obtain ⟨f, hf⟩ : ∃ f, 1 + tn.data.length + ((serAttrs attrs).length + 1) = f + 1 :=
    ⟨tn.data.length + ((serAttrs attrs).length + 1), by omega⟩
  rw [hf]
  simp only [scanAttrsGo, tryAttrAt_not_start _ (show isNameStart '<' = false by decide)]
  exact scanAttrs_nameRun tn.data
    (fun c hcm => tagNameChar_nameChar (htn.2 c hcm)) attrs hwf.1 f (by omega)

/-! Behaviour of `tryNamedAttrPatAt` (the `\s<name>="[^"]*"` pattern) on the
serialization, and of the `replaceFirstAttrGo` scan. -/

theorem tryNamedAttrPat_not_space (nmd : List Char) {c : Char} (rest : List Char)
    (h : isJsSpace c = false) : tryNamedAttrPatAt nmd (c :: rest) = none := by
  simp [tryNamedAttrPatAt, h]

/-- Two name-character runs followed by `="` agree as soon as one pattern is a
prefix of the other serialization: the `=` delimiter is not a name character,
so the runs must be equal. -/
theorem namePat_eq_of_pre : ∀ (xs ys : List Char), (∀ c ∈ xs, isNameChar c = true) →
    (∀ c ∈ ys, isNameChar c = true) → ∀ (a b : List Char),
    (xs ++ '=' :: '"' :: a) <+: (ys ++ '=' :: '"' :: b) → xs = ys := by
  intro xs
  induction xs with
  | nil =>
    intro ys _ hys a b hp
    cases ys with
    | nil => rfl
    | cons y ys' =>
      simp only [List.nil_append, List.cons_append, List.cons_prefix_cons] at hp
      exact absurd hp.1.symm (nameChar_ne_eqSign (hys y (by simp)))
  | cons x xs' ih =>
    intro ys hxs hys a b hp
    cases ys with
    | nil =>
      simp only [List.cons_append, List.nil_append, List.cons_prefix_cons] at hp
      exact absurd hp.1 (nameChar_ne_eqSign (hxs x (by simp)))
    | cons y ys' =>
      simp only [List.cons_append, List.cons_prefix_cons] at hp
      rw [hp.1, ih ys' (fun c hc => hxs c (by simp [hc]))
        (fun c hc => hys c (by simp [hc])) a b hp.2]

/-- The named-attribute pattern cannot match starting inside a well-formed
attribute value: its name characters and its `=` are excluded from values,
and its `"` cannot align before the value's closing quote. -/
theorem namePat_not_pre_value : ∀ (nmd : List Char), (∀ c ∈ nmd, isNameChar c = true) →
    ∀ (vs : List Char), (∀ c ∈ vs, wfValueChar c = true) → ∀ (a b : List Char),
    ¬ (nmd ++ '=' :: '"' :: a) <+: (vs ++ '"' :: b) := by
  intro nmd
  induction nmd with
  | nil =>
    intro _ vs hvs a b hp
    cases vs with
    | nil =>
      simp only [List.nil_append, List.cons_prefix_cons] at hp
      exact absurd hp.1 (by decide)
    | cons u vs' =>
      simp only [List.nil_append, List.cons_append, List.cons_prefix_cons] at hp
      exact absurd hp.1.symm (wfValueChar_ne (hvs u (by simp))).2
  | cons m nmd' ih =>
    intro hnmd vs hvs a b hp
    cases vs with
    | nil =>
      simp only [List.cons_append, List.nil_append, List.cons_prefix_cons] at hp
      exact absurd hp.1 (nameChar_ne_quote (hnmd m (by simp)))
    | cons u vs' =>
      simp only [List.cons_append, List.cons_prefix_cons] at hp
      exact ih (fun c hc => hnmd c (by simp [hc])) vs'
        (fun c hc => hvs c (by simp [hc])) a b hp.2

/-- At the leading space of the serialized target attribute, the named pattern
matches and consumes exactly the serialized attribute. -/
theorem tryNamedAttrPat_hit (nm v : String) (rest : List Char) {c : Char}
    (hsp : isJsSpace c = true) (hv : ∀ ch ∈ v.data, ch ≠ '"') :
    tryNamedAttrPatAt nm.data
      (c :: (nm.data ++ '=' :: '"' :: (v.data ++ '"' :: rest))) = some rest := by
  have hshape : nm.data ++ '=' :: '"' :: (v.data ++ '"' :: rest) =
      (nm.data ++ ['=', '"']) ++ (v.data ++ '"' :: rest) := by simp
  have hpre : (nm.data ++ ['=', '"']).isPrefixOf
      (nm.data ++ '=' :: '"' :: (v.data ++ '"' :: rest)) = true := by
    rw [hshape]
    exact List.isPrefixOf_iff_prefix.mpr (List.prefix_append _ _)
  simp only [tryNamedAttrPatAt, hsp, hpre, Bool.and_self, if_true]
  have hlen : nm.data.length + 2 = (nm.data ++ ['=', '"']).length := by simp
  rw [hlen, hshape, List.drop_left]
  rw [takeWhile_all_append _ v.data '"' rest
    (fun d hdm => decide_eq_true (hv d hdm)) (by decide)]
  rw [List.drop_left]
  rfl

/-- At the leading space of a serialized attribute with a different name, the
named pattern does not match. -/
theorem tryNamedAttrPat_miss_name (nmd : List Char) (hnmd : ∀ ch ∈ nmd, isNameChar ch = true)
    (n v : String) (hn : ∀ ch ∈ n.data, isNameChar ch = true) (hne : n.data ≠ nmd)
    (rest : List Char) (c : Char) :
    tryNamedAttrPatAt nmd (c :: (n.data ++ '=' :: '"' :: (v.data ++ '"' :: rest))) = none := by
  have hpre : (nmd ++ ['=', '"']).isPrefixOf
      (n.data ++ '=' :: '"' :: (v.data ++ '"' :: rest)) = false := by
    by_contra h
    rw [Bool.not_eq_false] at h
    have hp := List.isPrefixOf_iff_prefix.mp h
    exact hne (namePat_eq_of_pre nmd n.data hnmd hn [] _ hp).symm
  simp [tryNamedAttrPatAt, hpre]

/-- Inside a well-formed attribute value the named pattern does not match. -/
theorem tryNamedAttrPat_miss_value (nmd : List Char) (hnmd : ∀ ch ∈ nmd, isNameChar ch = true)
    (vs : List Char) (hvs : ∀ ch ∈ vs, wfValueChar ch = true) (b : List Char) (c : Char) :
    tryNamedAttrPatAt nmd (c :: (vs ++ '"' :: b)) = none := by
  have hpre : (nmd ++ ['=', '"']).isPrefixOf (vs ++ '"' :: b) = false := by
    by_contra h
    rw [Bool.not_eq_false] at h
    exact namePat_not_pre_value nmd hnmd vs hvs [] _ (List.isPrefixOf_iff_prefix.mp h)
  simp [tryNamedAttrPatAt, hpre]

theorem rfGo_nil (nmd nv : List Char) (fuel : Nat) :
    replaceFirstAttrGo nmd nv fuel [] = none := by
  cases fuel <;> rfl

/-- The `replaceFirstAttrGo` scan walks over a run of non-space characters,
keeping them. -/
theorem rfGo_walk_nonspace (nmd nv : List Char) :
    ∀ (run : List Char), (∀ c ∈ run, isJsSpace c = false) → ∀ (f : Nat) (rest : List Char),
    replaceFirstAttrGo nmd nv (run.length + f) (run ++ rest) =
      (replaceFirstAttrGo nmd nv f rest).map (fun t => run ++ t) := by
  intro run
  induction run with
  | nil =>
    intro _ f rest
    simp only [List.length_nil, Nat.zero_add, List.nil_append]
    cases replaceFirstAttrGo nmd nv f rest <;> simp
  | cons c run' ih =>
    intro h f rest
    have hlen : (c :: run').length + f = (run'.length + f) + 1 := by
      simp only [List.length_cons]; omega
    rw [hlen]
    simp only [List.cons_append, replaceFirstAttrGo, List.append_eq]
    rw [tryNamedAttrPat_not_space nmd _ (h c (by simp))]
    rw [ih (fun d hdm => h d (by simp [hdm])) f rest]
    cases replaceFirstAttrGo nmd nv f rest <;> simp

/-- The `replaceFirstAttrGo` scan walks through the interior of a well-formed
attribute value without matching. -/
theorem rfGo_walk_value (nmd nv : List Char) (hnmd : ∀ c ∈ nmd, isNameChar c = true) :
    ∀ (vs : List Char), (∀ c ∈ vs, wfValueChar c = true) → ∀ (f : Nat) (b : List Char),
    replaceFirstAttrGo nmd nv (vs.length + f) (vs ++ '"' :: b) =
      (replaceFirstAttrGo nmd nv f ('"' :: b)).map (fun t => vs ++ t) := by
  intro vs
  induction vs with
  | nil =>
    intro _ f b
    simp only [List.length_nil, Nat.zero_add, List.nil_append]
    cases replaceFirstAttrGo nmd nv f ('"' :: b) <;> simp
  | cons u vs' ih =>
    intro h f b
    have hlen : (u :: vs').length + f = (vs'.length + f) + 1 := by
      simp only [List.length_cons]; omega
    rw [hlen]
    simp only [List.cons_append, replaceFirstAttrGo, List.append_eq]
    rw [tryNamedAttrPat_miss_value nmd hnmd vs' (fun d hdm => h d (by simp [hdm])) b u]
    rw [ih (fun d hdm => h d (by simp [hdm])) f b]
    cases replaceFirstAttrGo nmd nv f ('"' :: b) <;> simp

/-- In-place value update of an attribute list (all occurrences of the name;
with distinct names, at most one). -/
def updAttr (l : List (String × String)) (nm v : String) : List (String × String) :=
  l.map (fun p => if p.1 = nm then (nm, v) else p)

theorem updAttr_not_mem (l : List (String × String)) (nm v : String)
    (h : nm ∉ l.map Prod.fst) : updAttr l nm v = l := by
  induction l with
  | nil => rfl
  | cons p t ih =>
    simp only [List.map_cons, List.mem_cons, not_or] at h
    simp only [updAttr, List.map_cons]
    rw [if_neg (fun he => h.1 he.symm)]
    have := ih h.2
    simp only [updAttr] at this
    rw [this]

theorem nameStart_nameChar {c : Char} (h : isNameStart c = true) : isNameChar c = true := by
  simp only [isNameStart, Bool.or_eq_true] at h
  simp only [isNameChar, Bool.or_eq_true]
  tauto

theorem wfAttrName_chars {l : List Char} (h : wfAttrName l = true) :
    ∀ c ∈ l, isNameChar c = true := by
  cases l with
  | nil => intro c hc; cases hc
  | cons a t =>
    simp only [wfAttrName, Bool.and_eq_true, List.all_eq_true] at h
    intro c hc
    rcases List.mem_cons.mp hc with rfl | hc'
    · exact nameStart_nameChar h.1
    · exact h.2 c hc'

/-- The first-occurrence attribute replacement over a serialized attribute
list: the pattern matches exactly when the name is present; the match
replaces the value in place and leaves everything else unchanged. -/
theorem rfGo_ser (nm nv : String) (hnm : wfAttrName nm.data = true)
    (attrs : List (String × String))
    (hwf : ∀ p ∈ attrs, wfAttrName p.1.data = true ∧ p.2.data.all wfValueChar = true)
    (hnd : (attrs.map Prod.fst).Nodup) :
    ∀ fuel, (serAttrs attrs).length + 1 ≤ fuel →
    replaceFirstAttrGo nm.data nv.data fuel (serAttrs attrs ++ ['>']) =
      if nm ∈ attrs.map Prod.fst
      then some (serAttrs (updAttr attrs nm nv) ++ ['>'])
      else none := by
  revert hwf hnd
  induction attrs with
  | nil =>
    intro hwf hnd fuel hfuel
    obtain ⟨f, rfl⟩ : ∃ f, fuel = f + 1 := ⟨fuel - 1, by omega⟩
    simp only [serAttrs, List.nil_append, replaceFirstAttrGo]
    rw [tryNamedAttrPat_not_space nm.data _ (by decide)]
    rw [rfGo_nil]
    simp
  | cons p t ih =>
    intro hwf hnd fuel hfuel
    obtain ⟨n, v⟩ := p
    have hwfn := (hwf (n, v) (by simp)).1
    have hvchars : ∀ c ∈ v.data, wfValueChar c = true :=
      List.all_eq_true.mp (hwf (n, v) (by simp)).2
    have hnChars := wfAttrName_chars hwfn
    have hserlen : (serAttrs ((n, v) :: t)).length =
        n.data.length + v.data.length + 4 + (serAttrs t).length := by
      simp [serAttrs]; omega
    have hlen2 : (n.data ++ ['=', '"']).length = n.data.length + 2 := by simp
    obtain ⟨f6, hf6, hfeq⟩ : ∃ f6, (serAttrs t).length + 1 ≤ f6 ∧
        fuel = ((n.data ++ ['=', '"']).length + (v.data.length + (1 + f6))) + 1 :=
      ⟨fuel - (n.data.length + 2 + v.data.length + 2), by omega, by omega⟩
    subst hfeq
    have hser : serAttrs ((n, v) :: t) ++ ['>'] =
        ' ' :: ((n.data ++ ['=', '"']) ++ (v.data ++ '"' :: (serAttrs t ++ ['>']))) := by
      simp [serAttrs]
    rw [hser]
    simp only [replaceFirstAttrGo]
    have hshape : (n.data ++ ['=', '"']) ++ (v.data ++ '"' :: (serAttrs t ++ ['>'])) =
        n.data ++ '=' :: '"' :: (v.data ++ '"' :: (serAttrs t ++ ['>'])) := by simp
    by_cases heq : n = nm
    · subst heq
      have hvq : ∀ ch ∈ v.data, ch ≠ '"' := fun ch hch => (wfValueChar_ne (hvchars ch hch)).1
      have hhit := tryNamedAttrPat_hit n v (serAttrs t ++ ['>'])
        (show isJsSpace ' ' = true by decide) hvq
      rw [hshape, hhit]
      rw [if_pos (by simp)]
      have hnin : n ∉ t.map Prod.fst := by
        simp only [List.map_cons, List.nodup_cons] at hnd; exact hnd.1
      have hupdt : updAttr ((n, v) :: t) n nv = (n, nv) :: t := by
        have h2 : updAttr t n nv = t := updAttr_not_mem t n nv hnin
        simp only [updAttr] at h2 ⊢
        simp [h2]
      rw [hupdt]
      simp [serAttrs]
    · have hndne : n.data ≠ nm.data :=
        fun hdd => heq (by rw [← string_eta n, ← string_eta nm, hdd])
      have hmiss := tryNamedAttrPat_miss_name nm.data (wfAttrName_chars hnm) n v
        hnChars hndne (serAttrs t ++ ['>']) ' '
      rw [hshape, hmiss, ← hshape]
      have hnsp : ∀ c ∈ n.data ++ ['=', '"'], isJsSpace c = false := by
        intro d hdm
        rcases List.mem_append.mp hdm with h1 | h1
        · exact nameChar_not_jsSpace (hnChars d h1)
        · simp only [List.mem_cons, List.not_mem_nil, or_false] at h1
          rcases h1 with rfl | rfl <;> decide
      rw [rfGo_walk_nonspace nm.data nv.data (n.data ++ ['=', '"']) hnsp
        (v.data.length + (1 + f6)) (v.data ++ '"' :: (serAttrs t ++ ['>']))]
      rw [rfGo_walk_value nm.data nv.data (wfAttrName_chars hnm) v.data hvchars
        (1 + f6) (serAttrs t ++ ['>'])]
      rw [show (1 : Nat) + f6 = (['"'] : List Char).length + f6 from by simp]
      rw [show ('"' :: (serAttrs t ++ ['>'])) = ['"'] ++ (serAttrs t ++ ['>']) from rfl]
      rw [rfGo_walk_nonspace nm.data nv.data ['"']
        (by intro d hdm; simp only [List.mem_singleton] at hdm; subst hdm; decide)
        f6 (serAttrs t ++ ['>'])]
      rw [ih (fun q hq => hwf q (by simp [hq]))
        (by simp only [List.map_cons, List.nodup_cons] at hnd; exact hnd.2) f6 hf6]
      have hcondRw : (nm ∈ ((n, v) :: t).map Prod.fst) = (nm ∈ t.map Prod.fst) := by
        simp only [List.map_cons, List.mem_cons, eq_iff_iff]
        constructor
        · rintro (rfl | h1)
          · exact absurd rfl heq
          · exact h1
        · exact Or.inr
      by_cases hmem : nm ∈ t.map Prod.fst
      · rw [if_pos hmem, if_pos (by rw [hcondRw]; exact hmem)]
        have hupdc : updAttr ((n, v) :: t) nm nv = (n, v) :: updAttr t nm nv := by
          simp only [updAttr, List.map_cons, if_neg heq]
        rw [hupdc]
        simp [serAttrs]
      · rw [if_neg hmem, if_neg (by rw [hcondRw]; exact hmem)]
        rfl

/-- `addOrUpdateAttribute` on a well-formed serialized open tag: update the
value in place when the attribute is present, else insert the attribute right
after the tag name. -/
theorem addOrUpdate_tagStr (tn : String) (htn : wfTagName tn)
    (attrs : List (String × String)) (hwf : wfAttrList attrs) (nm v : String)
    (hnm : wfAttrName nm.data = true) :
    addOrUpdateAttribute (tagStr tn attrs) nm v =
      tagStr tn (if nm ∈ attrs.map Prod.fst then updAttr attrs nm v
                 else (nm, v) :: attrs) := by
  have hdata : (tagStr tn attrs).data = ('<' :: tn.data) ++ (serAttrs attrs ++ ['>']) := by
    simp [tagStr]
  have hlen : (tagStr tn attrs).data.length =
      ('<' :: tn.data).length + ((serAttrs attrs).length + 1) := by
    rw [hdata]; simp; omega
  have hnsp : ∀ c ∈ '<' :: tn.data, isJsSpace c = false := by
    intro d hdm
    rcases List.mem_cons.mp hdm with rfl | h1
    · decide
    · exact tagNameChar_not_jsSpace (htn.2 d h1)
  have hrf : replaceFirstAttrGo nm.data v.data (tagStr tn attrs).data.length
      (tagStr tn attrs).data =
      (if nm ∈ attrs.map Prod.fst then some (serAttrs (updAttr attrs nm v) ++ ['>'])
       else none).map (fun t => ('<' :: tn.data) ++ t) := by
    rw [hlen]
    conv_lhs => rw [hdata]
    rw [rfGo_walk_nonspace nm.data v.data ('<' :: tn.data) hnsp _ _]
    rw [rfGo_ser nm v hnm attrs hwf.1 hwf.2 _ (le_refl _)]
  by_cases hmem : nm ∈ attrs.map Prod.fst
  · rw [if_pos hmem] at hrf ⊢
    show (match replaceFirstAttrGo nm.data v.data (tagStr tn attrs).data.length
        (tagStr tn attrs).data with
      | some out => (⟨out⟩ : String)
      | none =>
        match (tagStr tn attrs).data with
        | '<' :: rest =>
          let tagName := rest.takeWhile isTagNameChar
          if tagName.isEmpty then tagStr tn attrs
          else ⟨'<' :: (tagName ++ ' ' :: (nm.data ++ '=' :: '"' ::
            (v.data ++ '"' :: rest.drop tagName.length)))⟩
        | _ => tagStr tn attrs) = tagStr tn (updAttr attrs nm v)
    rw [hrf]
    rfl
  · rw [if_neg hmem] at hrf ⊢
    show (match replaceFirstAttrGo nm.data v.data (tagStr tn attrs).data.length
        (tagStr tn attrs).data with
      | some out => (⟨out⟩ : String)
      | none =>
        match (tagStr tn attrs).data with
        | '<' :: rest =>
          let tagName := rest.takeWhile isTagNameChar
          if tagName.isEmpty then tagStr tn attrs
          else ⟨'<' :: (tagName ++ ' ' :: (nm.data ++ '=' :: '"' ::
            (v.data ++ '"' :: rest.drop tagName.length)))⟩
        | _ => tagStr tn attrs) = tagStr tn ((nm, v) :: attrs)
    rw [hrf]
    have htake : (tn.data ++ (serAttrs attrs ++ ['>'])).takeWhile isTagNameChar = tn.data := by
      rcases hattrs : attrs with _ | ⟨⟨n1, v1⟩, t1⟩
      · simp only [serAttrs, List.nil_append]
        exact takeWhile_all_append isTagNameChar tn.data '>' [] htn.2 (by decide)
      · rw [show serAttrs ((n1, v1) :: t1) ++ ['>'] =
          ' ' :: ((n1.data ++ '=' :: '"' :: (v1.data ++ '"' :: serAttrs t1)) ++ ['>'])
          from by simp [serAttrs]]
        exact takeWhile_all_append isTagNameChar tn.data ' ' _ htn.2 (by decide)
    have hne : tn.data.isEmpty = false := by
      rcases hdd : tn.data with _ | ⟨a, b⟩
      · exact absurd hdd htn.1
      · rfl
    show (match (tagStr tn attrs).data with
      | '<' :: rest =>
        let tagName := rest.takeWhile isTagNameChar
        if tagName.isEmpty then tagStr tn attrs
        else ⟨'<' :: (tagName ++ ' ' :: (nm.data ++ '=' :: '"' ::
          (v.data ++ '"' :: rest.drop tagName.length)))⟩
      | _ => tagStr tn attrs) = tagStr tn ((nm, v) :: attrs)
    rw [show (tagStr tn attrs).data = '<' :: (tn.data ++ (serAttrs attrs ++ ['>'])) from rfl]
    simp only [htake, hne, Bool.false_eq_true, if_false, List.drop_left]
    simp [tagStr, serAttrs]

/-! Attribute-object lookup: with distinct names, the last-wins lookup equals
the first-wins lookup `getAttr`. -/

theorem attrsLookup_eq_getAttr (l : List (String × String)) (nm : String)
    (h : (l.map Prod.fst).Nodup) : attrsLookup l nm = getAttr l nm := by
  induction l with
  | nil => rfl
  | cons p t ih =>
    simp only [List.map_cons, List.nodup_cons] at h
    simp only [attrsLookup, List.reverse_cons, List.find?_append]
    cases hp : (p.1 == nm) with
    | true =>
      have hpe : p.1 = nm := eq_of_beq hp
      have htn : t.reverse.find? (fun q => q.1 == nm) = none := by
        rw [List.find?_eq_none]
        intro x hx hbeq
        apply h.1
        have hx1 : x.1 = nm := eq_of_beq hbeq
        rw [hpe, ← hx1]
        exact List.mem_map_of_mem Prod.fst (List.mem_reverse.mp hx)
      rw [htn]
      simp [getAttr, hp, List.find?, Option.or]
    | false =>
      have hgf : getAttr (p :: t) nm = getAttr t nm := by
        simp [getAttr, hp]
      rw [hgf, ← ih h.2]
      simp only [attrsLookup]
      cases hfind : t.reverse.find? (fun q => q.1 == nm) with
      | some q => simp [Option.or]
      | none => simp [List.find?, hp, Option.or]

theorem getAttr_updAttr_self (l : List (String × String)) (nm v : String) :
    getAttr (updAttr l nm v) nm = (getAttr l nm).map (fun _ => v) := by
  induction l with
  | nil => rfl
  | cons p t ih =>
    by_cases hp : p.1 = nm
    · simp [updAttr, getAttr, hp, if_pos, ih]
    · have hb : (p.1 == nm) = false := by
        simp only [beq_eq_false_iff_ne, ne_eq]; exact hp
      simp only [updAttr, List.map_cons, if_neg hp]
      simp only [getAttr, hb, Bool.false_eq_true, if_false]
      exact ih

theorem getAttr_updAttr_other (l : List (String × String)) (nm nm' v : String)
    (h : nm' ≠ nm) : getAttr (updAttr l nm v) nm' = getAttr l nm' := by
  induction l with
  | nil => rfl
  | cons p t ih =>
    by_cases hp : p.1 = nm
    · have hb : (nm == nm') = false := by
        simp only [beq_eq_false_iff_ne, ne_eq]; exact fun he => h he.symm
      have hb2 : (p.1 == nm') = false := by
        simp only [beq_eq_false_iff_ne, ne_eq]; rw [hp]; exact fun he => h he.symm
      simp only [updAttr, List.map_cons, if_pos hp]
      simp only [getAttr, hb, hb2, Bool.false_eq_true, if_false]
      exact ih
    · simp only [updAttr, List.map_cons, if_neg hp]
      simp only [getAttr]
      cases hb : (p.1 == nm') with
      | true => rfl
      | false => exact ih

theorem updAttr_map_fst (l : List (String × String)) (nm v : String) :
    (updAttr l nm v).map Prod.fst = l.map Prod.fst := by
  induction l with
  | nil => rfl
  | cons p t ih =>
    by_cases hp : p.1 = nm
    · simp only [updAttr, List.map_cons, if_pos hp]
      simp only [updAttr] at ih
      rw [ih, hp]
    · simp only [updAttr, List.map_cons, if_neg hp]
      simp only [updAttr] at ih
      rw [ih]

/-! Whitespace tokenization and its `intercalate` inverse. -/

theorem wsTokensGo_nil (fuel : Nat) : wsTokensGo fuel [] = [] := by
  cases fuel <;> rfl

theorem wsTokensGo_tokens : ∀ (fuel : Nat) (l : List Char), ∀ t ∈ wsTokensGo fuel l,
    t.data ≠ [] ∧ ∀ c ∈ t.data, isJsSpace c = false ∧ c ∈ l := by
  intro fuel
  induction fuel with
  | zero => intro l t ht; cases ht
  | succ f ih =>
    intro l t ht
    cases l with
    | nil => cases ht
    | cons c rest =>
      by_cases hc : isJsSpace c = true
      · simp only [wsTokensGo, hc, if_true] at ht
        obtain ⟨h1, h2⟩ := ih rest t ht
        exact ⟨h1, fun d hd => ⟨(h2 d hd).1, List.mem_cons_of_mem c (h2 d hd).2⟩⟩
      · have hc' : isJsSpace c = false := by rwa [Bool.not_eq_true] at hc
        simp only [wsTokensGo, hc', Bool.false_eq_true, if_false] at ht
        rcases List.mem_cons.mp ht with rfl | ht'
        · refine ⟨by simp, fun d hd => ?_⟩
          rcases List.mem_cons.mp hd with rfl | hd'
          · exact ⟨hc', List.mem_cons_self _ _⟩
          · have h1 := List.mem_takeWhile_imp hd'
            have h2 : d ∈ rest := (List.takeWhile_sublist _).subset hd'
            exact ⟨by simpa using h1, List.mem_cons_of_mem c h2⟩
        · obtain ⟨h1, h2⟩ := ih _ t ht'
          refine ⟨h1, fun d hd => ⟨(h2 d hd).1, ?_⟩⟩
          have hdr : d ∈ rest := (List.drop_sublist _ _).subset (h2 d hd).2
          exact List.mem_cons_of_mem c hdr

theorem splitWsTokens_tokens (s : String) : ∀ t ∈ splitWsTokens s,
    t.data ≠ [] ∧ ∀ c ∈ t.data, isJsSpace c = false ∧ c ∈ s.data :=
  wsTokensGo_tokens s.data.length s.data

/-- The character list of `" ".intercalate`-joined tokens, tail part. -/
def jnTail : List String → List Char
  | [] => []
  | b :: bs => ' ' :: (b.data ++ jnTail bs)

/-- The character list of `" ".intercalate`-joined tokens. -/
def jnData : List String → List Char
  | [] => []
  | a :: as => a.data ++ jnTail as

theorem intercalate_go_data (bs : List String) : ∀ acc : String,
    (String.intercalate.go acc " " bs).data = acc.data ++ jnTail bs := by
  induction bs with
  | nil => intro acc; simp [String.intercalate.go, jnTail]
  | cons b bs ih =>
    intro acc
    rw [show String.intercalate.go acc " " (b :: bs) =
      String.intercalate.go (acc ++ " " ++ b) " " bs from rfl, ih]
    simp [jnTail, String.data_append]

theorem intercalate_space_data (toks : List String) :
    (String.intercalate " " toks).data = jnData toks := by
  cases toks with
  | nil => rfl
  | cons a as =>
    rw [show String.intercalate " " (a :: as) = String.intercalate.go a " " as from rfl]
    rw [intercalate_go_data as a]
    rfl

/-- Splitting the space-joined token list recovers the tokens, provided every
token is nonempty and space-free. -/
theorem wsTokensGo_jn : ∀ (toks : List String),
    (∀ t ∈ toks, t.data ≠ [] ∧ ∀ c ∈ t.data, isJsSpace c = false) →
    ∀ fuel, (jnData toks).length ≤ fuel → wsTokensGo fuel (jnData toks) = toks := by
  intro toks
  induction toks with
  | nil => intro _ fuel _; exact wsTokensGo_nil fuel
  | cons a as ih =>
    intro h fuel hfuel
    obtain ⟨ha1, ha2⟩ := h a (by simp)
    rcases had : a.data with _ | ⟨c, at'⟩
    · exact absurd had ha1
    have hat : ∀ x ∈ at', isJsSpace x = false := by
      intro x hx; exact ha2 x (by rw [had]; exact List.mem_cons_of_mem c hx)
    have hc : isJsSpace c = false := ha2 c (by rw [had]; exact List.mem_cons_self _ _)
    cases as with
    | nil =>
      have hshape : jnData [a] = c :: (at' ++ []) := by simp [jnData, jnTail, had]
      obtain ⟨f, rfl⟩ : ∃ f, fuel = f + 1 :=
        ⟨fuel - 1, by rw [hshape] at hfuel; simp at hfuel; omega⟩
      rw [hshape]
      simp only [wsTokensGo, hc, Bool.false_eq_true, if_false]
      rw [List.append_nil]
      rw [List.takeWhile_eq_self_iff.mpr (fun x hx => by simp [hat x hx])]
      rw [List.drop_length, wsTokensGo_nil]
      rw [← had]
    | cons b bs =>
      have hshape : jnData (a :: b :: bs) =
          c :: (at' ++ ' ' :: jnData (b :: bs)) := by
        simp [jnData, jnTail, had]
      have hlen3 : (jnData (a :: b :: bs)).length =
          at'.length + 2 + (jnData (b :: bs)).length := by
        rw [hshape]; simp; omega
      obtain ⟨f2, rfl⟩ : ∃ f2, fuel = f2 + 2 :=
        ⟨fuel - 2, by rw [hlen3] at hfuel; omega⟩
      rw [hshape]
      simp only [wsTokensGo, hc, Bool.false_eq_true, if_false]
      rw [takeWhile_all_append _ at' ' ' _ (fun x hx => by simp [hat x hx]) (by decide)]
      rw [List.drop_left]
      simp only [wsTokensGo, show isJsSpace ' ' = true from by decide, if_true]
      rw [ih (fun t ht => h t (by simp [ht])) f2 (by rw [hlen3] at hfuel; omega)]
      rw [← had]

theorem splitWsTokens_intercalate (toks : List String)
    (h : ∀ t ∈ toks, t.data ≠ [] ∧ ∀ c ∈ t.data, isJsSpace c = false) :
    splitWsTokens (String.intercalate " " toks) = toks := by
  simp only [splitWsTokens, intercalate_space_data]
  exact wsTokensGo_jn toks h _ (le_refl _)

/-! Insertion-order deduplication. -/

theorem insertUnique_of_mem (l : List String) (x : String) (h : x ∈ l) :
    insertUnique l x = l := by
  simp [insertUnique, List.elem_iff.mpr h, List.contains, h]

theorem insertUnique_of_not_mem (l : List String) (x : String) (h : x ∉ l) :
    insertUnique l x = l ++ [x] := by
  have hc : l.contains x = false := by
    cases hc : l.contains x with
    | true => exact absurd (List.elem_iff.mp hc) h
    | false => rfl
  simp [insertUnique, hc, h]

theorem mem_insertUnique (l : List String) (x y : String) :
    y ∈ insertUnique l x ↔ y ∈ l ∨ y = x := by
  by_cases h : x ∈ l
  · rw [insertUnique_of_mem l x h]
    constructor
    · exact Or.inl
    · rintro (h1 | rfl)
      · exact h1
      · exact h
  · rw [insertUnique_of_not_mem l x h]
    simp [List.mem_append]

theorem mem_foldl_insertUnique : ∀ (l acc : List String) (y : String),
    y ∈ l.foldl insertUnique acc ↔ y ∈ acc ∨ y ∈ l := by
  intro l
  induction l with
  | nil => intro acc y; simp
  | cons x l ih =>
    intro acc y
    rw [List.foldl_cons, ih (insertUnique acc x) y, mem_insertUnique]
    simp only [List.mem_cons]
    tauto

theorem mem_dedupKeepFirst (l : List String) (y : String) :
    y ∈ dedupKeepFirst l ↔ y ∈ l := by
  rw [dedupKeepFirst, mem_foldl_insertUnique]
  simp

theorem foldl_insertUnique_nodup : ∀ (l acc : List String), acc.Nodup →
    (l.foldl insertUnique acc).Nodup := by
  intro l
  induction l with
  | nil => intro acc h; exact h
  | cons x l ih =>
    intro acc h
    rw [List.foldl_cons]
    apply ih
    by_cases hm : x ∈ acc
    · rwa [insertUnique_of_mem acc x hm]
    · rw [insertUnique_of_not_mem acc x hm]
      rw [List.nodup_append]
      exact ⟨h, List.nodup_singleton x, fun y hy hys => hm (by
        rw [List.mem_singleton] at hys
        rwa [hys] at hy)⟩

theorem dedupKeepFirst_nodup (l : List String) : (dedupKeepFirst l).Nodup :=
  foldl_insertUnique_nodup l [] List.nodup_nil

theorem foldl_insertUnique_of_nodup : ∀ (l acc : List String), (acc ++ l).Nodup →
    l.foldl insertUnique acc = acc ++ l := by
  intro l
  induction l with
  | nil => intro acc _; simp
  | cons x l ih =>
    intro acc h
    have hx : x ∉ acc := by
      rw [List.nodup_append] at h
      exact fun hm => h.2.2 hm (List.mem_cons_self _ _)
    rw [List.foldl_cons, insertUnique_of_not_mem acc x hx]
    rw [ih (acc ++ [x]) (by rwa [List.append_assoc, List.singleton_append])]
    rw [List.append_assoc, List.singleton_append]

theorem dedupKeepFirst_of_nodup (l : List String) (h : l.Nodup) :
    dedupKeepFirst l = l := by
  rw [dedupKeepFirst, foldl_insertUnique_of_nodup l [] (by simpa using h)]
  simp

theorem foldl_insertUnique_subset (l acc : List String) (h : ∀ x ∈ l, x ∈ acc) :
    l.foldl insertUnique acc = acc := by
  induction l with
  | nil => rfl
  | cons x l ih =>
    rw [List.foldl_cons, insertUnique_of_mem acc x (h x (by simp))]
    exact ih (fun y hy => h y (by simp [hy]))

theorem dedup_append_of_subset (M cls : List String) (hnd : M.Nodup)
    (hsub : ∀ x ∈ cls, x ∈ M) : dedupKeepFirst (M ++ cls) = M := by
  rw [dedupKeepFirst, List.foldl_append]
  rw [show M.foldl insertUnique [] = dedupKeepFirst M from rfl,
    dedupKeepFirst_of_nodup M hnd]
  exact foldl_insertUnique_subset cls M hsub

/-- Deduplication does not change the result of a first-success scan: dropped
duplicates repeat an earlier element with the same image. -/
theorem findSome?_foldl_insertUnique {β : Type} (f : String → Option β) :
    ∀ (l acc : List String),
    (l.foldl insertUnique acc).findSome? f = (acc.findSome? f).or (l.findSome? f) := by
  intro l
  induction l with
  | nil => intro acc; simp
  | cons x l ih =>
    intro acc
    rw [List.foldl_cons, ih (insertUnique acc x)]
    by_cases hmem : x ∈ acc
    · rw [insertUnique_of_mem acc x hmem]
      cases hacc : acc.findSome? f with
      | some b => simp [Option.or]
      | none =>
        have hfx : f x = none := List.findSome?_eq_none_iff.mp hacc x hmem
        simp [Option.or, List.findSome?_cons, hfx]
    · rw [insertUnique_of_not_mem acc x hmem, List.findSome?_append]
      cases hacc : acc.findSome? f <;> cases hfx : f x <;>
        simp [Option.or, List.findSome?_cons, hfx]

theorem findSome?_dedupKeepFirst {β : Type} (f : String → Option β) (l : List String) :
    (dedupKeepFirst l).findSome? f = l.findSome? f := by
  have := findSome?_foldl_insertUnique f l []
  simpa [dedupKeepFirst] using this

/-! Well-formedness is preserved by the transformed attribute values. -/

theorem toNat_ofNat_valid (n : Nat) (h : n.isValidChar) : (Char.ofNat n).toNat = n := by
  have hlt : n < 2 ^ 32 := by
    rcases h with h1 | ⟨h1, h2⟩
    · omega
    · omega
  simp only [Char.ofNat, dif_pos h, Char.ofNatAux, Char.toNat]
  simp [UInt32.toNat, BitVec.toNat_ofNat, Nat.mod_eq_of_lt hlt]

theorem toLower_wfValueChar {c : Char} (h : wfValueChar c = true) :
    wfValueChar (Char.toLower c) = true := by
  show wfValueChar (if c.toNat ≥ 65 ∧ c.toNat ≤ 90 then Char.ofNat (c.toNat + 32) else c) = true
  by_cases hc : c.toNat ≥ 65 ∧ c.toNat ≤ 90
  · rw [if_pos hc]
    have hvalid : (c.toNat + 32).isValidChar := Or.inl (by omega)
    have htn : (Char.ofNat (c.toNat + 32)).toNat = c.toNat + 32 := toNat_ofNat_valid _ hvalid
    have hge : 97 ≤ (Char.ofNat (c.toNat + 32)).toNat := by omega
    simp only [wfValueChar, Bool.not_eq_true', Bool.or_eq_false_iff, decide_eq_false_iff_not]
    exact ⟨⟨⟨fun he => by rw [he] at hge; revert hge; decide,
             fun he => by rw [he] at hge; revert hge; decide⟩,
             fun he => by rw [he] at hge; revert hge; decide⟩,
             fun he => by rw [he] at hge; revert hge; decide⟩
  · rw [if_neg hc]; exact h

theorem toLower_data (s : String) : s.toLower.data = s.data.map Char.toLower := by
  show (String.map Char.toLower s).data = _
  rw [String.map_eq]

theorem normalize_value_wf (lg : String) (h : ∀ c ∈ lg.data, wfValueChar c = true) :
    ∀ c ∈ (normalizeLanguageForReport lg).data, wfValueChar c = true := by
  unfold normalizeLanguageForReport
  by_cases h1 : lg.toLower = "xml"
  · rw [if_pos h1]
    intro c hc
    simp only [show ("html" : String).data = ['h', 't', 'm', 'l'] from rfl,
      List.mem_cons, List.not_mem_nil, or_false] at hc
    rcases hc with rfl | rfl | rfl | rfl <;> decide
  · rw [if_neg h1]
    by_cases h2 : lg.toLower = "plaintext"
    · rw [if_pos h2]
      intro c hc
      simp only [show ("plain" : String).data = ['p', 'l', 'a', 'i', 'n'] from rfl,
        List.mem_cons, List.not_mem_nil, or_false] at hc
      rcases hc with rfl | rfl | rfl | rfl | rfl <;> decide
    · rw [if_neg h2]
      intro c hc
      rw [toLower_data] at hc
      obtain ⟨d, hd, rfl⟩ := List.mem_map.mp hc
      exact toLower_wfValueChar (h d hd)

theorem jsTrim_chars (s : String) : ∀ c ∈ (jsTrim s).data, c ∈ s.data := by
  intro c hc
  simp only [jsTrim] at hc
  rw [List.mem_reverse] at hc
  have h1 := (List.dropWhile_sublist _).subset hc
  rw [List.mem_reverse] at h1
  exact (List.dropWhile_sublist _).subset h1

theorem getAttr_some_mem : ∀ (l : List (String × String)) (nm v : String),
    getAttr l nm = some v → ∃ p ∈ l, p.2 = v := by
  intro l
  induction l with
  | nil => intro nm v h; cases h
  | cons p t ih =>
    intro nm v h
    cases hb : (p.1 == nm) with
    | true =>
      simp only [getAttr, hb, if_true] at h
      exact ⟨p, by simp, by injection h⟩
    | false =>
      simp only [getAttr, hb, Bool.false_eq_true, if_false] at h
      obtain ⟨q, hq, hq2⟩ := ih nm v h
      exact ⟨q, by simp [hq], hq2⟩

theorem attrsLookup_value_wf (attrs : List (String × String)) (hwf : wfAttrList attrs)
    (nm v : String) (h : attrsLookup attrs nm = some v) :
    ∀ c ∈ v.data, wfValueChar c = true := by
  rw [attrsLookup_eq_getAttr attrs nm hwf.2] at h
  obtain ⟨p, hp, hpv⟩ := getAttr_some_mem attrs nm v h
  intro c hc
  exact List.all_eq_true.mp (hwf.1 p hp).2 c (by rw [hpv]; exact hc)

theorem attrsLookup_getD_wf (attrs : List (String × String)) (hwf : wfAttrList attrs)
    (nm : String) : ∀ c ∈ ((attrsLookup attrs nm).getD "").data, wfValueChar c = true := by
  cases hla : attrsLookup attrs nm with
  | none => intro c hc; cases hc
  | some v => simpa using attrsLookup_value_wf attrs hwf nm v hla

/-! Semantic forms of `addClasses` and `detectCodeLanguageFromOpenTag` over a
parsed attribute list. -/

/-- The merged class string computed by `addClasses` from a parsed attribute
list. -/
def classMergeSem (attributes : List (String × String)) (classNames : List String) : String :=
  String.intercalate " " (dedupKeepFirst
    (splitWsTokens ((attrsLookup attributes "class").getD "") ++ classNames))

theorem addClasses_eq (tagOpen : String) (classNames : List String) :
    addClasses tagOpen classNames =
      addOrUpdateAttribute tagOpen "class"
        (classMergeSem (parseAttributes tagOpen) classNames) := rfl

/-- `detectCodeLanguageFromOpenTag` as a function of the parsed attributes. -/
def detectFromAttrs (attributes : List (String × String)) : Option String :=
  let fromClass :=
    match attrsLookup attributes "class" with
    | none => none
    | some ca => if ca = "" then none else (splitWsTokens ca).findSome? langFromToken
  match (attrsLookup attributes "data-lang") <|> (attrsLookup attributes "data-language") <|>
      (attrsLookup attributes "data-code-lang") with
  | some s => if s = "" then fromClass else some (jsTrim s)
  | none => fromClass

theorem detect_eq (tagOpen : String) :
    detectCodeLanguageFromOpenTag tagOpen = detectFromAttrs (parseAttributes tagOpen) := rfl

/-- `addOrUpdateAttribute` at the attribute-list level: in-place update when
present, else prepend (matching the insertion right after the tag name). -/
def setAttrSem (attrs : List (String × String)) (nm v : String) : List (String × String) :=
  if nm ∈ attrs.map Prod.fst then updAttr attrs nm v else (nm, v) :: attrs

theorem addOrUpdate_tagStr_sem (tn : String) (htn : wfTagName tn)
    (attrs : List (String × String)) (hwf : wfAttrList attrs) (nm v : String)
    (hnm : wfAttrName nm.data = true) :
    addOrUpdateAttribute (tagStr tn attrs) nm v = tagStr tn (setAttrSem attrs nm v) :=
  addOrUpdate_tagStr tn htn attrs hwf nm v hnm

theorem setAttrSem_wf (attrs : List (String × String)) (hwf : wfAttrList attrs)
    (nm v : String) (hnm : wfAttrName nm.data = true)
    (hv : ∀ c ∈ v.data, wfValueChar c = true) : wfAttrList (setAttrSem attrs nm v) := by
  unfold setAttrSem
  by_cases hmem : nm ∈ attrs.map Prod.fst
  · rw [if_pos hmem]
    constructor
    · intro p hp
      obtain ⟨q, hq, hqe⟩ := List.mem_map.mp hp
      by_cases hq1 : q.1 = nm
      · rw [if_pos hq1] at hqe
        rw [← hqe]
        exact ⟨hnm, List.all_eq_true.mpr hv⟩
      · rw [if_neg hq1] at hqe
        rw [← hqe]
        exact hwf.1 q hq
    · rw [updAttr_map_fst]; exact hwf.2
  · rw [if_neg hmem]
    constructor
    · intro p hp
      rcases List.mem_cons.mp hp with rfl | hp'
      · exact ⟨hnm, List.all_eq_true.mpr hv⟩
      · exact hwf.1 p hp'
    · rw [List.map_cons]
      exact List.Nodup.cons hmem hwf.2

theorem jnTail_chars (toks : List String)
    (h : ∀ t ∈ toks, ∀ c ∈ t.data, wfValueChar c = true) :
    ∀ c ∈ jnTail toks, wfValueChar c = true := by
  induction toks with
  | nil => intro c hc; cases hc
  | cons b bs ih =>
    intro c hc
    rw [show jnTail (b :: bs) = ' ' :: (b.data ++ jnTail bs) from rfl] at hc
    rcases List.mem_cons.mp hc with rfl | hc'
    · decide
    · rcases List.mem_append.mp hc' with h1 | h1
      · exact h b (by simp) c h1
      · exact ih (fun t ht => h t (by simp [ht])) c h1

theorem jnData_chars (toks : List String)
    (h : ∀ t ∈ toks, ∀ c ∈ t.data, wfValueChar c = true) :
    ∀ c ∈ jnData toks, wfValueChar c = true := by
  cases toks with
  | nil => intro c hc; cases hc
  | cons a as =>
    intro c hc
    rw [show jnData (a :: as) = a.data ++ jnTail as from rfl] at hc
    rcases List.mem_append.mp hc with h1 | h1
    · exact h a (by simp) c h1
    · exact jnTail_chars as (fun t ht => h t (by simp [ht])) c h1

theorem classMergeSem_value_wf (attrs : List (String × String)) (hwf : wfAttrList attrs)
    (cls : List String) (hcls : ∀ t ∈ cls, ∀ c ∈ t.data, wfValueChar c = true) :
    ∀ c ∈ (classMergeSem attrs cls).data, wfValueChar c = true := by
  intro c hc
  rw [classMergeSem, intercalate_space_data] at hc
  apply jnData_chars _ ?_ c hc
  intro t ht
  rw [mem_dedupKeepFirst] at ht
  rcases List.mem_append.mp ht with h1 | h1
  · intro d hd
    exact attrsLookup_getD_wf attrs hwf "class" d ((splitWsTokens_tokens _ t h1).2 d hd).2
  · exact hcls t h1

theorem classMergeSem_tokens (attrs : List (String × String)) (cls : List String)
    (hcls : ∀ t ∈ cls, t.data ≠ [] ∧ ∀ c ∈ t.data, isJsSpace c = false) :
    ∀ t ∈ dedupKeepFirst (splitWsTokens ((attrsLookup attrs "class").getD "") ++ cls),
      t.data ≠ [] ∧ ∀ c ∈ t.data, isJsSpace c = false := by
  intro t ht
  rw [mem_dedupKeepFirst] at ht
  rcases List.mem_append.mp ht with h1 | h1
  · obtain ⟨h2, h3⟩ := splitWsTokens_tokens _ t h1
    exact ⟨h2, fun c hc => (h3 c hc).1⟩
  · exact hcls t h1

theorem splitWs_classMergeSem (attrs : List (String × String)) (cls : List String)
    (hcls : ∀ t ∈ cls, t.data ≠ [] ∧ ∀ c ∈ t.data, isJsSpace c = false) :
    splitWsTokens (classMergeSem attrs cls) =
      dedupKeepFirst (splitWsTokens ((attrsLookup attrs "class").getD "") ++ cls) := by
  rw [classMergeSem]
  exact splitWsTokens_intercalate _ (classMergeSem_tokens attrs cls hcls)

/-- The class merge is stable: merging the same class names into an attribute
list whose class attribute already holds the merged string returns the merged
string unchanged (no token is duplicated). -/
theorem classMergeSem_stable (attrs : List (String × String)) (cls : List String)
    (hcls : ∀ t ∈ cls, t.data ≠ [] ∧ ∀ c ∈ t.data, isJsSpace c = false)
    (A : List (String × String)) (hndA : (A.map Prod.fst).Nodup)
    (hclassA : getAttr A "class" = some (classMergeSem attrs cls)) :
    classMergeSem A cls = classMergeSem attrs cls := by
  have hm : attrsLookup A "class" = some (classMergeSem attrs cls) := by
    rw [attrsLookup_eq_getAttr A _ hndA]; exact hclassA
  show String.intercalate " "
    (dedupKeepFirst (splitWsTokens ((attrsLookup A "class").getD "") ++ cls)) = _
  rw [hm]
  simp only [Option.getD_some]
  rw [splitWs_classMergeSem attrs cls hcls]
  rw [dedup_append_of_subset _ cls (dedupKeepFirst_nodup _)
    (fun x hx => (mem_dedupKeepFirst _ x).mpr (List.mem_append.mpr (Or.inr hx)))]
  rfl

theorem getAttr_isSome_of_mem : ∀ (l : List (String × String)) (nm : String),
    nm ∈ l.map Prod.fst → ∃ w, getAttr l nm = some w := by
  intro l
  induction l with
  | nil => intro nm h; cases h
  | cons p t ih =>
    intro nm h
    cases hb : (p.1 == nm) with
    | true => exact ⟨p.2, by simp [getAttr, hb]⟩
    | false =>
      have hne : p.1 ≠ nm := by simpa using hb
      simp only [List.map_cons, List.mem_cons] at h
      rcases h with h1 | h1
      · exact absurd h1.symm hne
      · obtain ⟨w, hw⟩ := ih nm h1
        exact ⟨w, by simp [getAttr, hb, hw]⟩

theorem mem_of_getAttr_some : ∀ (l : List (String × String)) (nm v : String),
    getAttr l nm = some v → nm ∈ l.map Prod.fst := by
  intro l
  induction l with
  | nil => intro nm v h; cases h
  | cons p t ih =>
    intro nm v h
    cases hb : (p.1 == nm) with
    | true =>
      have : p.1 = nm := eq_of_beq hb
      simp [this]
    | false =>
      simp only [getAttr, hb, Bool.false_eq_true, if_false] at h
      simp only [List.map_cons, List.mem_cons]
      exact Or.inr (ih nm v h)

theorem getAttr_setAttrSem_self (l : List (String × String)) (nm v : String) :
    getAttr (setAttrSem l nm v) nm = some v := by
  unfold setAttrSem
  by_cases hmem : nm ∈ l.map Prod.fst
  · rw [if_pos hmem, getAttr_updAttr_self]
    obtain ⟨w, hw⟩ := getAttr_isSome_of_mem l nm hmem
    rw [hw]
    rfl
  · rw [if_neg hmem]
    simp [getAttr]

theorem getAttr_setAttrSem_other (l : List (String × String)) (nm nm' v : String)
    (h : nm' ≠ nm) : getAttr (setAttrSem l nm v) nm' = getAttr l nm' := by
  unfold setAttrSem
  by_cases hmem : nm ∈ l.map Prod.fst
  · rw [if_pos hmem]
    exact getAttr_updAttr_other l nm nm' v h
  · rw [if_neg hmem]
    have hb : (nm == nm') = false := by
      simp only [beq_eq_false_iff_ne, ne_eq]
      exact fun he => h he.symm
    simp [getAttr, hb]

theorem setAttrSem_nodup (l : List (String × String)) (nm v : String)
    (h : (l.map Prod.fst).Nodup) : ((setAttrSem l nm v).map Prod.fst).Nodup := by
  unfold setAttrSem
  by_cases hmem : nm ∈ l.map Prod.fst
  · rw [if_pos hmem, updAttr_map_fst]; exact h
  · rw [if_neg hmem, List.map_cons]
    exact List.Nodup.cons hmem h

theorem setAttrSem_map_fst_of_mem (l : List (String × String)) (nm v : String)
    (h : nm ∈ l.map Prod.fst) : (setAttrSem l nm v).map Prod.fst = l.map Prod.fst := by
  rw [setAttrSem, if_pos h, updAttr_map_fst]

/-- The class-token component of `detectCodeLanguageFromOpenTag`. -/
def fromClassOf (attributes : List (String × String)) : Option String :=
  match attrsLookup attributes "class" with
  | none => none
  | some ca => if ca = "" then none else (splitWsTokens ca).findSome? langFromToken

theorem detectFromAttrs_eq (attributes : List (String × String)) :
    detectFromAttrs attributes =
      match (attrsLookup attributes "data-lang") <|> (attrsLookup attributes "data-language") <|>
          (attrsLookup attributes "data-code-lang") with
      | some s => if s = "" then fromClassOf attributes else some (jsTrim s)
      | none => fromClassOf attributes := rfl

/-- If no language is detected from an attribute list, none is detected after
the class merge either: the data attributes are unchanged and the merged class
tokens add only tokens that do not match the language pattern. -/
theorem detect_none_stable (attrs : List (String × String)) (hwf : wfAttrList attrs)
    (cls : List String) (hclsL : ∀ t ∈ cls, langFromToken t = none)
    (hclsT : ∀ t ∈ cls, t.data ≠ [] ∧ ∀ c ∈ t.data, isJsSpace c = false)
    (hdet : detectFromAttrs attrs = none)
    (A1 : List (String × String)) (hnd1 : (A1.map Prod.fst).Nodup)
    (hclass : getAttr A1 "class" = some (classMergeSem attrs cls))
    (hdl : getAttr A1 "data-lang" = getAttr attrs "data-lang")
    (hdlg : getAttr A1 "data-language" = getAttr attrs "data-language")
    (hdcl : getAttr A1 "data-code-lang" = getAttr attrs "data-code-lang") :
    detectFromAttrs A1 = none := by
  have hchain : ((attrsLookup A1 "data-lang") <|> (attrsLookup A1 "data-language") <|>
      (attrsLookup A1 "data-code-lang")) =
      ((attrsLookup attrs "data-lang") <|> (attrsLookup attrs "data-language") <|>
      (attrsLookup attrs "data-code-lang")) := by
    rw [attrsLookup_eq_getAttr _ _ hnd1, attrsLookup_eq_getAttr _ _ hnd1,
      attrsLookup_eq_getAttr _ _ hnd1, attrsLookup_eq_getAttr _ _ hwf.2,
      attrsLookup_eq_getAttr _ _ hwf.2, attrsLookup_eq_getAttr _ _ hwf.2,
      hdl, hdlg, hdcl]
  have hfcA1 : fromClassOf attrs = none → fromClassOf A1 = none := by
    intro hfrom
    unfold fromClassOf
    rw [attrsLookup_eq_getAttr _ _ hnd1, hclass]
    show (if classMergeSem attrs cls = "" then none
          else (splitWsTokens (classMergeSem attrs cls)).findSome? langFromToken) = none
    by_cases hempty : classMergeSem attrs cls = ""
    · rw [if_pos hempty]
    · rw [if_neg hempty]
      rw [splitWs_classMergeSem attrs cls hclsT, findSome?_dedupKeepFirst,
        List.findSome?_append]
      have htok0 : (splitWsTokens ((attrsLookup attrs "class").getD "")).findSome?
          langFromToken = none := by
        unfold fromClassOf at hfrom
        cases hca : attrsLookup attrs "class" with
        | none => rfl
        | some ca =>
          rw [hca] at hfrom
          have hfrom2 : (if ca = "" then none
              else (splitWsTokens ca).findSome? langFromToken) = none := hfrom
          show (splitWsTokens ca).findSome? langFromToken = none
          by_cases hcae : ca = ""
          · rw [hcae]; rfl
          · rwa [if_neg hcae] at hfrom2
      rw [htok0, List.findSome?_eq_none_iff.mpr hclsL]
      rfl
  rw [detectFromAttrs_eq] at hdet ⊢
  rw [hchain]
  cases hch : ((attrsLookup attrs "data-lang") <|> (attrsLookup attrs "data-language") <|>
      (attrsLookup attrs "data-code-lang")) with
  | none =>
    rw [hch] at hdet
    exact hfcA1 hdet
  | some s =>
    rw [hch] at hdet
    have hdet2 : (if s = "" then fromClassOf attrs else some (jsTrim s)) = none := hdet
    show (if s = "" then fromClassOf A1 else some (jsTrim s)) = none
    by_cases hs : s = ""
    · rw [if_pos hs]
      rw [if_pos hs] at hdet2
      exact hfcA1 hdet2
    · rw [if_neg hs] at hdet2
      cases hdet2

theorem fromClassOf_value_wf (attrs : List (String × String)) (hwf : wfAttrList attrs)
    (lg : String) (h : fromClassOf attrs = some lg) :
    ∀ c ∈ lg.data, wfValueChar c = true := by
  unfold fromClassOf at h
  cases hca : attrsLookup attrs "class" with
  | none => rw [hca] at h; cases h
  | some ca =>
    rw [hca] at h
    have h3 : (if ca = "" then none
        else (splitWsTokens ca).findSome? langFromToken) = some lg := h
    by_cases hcae : ca = ""
    · rw [if_pos hcae] at h3; cases h3
    · rw [if_neg hcae] at h3
      obtain ⟨tok, htok, hlg⟩ := List.exists_of_findSome?_eq_some h3
      have hsub : ∀ c ∈ lg.data, c ∈ tok.data := by
        simp only [langFromToken] at hlg
        split at hlg
        · injection hlg with hlg2
          intro c hc
          rw [← hlg2] at hc
          exact (List.drop_sublist _ _).subset hc
        · split at hlg
          · injection hlg with hlg2
            intro c hc
            rw [← hlg2] at hc
            exact (List.drop_sublist _ _).subset hc
          · cases hlg
      intro c hc
      have hcin : c ∈ ca.data := ((splitWsTokens_tokens ca tok htok).2 c (hsub c hc)).2
      exact attrsLookup_value_wf attrs hwf "class" ca hca c hcin

theorem detect_value_wf (attrs : List (String × String)) (hwf : wfAttrList attrs)
    (lg : String) (h : detectFromAttrs attrs = some lg) :
    ∀ c ∈ lg.data, wfValueChar c = true := by
  rw [detectFromAttrs_eq] at h
  cases hch : ((attrsLookup attrs "data-lang") <|> (attrsLookup attrs "data-language") <|>
      (attrsLookup attrs "data-code-lang")) with
  | none =>
    rw [hch] at h
    exact fromClassOf_value_wf attrs hwf lg h
  | some s =>
    rw [hch] at h
    have h3 : (if s = "" then fromClassOf attrs else some (jsTrim s)) = some lg := h
    by_cases hs : s = ""
    · rw [if_pos hs] at h3
      exact fromClassOf_value_wf attrs hwf lg h3
    · rw [if_neg hs] at h3
      injection h3 with h2
      have hsome : attrsLookup attrs "data-lang" = some s ∨
          attrsLookup attrs "data-language" = some s ∨
          attrsLookup attrs "data-code-lang" = some s := by
        cases h1 : attrsLookup attrs "data-lang" with
        | some a =>
          rw [h1, Option.some_orElse] at hch
          exact Or.inl hch
        | none =>
          rw [h1, Option.none_orElse] at hch
          cases h2a : attrsLookup attrs "data-language" with
          | some a =>
            rw [h2a, Option.some_orElse] at hch
            exact Or.inr (Or.inl hch)
          | none =>
            rw [h2a, Option.none_orElse] at hch
            exact Or.inr (Or.inr hch)
      rcases hsome with h1 | h1 | h1 <;>
        exact fun c hc =>
          attrsLookup_value_wf attrs hwf _ _ h1 c (jsTrim_chars s c (by rw [h2]; exact hc))

/-- `enhanceOneInlineCode` at the attribute-list level. -/
def inlineSem (opts : ReportRenderOptions) (attrs : List (String × String)) :
    List (String × String) :=
  if (splitWsTokens ((attrsLookup attrs "class").getD "")).contains
      opts.codeBlockCodeClassName then attrs
  else
    let a1 := setAttrSem attrs "class"
      (classMergeSem attrs (splitWsTokens opts.inlineCodeClassName))
    match detectFromAttrs attrs with
    | none => a1
    | some language =>
      setAttrSem a1 opts.dataCodeLangAttribute (normalizeLanguageForReport language)

/-- The inline-code enhancement of a well-formed serialized code open tag is
the serialization of the semantically transformed attribute list. -/
theorem enhanceOneInline_tagStr (tn : String) (htn : wfTagName tn)
    (attrs : List (String × String)) (hwf : wfAttrList attrs) :
    enhanceOneInlineCode defaultReportOptions (tagStr tn attrs) =
      tagStr tn (inlineSem defaultReportOptions attrs) := by
  unfold enhanceOneInlineCode inlineSem
  rw [parseAttributes_tagStr tn attrs htn hwf]
  by_cases hskip : (splitWsTokens ((attrsLookup attrs "class").getD "")).contains
      defaultReportOptions.codeBlockCodeClassName = true
  · rw [if_pos hskip, if_pos hskip]
  · rw [if_neg hskip, if_neg hskip]
    have hmwf : ∀ c ∈ (classMergeSem attrs
        (splitWsTokens defaultReportOptions.inlineCodeClassName)).data,
        wfValueChar c = true :=
      classMergeSem_value_wf attrs hwf _ (by decide)
    have ha1wf : wfAttrList (setAttrSem attrs "class"
        (classMergeSem attrs (splitWsTokens defaultReportOptions.inlineCodeClassName))) :=
      setAttrSem_wf attrs hwf _ _ (by decide) hmwf
    rw [addClasses_eq, parseAttributes_tagStr tn attrs htn hwf]
    rw [addOrUpdate_tagStr_sem tn htn attrs hwf "class" _ (by decide)]
    rw [detect_eq, parseAttributes_tagStr tn attrs htn hwf]
    cases hdet : detectFromAttrs attrs with
    | none => rfl
    | some language =>
      show addOrUpdateAttribute (tagStr tn (setAttrSem attrs "class"
          (classMergeSem attrs (splitWsTokens defaultReportOptions.inlineCodeClassName))))
          defaultReportOptions.dataCodeLangAttribute (normalizeLanguageForReport language) =
        tagStr tn (setAttrSem (setAttrSem attrs "class"
          (classMergeSem attrs (splitWsTokens defaultReportOptions.inlineCodeClassName)))
          defaultReportOptions.dataCodeLangAttribute (normalizeLanguageForReport language))
      exact addOrUpdate_tagStr_sem tn htn _ ha1wf
        defaultReportOptions.dataCodeLangAttribute _ (by decide)

theorem inlineSem_wf (attrs : List (String × String)) (hwf : wfAttrList attrs) :
    wfAttrList (inlineSem defaultReportOptions attrs) := by
  unfold inlineSem
  by_cases hskip : (splitWsTokens ((attrsLookup attrs "class").getD "")).contains
      defaultReportOptions.codeBlockCodeClassName = true
  · rw [if_pos hskip]; exact hwf
  · rw [if_neg hskip]
    have hmwf : ∀ c ∈ (classMergeSem attrs
        (splitWsTokens defaultReportOptions.inlineCodeClassName)).data,
        wfValueChar c = true :=
      classMergeSem_value_wf attrs hwf _ (by decide)
    have ha1wf : wfAttrList (setAttrSem attrs "class"
        (classMergeSem attrs (splitWsTokens defaultReportOptions.inlineCodeClassName))) :=
      setAttrSem_wf attrs hwf _ _ (by decide) hmwf
    cases hdet : detectFromAttrs attrs with
    | none => exact ha1wf
    | some language =>
      exact setAttrSem_wf _ ha1wf _ _ (by decide)
        (normalize_value_wf language (detect_value_wf attrs hwf language hdet))

/-- One inline-enhancement step applied to an attribute list whose class is
already the merged class string neither changes the attribute-name list nor
the class value. -/
theorem inlineSem_second (A1 : List (String × String)) (hnd : (A1.map Prod.fst).Nodup)
    (m : String) (hclass : getAttr A1 "class" = some m)
    (hskip2 : (splitWsTokens m).contains defaultReportOptions.codeBlockCodeClassName = false)
    (hm2 : classMergeSem A1 (splitWsTokens defaultReportOptions.inlineCodeClassName) = m)
    (hdetOk : detectFromAttrs A1 = none ∨ "data-code-lang" ∈ A1.map Prod.fst) :
    (inlineSem defaultReportOptions A1).map Prod.fst = A1.map Prod.fst ∧
    getAttr (inlineSem defaultReportOptions A1) "class" = getAttr A1 "class" := by
  have hclassmem : "class" ∈ A1.map Prod.fst := mem_of_getAttr_some A1 _ m hclass
  have hlk : attrsLookup A1 "class" = some m := by
    rw [attrsLookup_eq_getAttr _ _ hnd]; exact hclass
  unfold inlineSem
  simp only [hlk, Option.getD_some]
  rw [if_neg (by intro hcon; exact absurd (hskip2.symm.trans hcon) (by decide))]
  rw [hm2]
  cases hdet2 : detectFromAttrs A1 with
  | none =>
    constructor
    · exact setAttrSem_map_fst_of_mem _ _ _ hclassmem
    · rw [getAttr_setAttrSem_self, hclass]
  | some lg2 =>
    have hdclmem : "data-code-lang" ∈ A1.map Prod.fst := by
      rcases hdetOk with h1 | h1
      · rw [h1] at hdet2; cases hdet2
      · exact h1
    constructor
    · rw [setAttrSem_map_fst_of_mem _ _ _ (by
        rw [setAttrSem_map_fst_of_mem _ _ _ hclassmem]
        exact hdclmem)]
      exact setAttrSem_map_fst_of_mem _ _ _ hclassmem
    · rw [show defaultReportOptions.dataCodeLangAttribute = "data-code-lang" from rfl]
      rw [getAttr_setAttrSem_other _ _ _ _ (by decide)]
      rw [getAttr_setAttrSem_self, hclass]

/-- Re-applying the inline enhancement changes neither the attribute-name
list nor the class attribute value. -/
theorem inlineSem_stable (attrs : List (String × String)) (hwf : wfAttrList attrs) :
    (inlineSem defaultReportOptions (inlineSem defaultReportOptions attrs)).map Prod.fst =
      (inlineSem defaultReportOptions attrs).map Prod.fst ∧
    getAttr (inlineSem defaultReportOptions (inlineSem defaultReportOptions attrs)) "class" =
      getAttr (inlineSem defaultReportOptions attrs) "class" := by
  by_cases hskip : (splitWsTokens ((attrsLookup attrs "class").getD "")).contains
      defaultReportOptions.codeBlockCodeClassName = true
  · have h1 : inlineSem defaultReportOptions attrs = attrs := by
      unfold inlineSem; rw [if_pos hskip]
    rw [h1, h1]
    exact ⟨rfl, rfl⟩
  · have hciT : ∀ t ∈ splitWsTokens defaultReportOptions.inlineCodeClassName,
        t.data ≠ [] ∧ ∀ c ∈ t.data, isJsSpace c = false := by decide
    have hciL : ∀ t ∈ splitWsTokens defaultReportOptions.inlineCodeClassName,
        langFromToken t = none := by decide
    have hnda1 : ((setAttrSem attrs "class" (classMergeSem attrs
        (splitWsTokens defaultReportOptions.inlineCodeClassName))).map Prod.fst).Nodup :=
      setAttrSem_nodup _ _ _ hwf.2
    have hclassa1 : getAttr (setAttrSem attrs "class" (classMergeSem attrs
        (splitWsTokens defaultReportOptions.inlineCodeClassName))) "class" =
        some (classMergeSem attrs (splitWsTokens defaultReportOptions.inlineCodeClassName)) :=
      getAttr_setAttrSem_self _ _ _
    have hskip2 : (splitWsTokens (classMergeSem attrs
        (splitWsTokens defaultReportOptions.inlineCodeClassName))).contains
        defaultReportOptions.codeBlockCodeClassName = false := by
      rw [splitWs_classMergeSem attrs _ hciT]
      cases hcon : (dedupKeepFirst (splitWsTokens ((attrsLookup attrs "class").getD "") ++
          splitWsTokens defaultReportOptions.inlineCodeClassName)).contains
          defaultReportOptions.codeBlockCodeClassName with
      | false => rfl
      | true =>
        exfalso
        have hmem := List.elem_iff.mp hcon
        rw [mem_dedupKeepFirst] at hmem
        rcases List.mem_append.mp hmem with h1 | h1
        · exact hskip (List.elem_iff.mpr h1)
        · revert h1; decide
    cases hdet : detectFromAttrs attrs with
    | none =>
      have h1 : inlineSem defaultReportOptions attrs = setAttrSem attrs "class"
          (classMergeSem attrs (splitWsTokens defaultReportOptions.inlineCodeClassName)) := by
        unfold inlineSem
        rw [if_neg hskip, hdet]
      rw [h1]
      exact inlineSem_second _ hnda1 _ hclassa1 hskip2
        (classMergeSem_stable attrs _ hciT _ hnda1 hclassa1)
        (Or.inl (detect_none_stable attrs hwf _ hciL hciT hdet _ hnda1 hclassa1
          (getAttr_setAttrSem_other _ _ _ _ (by decide))
          (getAttr_setAttrSem_other _ _ _ _ (by decide))
          (getAttr_setAttrSem_other _ _ _ _ (by decide))))
    | some language =>
      have h1 : inlineSem defaultReportOptions attrs =
          setAttrSem (setAttrSem attrs "class" (classMergeSem attrs
            (splitWsTokens defaultReportOptions.inlineCodeClassName)))
            defaultReportOptions.dataCodeLangAttribute
            (normalizeLanguageForReport language) := by
        unfold inlineSem
        rw [if_neg hskip, hdet]
      have hndA1 : ((setAttrSem (setAttrSem attrs "class" (classMergeSem attrs
          (splitWsTokens defaultReportOptions.inlineCodeClassName)))
          defaultReportOptions.dataCodeLangAttribute
          (normalizeLanguageForReport language)).map Prod.fst).Nodup :=
        setAttrSem_nodup _ _ _ hnda1
      have hclassA1 : getAttr (setAttrSem (setAttrSem attrs "class" (classMergeSem attrs
          (splitWsTokens defaultReportOptions.inlineCodeClassName)))
          defaultReportOptions.dataCodeLangAttribute
          (normalizeLanguageForReport language)) "class" =
          some (classMergeSem attrs
            (splitWsTokens defaultReportOptions.inlineCodeClassName)) := by
        rw [show defaultReportOptions.dataCodeLangAttribute = "data-code-lang" from rfl,
          getAttr_setAttrSem_other _ _ _ _ (by decide)]
        exact hclassa1
      rw [h1]
      exact inlineSem_second _ hndA1 _ hclassA1 hskip2
        (classMergeSem_stable attrs _ hciT _ hndA1 hclassA1)
        (Or.inr (mem_of_getAttr_some _ _ _ (getAttr_setAttrSem_self _ _ _)))

/-- The per-tag code-block transform at the attribute-list level. -/
def blockSem (attrs : List (String × String)) (cls : List String) (lang : String) :
    List (String × String) :=
  setAttrSem (setAttrSem attrs "class" (classMergeSem attrs cls)) "data-code-lang" lang

/-- The code-block per-tag transform on a well-formed serialized open tag is
the serialization of `blockSem`. -/
theorem blockTag_eq (tn : String) (htn : wfTagName tn) (attrs : List (String × String))
    (hwf : wfAttrList attrs) (cls : List String)
    (hclsV : ∀ t ∈ cls, ∀ c ∈ t.data, wfValueChar c = true) (lang : String) :
    addOrUpdateAttribute (addClasses (tagStr tn attrs) cls)
        defaultReportOptions.dataCodeLangAttribute lang =
      tagStr tn (blockSem attrs cls lang) := by
  rw [addClasses_eq, parseAttributes_tagStr tn attrs htn hwf]
  rw [addOrUpdate_tagStr_sem tn htn attrs hwf "class" _ (by decide)]
  have ha1wf : wfAttrList (setAttrSem attrs "class" (classMergeSem attrs cls)) :=
    setAttrSem_wf attrs hwf _ _ (by decide) (classMergeSem_value_wf attrs hwf cls hclsV)
  rw [show defaultReportOptions.dataCodeLangAttribute = "data-code-lang" from rfl]
  exact addOrUpdate_tagStr_sem tn htn _ ha1wf "data-code-lang" lang (by decide)

theorem blockSem_wf (attrs : List (String × String)) (hwf : wfAttrList attrs)
    (cls : List String) (hclsV : ∀ t ∈ cls, ∀ c ∈ t.data, wfValueChar c = true)
    (lang : String) (hlang : ∀ c ∈ lang.data, wfValueChar c = true) :
    wfAttrList (blockSem attrs cls lang) :=
  setAttrSem_wf _ (setAttrSem_wf attrs hwf _ _ (by decide)
    (classMergeSem_value_wf attrs hwf cls hclsV)) _ _ (by decide) hlang

theorem blockSem_class (attrs : List (String × String)) (cls : List String) (lang : String) :
    getAttr (blockSem attrs cls lang) "class" = some (classMergeSem attrs cls) := by
  unfold blockSem
  rw [getAttr_setAttrSem_other _ _ _ _ (by decide)]
  exact getAttr_setAttrSem_self _ _ _

theorem blockSem_nodup (attrs : List (String × String)) (cls : List String) (lang : String)
    (h : (attrs.map Prod.fst).Nodup) : ((blockSem attrs cls lang).map Prod.fst).Nodup :=
  setAttrSem_nodup _ _ _ (setAttrSem_nodup _ _ _ h)

theorem mergedTokens_nodup (attrs : List (String × String)) (cls : List String)
    (hclsT : ∀ t ∈ cls, t.data ≠ [] ∧ ∀ c ∈ t.data, isJsSpace c = false) :
    (splitWsTokens (classMergeSem attrs cls)).Nodup := by
  rw [splitWs_classMergeSem attrs cls hclsT]
  exact dedupKeepFirst_nodup _

/-- Re-applying the code-block per-tag transform (with any language value on
the second run) changes neither the attribute-name list nor the class value. -/
theorem blockSem_stable (attrs : List (String × String)) (hwf : wfAttrList attrs)
    (cls : List String)
    (hclsT : ∀ t ∈ cls, t.data ≠ [] ∧ ∀ c ∈ t.data, isJsSpace c = false)
    (lang₁ lang₂ : String) :
    (blockSem (blockSem attrs cls lang₁) cls lang₂).map Prod.fst =
      (blockSem attrs cls lang₁).map Prod.fst ∧
    getAttr (blockSem (blockSem attrs cls lang₁) cls lang₂) "class" =
      getAttr (blockSem attrs cls lang₁) "class" := by
  have hnd1 := blockSem_nodup attrs cls lang₁ hwf.2
  have hclass1 := blockSem_class attrs cls lang₁
  have hm2 : classMergeSem (blockSem attrs cls lang₁) cls = classMergeSem attrs cls :=
    classMergeSem_stable attrs cls hclsT _ hnd1 hclass1
  have hclassmem : "class" ∈ (blockSem attrs cls lang₁).map Prod.fst :=
    mem_of_getAttr_some _ _ _ hclass1
  have hdclmem : "data-code-lang" ∈ (blockSem attrs cls lang₁).map Prod.fst :=
    mem_of_getAttr_some _ _ _ (getAttr_setAttrSem_self _ _ _)
  constructor
  · show (setAttrSem (setAttrSem (blockSem attrs cls lang₁) "class"
      (classMergeSem (blockSem attrs cls lang₁) cls)) "data-code-lang" lang₂).map Prod.fst = _
    rw [hm2]
    rw [setAttrSem_map_fst_of_mem _ _ _ (by
      rw [setAttrSem_map_fst_of_mem _ _ _ hclassmem]
      exact hdclmem)]
    exact setAttrSem_map_fst_of_mem _ _ _ hclassmem
  · show getAttr (setAttrSem (setAttrSem (blockSem attrs cls lang₁) "class"
      (classMergeSem (blockSem attrs cls lang₁) cls)) "data-code-lang" lang₂) "class" = _
    rw [hm2, getAttr_setAttrSem_other _ _ _ _ (by decide), getAttr_setAttrSem_self, hclass1]

theorem inlineSem_class_nonskip (attrs : List (String × String))
    (hns : (splitWsTokens ((attrsLookup attrs "class").getD "")).contains
      defaultReportOptions.codeBlockCodeClassName = false) :
    getAttr (inlineSem defaultReportOptions attrs) "class" =
      some (classMergeSem attrs (splitWsTokens defaultReportOptions.inlineCodeClassName)) := by
  unfold inlineSem
  rw [if_neg (by intro hcon; exact absurd (hns.symm.trans hcon) (by decide))]
  cases hdet : detectFromAttrs attrs with
  | none => exact getAttr_setAttrSem_self _ _ _
  | some language =>
    show getAttr (setAttrSem (setAttrSem attrs "class" (classMergeSem attrs
        (splitWsTokens defaultReportOptions.inlineCodeClassName)))
        defaultReportOptions.dataCodeLangAttribute
        (normalizeLanguageForReport language)) "class" = _
    rw [show defaultReportOptions.dataCodeLangAttribute = "data-code-lang" from rfl,
      getAttr_setAttrSem_other _ _ _ _ (by decide)]
    exact getAttr_setAttrSem_self _ _ _

/-- A concrete HTML fragment for the end-to-end double-run check. -/
def c9frag : String :=
  "<pre>text</pre><p><code>inline</code> and <code class=\"x y x\">more</code></p>"

/-- The composed report enhancement pipeline (src/index.ts:612-614). -/
def c9pipe (s : String) : String :=
  enhanceInlineCode (enhanceCodeBlocks (normalizePreBlocks s) defaultReportOptions none)
    defaultReportOptions

set_option maxRecDepth 1000000

/-- C9: the report enhancement passes are idempotent with respect to CSS class
tokens and the `data-code-lang` attribute.  (i) The inline-code pass leaves
every code open tag whose class tokens already carry the block-code class
(added by the code-block pass) unchanged.  (ii) On every well-formed
serialized code open tag, re-running the inline pass on its own output changes
neither the attribute-name list (so the `data-code-lang` attribute is never
added twice) nor the class attribute value (so no class token is duplicated);
after one pass the attribute names are pairwise distinct, and when the tag was
not skipped its class tokens are pairwise distinct.  (iii) Likewise for the
per-tag transform applied by the code-block pass to the pre and code open
tags, for any class-name list and any detected language values.  (iv) On a
concrete fragment, re-running the composed normalize/code-block/inline-code
pipeline on its own output returns it unchanged. -/
theorem C9_enhancement_idempotence :
    (∀ codeOpen : String,
      (splitWsTokens ((attrsLookup (parseAttributes codeOpen) "class").getD "")).contains
          defaultReportOptions.codeBlockCodeClassName = true →
      enhanceOneInlineCode defaultReportOptions codeOpen = codeOpen) ∧
    (∀ attrs : List (String × String), wfAttrList attrs →
      (parseAttributes (enhanceOneInlineCode defaultReportOptions (enhanceOneInlineCode
          defaultReportOptions (tagStr "code" attrs)))).map Prod.fst =
        (parseAttributes (enhanceOneInlineCode defaultReportOptions
          (tagStr "code" attrs))).map Prod.fst ∧
      attrsLookup (parseAttributes (enhanceOneInlineCode defaultReportOptions
          (enhanceOneInlineCode defaultReportOptions (tagStr "code" attrs)))) "class" =
        attrsLookup (parseAttributes (enhanceOneInlineCode defaultReportOptions
          (tagStr "code" attrs))) "class" ∧
      ((parseAttributes (enhanceOneInlineCode defaultReportOptions
          (tagStr "code" attrs))).map Prod.fst).Nodup ∧
      ((splitWsTokens ((attrsLookup attrs "class").getD "")).contains
          defaultReportOptions.codeBlockCodeClassName = false →
        (splitWsTokens ((attrsLookup (parseAttributes (enhanceOneInlineCode
          defaultReportOptions (tagStr "code" attrs))) "class").getD "")).Nodup)) ∧
    (∀ (tn : String) (attrs : List (String × String)) (cls : List String)
        (lang₁ lang₂ : String), wfTagName tn → wfAttrList attrs →
      (∀ t ∈ cls, t.data ≠ [] ∧ ∀ c ∈ t.data, isJsSpace c = false ∧ wfValueChar c = true) →
      (∀ c ∈ lang₁.data, wfValueChar c = true) →
      (∀ c ∈ lang₂.data, wfValueChar c = true) →
      (parseAttributes (addOrUpdateAttribute (addClasses (addOrUpdateAttribute
          (addClasses (tagStr tn attrs) cls) defaultReportOptions.dataCodeLangAttribute lang₁)
          cls) defaultReportOptions.dataCodeLangAttribute lang₂)).map Prod.fst =
        (parseAttributes (addOrUpdateAttribute (addClasses (tagStr tn attrs) cls)
          defaultReportOptions.dataCodeLangAttribute lang₁)).map Prod.fst ∧
      attrsLookup (parseAttributes (addOrUpdateAttribute (addClasses (addOrUpdateAttribute
          (addClasses (tagStr tn attrs) cls) defaultReportOptions.dataCodeLangAttribute lang₁)
          cls) defaultReportOptions.dataCodeLangAttribute lang₂)) "class" =
        attrsLookup (parseAttributes (addOrUpdateAttribute (addClasses (tagStr tn attrs) cls)
          defaultReportOptions.dataCodeLangAttribute lang₁)) "class" ∧
      (splitWsTokens ((attrsLookup (parseAttributes (addOrUpdateAttribute
          (addClasses (tagStr tn attrs) cls) defaultReportOptions.dataCodeLangAttribute
          lang₁)) "class").getD "")).Nodup) ∧
    c9pipe (c9pipe c9frag) = c9pipe c9frag := by
  refine ⟨?_, ?_, ?_, ?_⟩
  · intro codeOpen hskip
    unfold enhanceOneInlineCode
    rw [if_pos hskip]
  · intro attrs hwf
    have hc : wfTagName "code" := ⟨by decide, by decide⟩
    have hS1wf : wfAttrList (inlineSem defaultReportOptions attrs) := inlineSem_wf attrs hwf
    have hS2wf : wfAttrList (inlineSem defaultReportOptions
        (inlineSem defaultReportOptions attrs)) := inlineSem_wf _ hS1wf
    have h1 : enhanceOneInlineCode defaultReportOptions (tagStr "code" attrs) =
        tagStr "code" (inlineSem defaultReportOptions attrs) :=
      enhanceOneInline_tagStr "code" hc attrs hwf
    have h2 : enhanceOneInlineCode defaultReportOptions (enhanceOneInlineCode
        defaultReportOptions (tagStr "code" attrs)) =
        tagStr "code" (inlineSem defaultReportOptions
          (inlineSem defaultReportOptions attrs)) := by
      rw [h1]
      exact enhanceOneInline_tagStr "code" hc _ hS1wf
    have hp1 : parseAttributes (enhanceOneInlineCode defaultReportOptions
        (tagStr "code" attrs)) = inlineSem defaultReportOptions attrs := by
      rw [h1]
      exact parseAttributes_tagStr _ _ hc hS1wf
    have hp2 : parseAttributes (enhanceOneInlineCode defaultReportOptions
        (enhanceOneInlineCode defaultReportOptions (tagStr "code" attrs))) =
        inlineSem defaultReportOptions (inlineSem defaultReportOptions attrs) := by
      rw [h2]
      exact parseAttributes_tagStr _ _ hc hS2wf
    obtain ⟨hst1, hst2⟩ := inlineSem_stable attrs hwf
    refine ⟨?_, ?_, ?_, ?_⟩
    · rw [hp1, hp2]; exact hst1
    · rw [hp1, hp2, attrsLookup_eq_getAttr _ _ hS2wf.2,
        attrsLookup_eq_getAttr _ _ hS1wf.2]
      exact hst2
    · rw [hp1]; exact hS1wf.2
    · intro hns
      rw [hp1, attrsLookup_eq_getAttr _ _ hS1wf.2, inlineSem_class_nonskip attrs hns]
      simp only [Option.getD_some]
      exact mergedTokens_nodup attrs _ (by decide)
  · intro tn attrs cls lang₁ lang₂ htn hwf hcls hl1 hl2
    have hclsT : ∀ t ∈ cls, t.data ≠ [] ∧ ∀ c ∈ t.data, isJsSpace c = false :=
      fun t ht => ⟨(hcls t ht).1, fun c hc => ((hcls t ht).2 c hc).1⟩
    have hclsV : ∀ t ∈ cls, ∀ c ∈ t.data, wfValueChar c = true :=
      fun t ht c hc => ((hcls t ht).2 c hc).2
    have hB1wf := blockSem_wf attrs hwf cls hclsV lang₁ hl1
    have hB2wf := blockSem_wf _ hB1wf cls hclsV lang₂ hl2
    have h1 := blockTag_eq tn htn attrs hwf cls hclsV lang₁
    have h2 : addOrUpdateAttribute (addClasses (addOrUpdateAttribute
        (addClasses (tagStr tn attrs) cls) defaultReportOptions.dataCodeLangAttribute lang₁)
        cls) defaultReportOptions.dataCodeLangAttribute lang₂ =
        tagStr tn (blockSem (blockSem attrs cls lang₁) cls lang₂) := by
      rw [h1]
      exact blockTag_eq tn htn _ hB1wf cls hclsV lang₂
    have hp1 : parseAttributes (addOrUpdateAttribute (addClasses (tagStr tn attrs) cls)
        defaultReportOptions.dataCodeLangAttribute lang₁) = blockSem attrs cls lang₁ := by
      rw [h1]
      exact parseAttributes_tagStr _ _ htn hB1wf
    have hp2 : parseAttributes (addOrUpdateAttribute (addClasses (addOrUpdateAttribute
        (addClasses (tagStr tn attrs) cls) defaultReportOptions.dataCodeLangAttribute lang₁)
        cls) defaultReportOptions.dataCodeLangAttribute lang₂) =
        blockSem (blockSem attrs cls lang₁) cls lang₂ := by
      rw [h2]
      exact parseAttributes_tagStr _ _ htn hB2wf
    obtain ⟨hst1, hst2⟩ := blockSem_stable attrs hwf cls hclsT lang₁ lang₂
    refine ⟨?_, ?_, ?_⟩
    · rw [hp1, hp2]; exact hst1
    · rw [hp1, hp2, attrsLookup_eq_getAttr _ _ hB2wf.2,
        attrsLookup_eq_getAttr _ _ hB1wf.2]
      exact hst2
    · rw [hp1, attrsLookup_eq_getAttr _ _ hB1wf.2, blockSem_class]
      simp only [Option.getD_some]
      exact mergedTokens_nodup attrs cls hclsT
  · decide

theorem C9_enhancement_idempotence_witness :
    enhanceOneInlineCode defaultReportOptions "<code class=\"code-block-code\">" =
      "<code class=\"code-block-code\">" ∧
    (parseAttributes (enhanceOneInlineCode defaultReportOptions (enhanceOneInlineCode
        defaultReportOptions (tagStr "code" [("class", "language-js")])))).map Prod.fst =
      (parseAttributes (enhanceOneInlineCode defaultReportOptions
        (tagStr "code" [("class", "language-js")]))).map Prod.fst ∧
    (splitWsTokens ((attrsLookup (parseAttributes (addOrUpdateAttribute (addClasses
        (tagStr "pre" [("class", "qti-pre")]) (splitWsTokens
        defaultReportOptions.codeBlockClassName)) defaultReportOptions.dataCodeLangAttribute
        "plain")) "class").getD "")).Nodup :=
  ⟨C9_enhancement_idempotence.1 "<code class=\"code-block-code\">" (by decide),
   (C9_enhancement_idempotence.2.1 [("class", "language-js")] ⟨by decide, by decide⟩).1,
   (C9_enhancement_idempotence.2.2.1 "pre" [("class", "qti-pre")]
      (splitWsTokens defaultReportOptions.codeBlockClassName) "plain" "plain"
      ⟨by decide, by decide⟩ ⟨by decide, by decide⟩ (by decide) (by decide) (by decide)).2.2⟩
